import Mathlib

/-!
# gofem: porous-media model (`mporous/porous.go`)

Shallow embedding of `Model.Init`, `Model.NewState`, `Model.Update`, `Model.Ccb` and
`Model.Ccd` and of `GetModel`; the u-p element of `fem/e_up.go` follows in namespace `fem` and
the spectral composition of `msolid/auxiliary.go` in namespace `msolid`.

Numbers.  Go's `float64` is embedded as an arbitrary linearly ordered field `K`
(the rationals when a definition is evaluated, the reals where derivatives are taken):
arithmetic is exact, so rounding and overflow are not part of the embedding.  With finite
inputs the only operation of `porous.go` that can leave the finite numbers is a division by
zero; each division below says how it is treated.

Errors.  A Go `error` result is embedded as `Except Error _` or, where the function also
writes through a pointer, as a pair of the state left behind and an `Option Error`.

Printing (`ShowR`) has no effect on any result and is left out.
-/

namespace mporous

/-- Error values produced in `porous.go`, one constructor per `chk.Err` site, plus the error
values handed back by the retention model and by `mreten.Update`. -/
inductive Error where
  /-- an error returned by a method of the retention model (`mreten.Model`) -/
  | lrm (code : Nat)
  /-- an error returned by `mreten.Update` -/
  | odeSolver (code : Nat)
  /-- "NaN found: ..." -/
  | nanFound
  /-- the Newton correction of `Update` divides a nonzero residual by zero: in Go the
  saturation becomes `±Inf`, no later residual is finite, and the call ends in an error
  (from `Cc`, from `J`, "NaN found", or "saturation update failed") -/
  | notFinite
  /-- "saturation update failed after %d iterations" -/
  | updateFailed (it : Int)
  /-- "inconsistent results: saturation must be equal to one when the capillary pressure is
  ineffective" -/
  | inconsistent
  /-- "inconsistent results: saturation must be greater than minimum saturation" -/
  | belowSlMin
  /-- "mporous.Init: conductivity and liquid retention models must be non nil" -/
  | nilModels
  /-- "mporous.Model: parameter named %q is incorrect" -/
  | badParameter (name : String)
  deriving DecidableEq, Repr

/-- The methods of the retention-model interface `mreten.Model` that `porous.go` calls. -/
structure LrmModel (K : Type) where
  /-- returns sl_min -/
  SlMin : K
  /-- computes Cc = f = ∂sl/∂pc -/
  Cc : K → K → Bool → Except Error K
  /-- computes L = ∂Cc/∂pc -/
  L : K → K → Bool → Except Error K
  /-- computes J = ∂Cc/∂sl -/
  J : K → K → Bool → Except Error K
  /-- computes (L, Lx, J, Jx, Jy) -/
  Derivs : K → K → Bool → Except Error (K × K × K × K × K)

/-- The interface `mreten.Nonrate`: retention models that compute sl directly from pc. -/
structure Nonrate (K : Type) where
  /-- compute sl directly from pc -/
  Sl : K → K

/-- The method of the conductivity-model interface `mconduct.Model` used by the elements. -/
structure CndModel (K : Type) where
  /-- relative liquid conductivity -/
  Klr : K → K

/-- The struct `Model` of `porous.go`. -/
structure Model (K : Type) where
  NmaxIt : Int
  Itol : K
  PcZero : K
  MEtrial : Bool
  ShowR : Bool
  AllBE : Bool
  Ncns : Bool
  Ncns2 : Bool
  Nf0 : K
  RhoL0 : K
  RhoG0 : K
  RhoS0 : K
  BulkL : K
  RTg : K
  Gref : K
  Pkl : K
  Pkg : K
  Cl : K
  Cg : K
  Klsat : List (List K)
  Kgsat : List (List K)
  Cnd : CndModel K
  Lrm : LrmModel K
  /-- `nil` is `none` -/
  nonrateLrm : Option (Nonrate K)

/-- The struct `State`, with the field order of the literal
`&State{ns0, sl, ρL, ρG, 0, false}` in `NewState`. -/
structure State (K : Type) where
  A_ns0 : K
  A_sl : K
  A_ρL : K
  A_ρG : K
  A_Δpc : K
  A_wet : Bool
  deriving DecidableEq, Repr

section
variable {K : Type} [LinearOrderedField K]

/-- `Model.NewState`.  The function `mreten.Update` (package `mreten`, an ODE solver run
from `pc0 = 0`, `sl0 = 1` over the step `Δpc = pc`) is not part of `porous.go` and is the
parameter `mretenUpdate`, called as `mretenUpdate o.Lrm 0 1 pc`.  On an error the Go
function returns a nil state. -/
def NewState (mretenUpdate : LrmModel K → K → K → K → Except Error K)
    (o : Model K) (ρL ρG pl pg : K) : Except Error (State K) :=
  let pc := pg - pl
  let slE : Except Error K := if pc > 0 then mretenUpdate o.Lrm 0 1 pc else .ok 1
  match slE with
  | .error e => .error e
  | .ok sl =>
    let ns0 := 1 - o.Nf0
    .ok ⟨ns0, sl, ρL, ρG, 0, false⟩

/-- The backward-Euler loop of `Update`, `for it = 0; it < o.NmaxIt; it++ { ... }`.
The first argument is the number of iterations still allowed (`o.NmaxIt - it`), `it` is the
loop counter and `sl` the current saturation.  The result is the pair `(sl, it)` with which
the loop is left, by `break` or because `it` reached `o.NmaxIt`.

The division `-r / (1.0 - Δpc*J)`: with a zero denominator Go yields NaN when `r = 0`
(caught by `math.IsNaN`, error "NaN found") and `±Inf` otherwise, see `Error.notFinite`.
With a nonzero denominator the quotient is finite and `math.IsNaN(sl)` is false. -/
def beLoop (o : Model K) (pc sl0 Δpc : K) (wet : Bool) : Nat → Int → K → Except Error (K × Int)
  | 0, it, sl => .ok (sl, it)
  | n + 1, it, sl =>
    match o.Lrm.Cc pc sl wet with
    | .error e => .error e
    | .ok f =>
      let r := sl - sl0 - Δpc * f
      if |r| < o.Itol then .ok (sl, it)
      else
        match o.Lrm.J pc sl wet with
        | .error e => .error e
        | .ok J =>
          if 1 - Δpc * J = 0 then
            .error (if r = 0 then Error.nanFound else Error.notFinite)
          else
            let δsl := -r / (1 - Δpc * J)
            beLoop o pc sl0 Δpc wet n (it + 1) (sl + δsl)

/-- The trial saturation of the rate-type branch of `Update`: forward Euler or, with
`MEtrial`, modified Euler; before clipping. -/
def trialSl (o : Model K) (pc0 sl0 pc Δpc : K) (wet : Bool) : Except Error K :=
  match o.Lrm.Cc pc0 sl0 wet with
  | .error e => .error e
  | .ok fA =>
    if o.MEtrial then
      let slFE := sl0 + Δpc * fA
      match o.Lrm.Cc pc slFE wet with
      | .error e => .error e
      | .ok fB => .ok (sl0 + 0.5 * Δpc * (fA + fB))
    else .ok (sl0 + Δpc * fA)

/-- The statements "fix trial sl out-of-range values" of `Update`, in their order. -/
def clipSl (slmin sl : K) : K :=
  let sl1 := if sl < slmin then slmin else sl
  if sl1 > 1 then 1 else sl1

/-- The `else` branch of `Update` ("unsaturated case with rate-type model"): trial, clipping,
backward-Euler loop and the convergence check `it == o.NmaxIt`. -/
def rateSl (o : Model K) (pc0 sl0 pc Δpc : K) (wet : Bool) : Except Error K :=
  match trialSl o pc0 sl0 pc Δpc wet with
  | .error e => .error e
  | .ok slT =>
    match beLoop o pc sl0 Δpc wet o.NmaxIt.toNat 0 (clipSl o.Lrm.SlMin slT) with
    | .error e => .error e
    | .ok (sl, it) =>
      if it = o.NmaxIt then .error (Error.updateFailed it) else .ok sl

/-- The part "update liquid saturation" of `Update`: the three branches. -/
def updateSl (o : Model K) (pc0 sl0 pc Δpc : K) (wet : Bool) : Except Error K :=
  if pc ≤ 0 then .ok 1
  else
    match o.nonrateLrm, o.AllBE with
    | some m, false => .ok (m.Sl pc)
    | _, _ => rateSl o pc0 sl0 pc Δpc wet

/-- `Model.Update`.  The result is the state behind the pointer `s` after the call and the
returned error (`none` is `nil`). -/
def Update (o : Model K) (s : State K) (Δpl Δpg pl pg : K) : State K × Option Error :=
  let slmin := o.Lrm.SlMin
  let Δpc := Δpg - Δpl
  let wet := decide (Δpc < 0)
  let pl0 := pl - Δpl
  let pg0 := pg - Δpg
  let pc0 := pg0 - pl0
  let sl0 := s.A_sl
  let pc := pc0 + Δpc
  match updateSl o pc0 sl0 pc Δpc wet with
  | .error e => (s, some e)
  | .ok sl =>
    if pc < 0 ∧ sl < 1 then (s, some Error.inconsistent)
    else if sl < slmin then (s, some Error.belowSlMin)
    else
      ({ s with
          A_sl := sl
          A_ρL := s.A_ρL + o.Cl * Δpl
          A_ρG := s.A_ρG + o.Cg * Δpg
          A_Δpc := Δpc
          A_wet := wet }, none)

/-- `Model.Ccb` (Cc-bar).  The state is only read.  The quotient is written with the
field's division; for a zero denominator Go returns `±Inf` or NaN and no error. -/
def Ccb (o : Model K) (s : State K) (pc : K) : Except Error K :=
  let sl := s.A_sl
  let wet := s.A_wet
  let Δpc := s.A_Δpc
  match o.Lrm.Cc pc sl wet with
  | .error e => .error e
  | .ok f =>
    if o.Ncns then .ok f
    else
      match o.Lrm.L pc sl wet with
      | .error e => .error e
      | .ok L =>
        match o.Lrm.J pc sl wet with
        | .error e => .error e
        | .ok J => .ok ((f + Δpc * L) / (1 - Δpc * J))

/-- `Model.Ccd` (Cc-dash).  The state is only read.  Division as in `Ccb`. -/
def Ccd (o : Model K) (s : State K) (pc : K) : Except Error K :=
  let sl := s.A_sl
  let wet := s.A_wet
  let Δpc := s.A_Δpc
  if o.Ncns ∨ o.Ncns2 then o.Lrm.L pc sl wet
  else
    match o.Lrm.Cc pc sl wet with
    | .error e => .error e
    | .ok f =>
      match o.Lrm.Derivs pc sl wet with
      | .error e => .error e
      | .ok (L, Lx, J, Jx, Jy) =>
        let Ly := Jx
        let Ccb := (f + Δpc * L) / (1 - Δpc * J)
        let LL := Lx + Ly * Ccb
        let JJ := Jx + Jy * Ccb
        .ok ((2 * L + Δpc * LL + (2 * J + Δpc * JJ) * Ccb) / (1 - Δpc * J))

/-- The state written by the block "set state" of `Update`. -/
def commitState (o : Model K) (s : State K) (Δpl Δpg sl : K) : State K :=
  { s with
      A_sl := sl
      A_ρL := s.A_ρL + o.Cl * Δpl
      A_ρG := s.A_ρG + o.Cg * Δpg
      A_Δpc := Δpg - Δpl
      A_wet := decide (Δpg - Δpl < 0) }

end

/-! ## Concrete retention models and inputs -/

/-- Parameter set of `GetPrms(true)` with the constants that `Init` sets, around a given
retention model. -/
def exampleModel {K : Type} [LinearOrderedField K] (lrm : LrmModel K)
    (nonrate : Option (Nonrate K)) (allBE : Bool) : Model K :=
  { NmaxIt := 20, Itol := 1e-9, PcZero := 1e-10, MEtrial := true, ShowR := false,
    AllBE := allBE, Ncns := false, Ncns2 := false,
    Nf0 := 0.3, RhoL0 := 1, RhoG0 := 0.01, RhoS0 := 2.7, BulkL := 2.2e6, RTg := 0.02,
    Gref := 10, Pkl := 1e-3, Pkg := 1e-2,
    Cl := 1 / 2.2e6, Cg := 1 / 0.02,
    Klsat := [[1e-3 / 10, 0, 0], [0, 1e-3 / 10, 0], [0, 0, 1e-3 / 10]],
    Kgsat := [[1e-2 / 10, 0, 0], [0, 1e-2 / 10, 0], [0, 0, 1e-2 / 10]],
    Cnd := ⟨fun _ => 1⟩, Lrm := lrm, nonrateLrm := nonrate }

/-- The retention law of Scenario B of the specification:
`Cc(pc, sl, wet) = -α·(sl - sl_res)/(pc + 1)` with `α = 1e-4` and `sl_res = 0.05 = SlMin()`,
with its derivatives `L = ∂Cc/∂pc`, `J = ∂Cc/∂sl = -α/(pc + 1)`, `Lx = ∂L/∂pc`,
`Jx = ∂J/∂pc` and `Jy = ∂J/∂sl`.  It is used at `pc ≥ 0` only, where `pc + 1 ≠ 0`. -/
def scenarioBLrm (K : Type) [LinearOrderedField K] : LrmModel K :=
  { SlMin := 0.05
    Cc := fun pc sl _ => .ok (-1e-4 * (sl - 0.05) / (pc + 1))
    L := fun pc sl _ => .ok (1e-4 * (sl - 0.05) / (pc + 1) ^ 2)
    J := fun pc _ _ => .ok (-1e-4 / (pc + 1))
    Derivs := fun pc sl _ =>
      .ok (1e-4 * (sl - 0.05) / (pc + 1) ^ 2, -2e-4 * (sl - 0.05) / (pc + 1) ^ 3,
        -1e-4 / (pc + 1), 1e-4 / (pc + 1) ^ 2, 0) }

/-- The model of Scenario B: `exampleModel` around `scenarioBLrm`, so `Itol = 1e-9`,
`NmaxIt = 20` and `MEtrial` on. -/
def scenarioBModel (K : Type) [LinearOrderedField K] : Model K :=
  exampleModel (scenarioBLrm K) none false

/-- A rate-type retention model with hysteresis: slope -1/8 on drying, -1/2 on wetting. -/
def hystLrm : LrmModel ℚ :=
  { SlMin := 0
    Cc := fun _ _ wet => .ok (if wet then -1/2 else -1/8)
    L := fun _ _ _ => .ok 0
    J := fun _ _ _ => .ok 0
    Derivs := fun _ _ _ => .ok (0, 0, 0, 0, 0) }

/-- The fully saturated state that `NewState` builds for `pl = pg = 0`. -/
def satState (K : Type) [LinearOrderedField K] : State K := ⟨1 - 0.3, 1, 1, 0.01, 0, false⟩

/-- The state of `hystLrm` after drying from `satState` to pc = 4. -/
def driedState : State ℚ := ⟨1 - 0.3, 1/2, 1, 0.01 + 1 / 0.02 * 4, 4, false⟩

/-- A linear retention law with air-entry pressure 1: sl = 1 up to pc = 1, then slope -1/10
down to the minimum saturation 1/10. -/
def linSl (pc : ℚ) : ℚ := if pc ≤ 1 then 1 else max (1/10) (1 - 1/10 * (pc - 1))

/-- The model of `linSl` in rate form. -/
def linLrm : LrmModel ℚ :=
  { SlMin := 1/10
    Cc := fun pc _ _ => .ok (if pc ≤ 1 ∨ 10 ≤ pc then 0 else -1/10)
    L := fun _ _ _ => .ok 0
    J := fun _ _ _ => .ok 0
    Derivs := fun _ _ _ => .ok (0, 0, 0, 0, 0) }

/-- A retention model whose rate functions always fail. -/
def failLrm : LrmModel ℚ :=
  { SlMin := 1/10
    Cc := fun _ _ _ => .error (Error.lrm 1)
    L := fun _ _ _ => .error (Error.lrm 2)
    J := fun _ _ _ => .error (Error.lrm 3)
    Derivs := fun _ _ _ => .error (Error.lrm 4) }

/-- Modelled from the spec: `mreten.Update(mdl, pc0, sl0, Δpc)`, the retention update that
`NewState` calls; package `mreten` is not among the sources.  Section 3 of the specification
gives the initial saturation as "Update from sl=1 over pc step 0→pc": the saturation that
`Update` (with the constants of the model `o`) commits for a state with `sl = sl0` over the
step from `pc0` to `pc0 + Δpc`. -/
def mretenUpdate {K : Type} [LinearOrderedField K] (o : Model K) (lrm : LrmModel K)
    (pc0 sl0 Δpc : K) : Except Error K :=
  match Update { o with Lrm := lrm } ⟨0, sl0, 0, 0, 0, false⟩ 0 Δpc 0 (pc0 + Δpc) with
  | (s, none) => .ok s.A_sl
  | (_, some e) => .error e

/-- A parameter `fun.Prm`: its name `N` and value `V`. -/
structure Prm (K : Type) where
  N : String
  V : K

/-- The local variables `klx, kly, klz, kgx, kgy, kgz` of `Init`. -/
structure InitLocals (K : Type) where
  klx : K
  kly : K
  klz : K
  kgx : K
  kgy : K
  kgz : K

section
variable {K : Type} [LinearOrderedField K]

/-- Go's conversion `int(v)` of a finite `float64`: truncation toward zero. -/
def toInt [FloorRing K] (v : K) : Int := if 0 ≤ v then ⌊v⌋ else ⌈v⌉

/-- The `switch p.N` of `Init` for one parameter; the `default` case is the error. -/
def readPrm [FloorRing K] (o : Model K) (l : InitLocals K) (p : Prm K) :
    Except Error (Model K × InitLocals K) :=
  if p.N = "NmaxIt" then .ok ({ o with NmaxIt := toInt p.V }, l)
  else if p.N = "Itol" then .ok ({ o with Itol := p.V }, l)
  else if p.N = "PcZero" then .ok ({ o with PcZero := p.V }, l)
  else if p.N = "MEtrial" then .ok ({ o with MEtrial := decide (p.V > 0) }, l)
  else if p.N = "ShowR" then .ok ({ o with ShowR := decide (p.V > 0) }, l)
  else if p.N = "AllBE" then .ok ({ o with AllBE := decide (p.V > 0) }, l)
  else if p.N = "Ncns" then .ok ({ o with Ncns := decide (p.V > 0) }, l)
  else if p.N = "Ncns2" then .ok ({ o with Ncns2 := decide (p.V > 0) }, l)
  else if p.N = "nf0" then .ok ({ o with Nf0 := p.V }, l)
  else if p.N = "RhoL0" then .ok ({ o with RhoL0 := p.V }, l)
  else if p.N = "RhoG0" then .ok ({ o with RhoG0 := p.V }, l)
  else if p.N = "RhoS0" then .ok ({ o with RhoS0 := p.V }, l)
  else if p.N = "BulkL" then .ok ({ o with BulkL := p.V }, l)
  else if p.N = "RTg" then .ok ({ o with RTg := p.V }, l)
  else if p.N = "gref" then .ok ({ o with Gref := p.V }, l)
  else if p.N = "kl" then .ok ({ o with Pkl := p.V }, { l with klx := p.V, kly := p.V, klz := p.V })
  else if p.N = "kg" then .ok ({ o with Pkg := p.V }, { l with kgx := p.V, kgy := p.V, kgz := p.V })
  else .error (Error.badParameter p.N)

/-- The loop `for _, p := range prms` of `Init`; it ends at the first parameter with an
unknown name, with the assignments made so far. -/
def readPrms [FloorRing K] : Model K → InitLocals K → List (Prm K) →
    Model K × InitLocals K × Option Error
  | o, l, [] => (o, l, none)
  | o, l, p :: ps =>
    match readPrm o l p with
    | .error e => (o, l, some e)
    | .ok (o1, l1) => readPrms o1 l1 ps

/-- The first part of `Init`, for non-nil `cnd` and `lrm`: the blocks "conductivity and
retention models" and "constants", and `o.RTg = 1.0`.  `lrmNonrate` is the outcome of the
type assertion `o.Lrm.(mreten.Nonrate)`: `some m` when the retention model also has the
method `Sl`; with `none` the field `nonrateLrm` is not assigned. -/
def initStart (o : Model K) (c : CndModel K) (m : LrmModel K)
    (lrmNonrate : Option (Nonrate K)) : Model K :=
  let o1 := { o with Cnd := c, Lrm := m }
  let o2 := match lrmNonrate with
    | some nr => { o1 with nonrateLrm := some nr }
    | none => o1
  let o3 := { o2 with NmaxIt := 20, Itol := 1e-9, PcZero := 1e-10, MEtrial := true }
  { o3 with RTg := 1 }

/-- The last part of `Init`, after the parameter loop: the error return from inside the loop,
or the block "derived".  The quotients are written with the field's division; for a zero
denominator Go stores `±Inf` or NaN. -/
def initDerived : Model K × InitLocals K × Option Error → Model K × Option Error
  | (o, _, some e) => (o, some e)
  | (o, l, none) =>
    ({ o with
        Cl := o.RhoL0 / o.BulkL
        Cg := 1 / o.RTg
        Klsat := [[l.klx / o.Gref, 0, 0], [0, l.kly / o.Gref, 0], [0, 0, l.klz / o.Gref]]
        Kgsat := [[l.kgx / o.Gref, 0, 0], [0, l.kgy / o.Gref, 0], [0, 0, l.kgz / o.Gref]] },
      none)

/-- `Model.Init`.  The receiver `o` is the model before the call; the result is the model
after the call and the returned error.  `cnd` and `lrm` are `none` for nil. -/
def Init [FloorRing K] (o : Model K) (prms : List (Prm K)) (cnd : Option (CndModel K))
    (lrm : Option (LrmModel K)) (lrmNonrate : Option (Nonrate K)) : Model K × Option Error :=
  match cnd, lrm with
  | some c, some m => initDerived (readPrms (initStart o c m lrmNonrate) ⟨0, 0, 0, 0, 0, 0⟩ prms)
  | _, _ => (o, some Error.nilModels)

/-- The names that the `switch` of `Init` recognises. -/
def prmNames : List String :=
  ["NmaxIt", "Itol", "PcZero", "MEtrial", "ShowR", "AllBE", "Ncns", "Ncns2", "nf0", "RhoL0",
    "RhoG0", "RhoS0", "BulkL", "RTg", "gref", "kl", "kg"]

/-- A pressure path with the liquid pressure fixed: the calls
`Update(s, 0, Δpg, pl, pg + Δpg)` for the gas-pressure increments of the list, one after the
other, each on the state left by the call before.  The result is the list of the committed
saturations, or `none` when a call returns an error. -/
def gasPath (o : Model K) : State K → K → K → List K → Option (List K)
  | _, _, _, [] => some []
  | s, pl, pg, Δpg :: rest =>
    match Update o s 0 Δpg pl (pg + Δpg) with
    | (s1, none) => (gasPath o s1 pl (pg + Δpg) rest).map (fun sls => s1.A_sl :: sls)
    | (_, some _) => none

/-- The end-of-step capillary pressures of the calls of `gasPath`, one for each call
`Update(s, 0, Δpg, pl, pg + Δpg)`, as `Update` computes them: `pc := pc0 + Δpc` with
`pc0 := pg0 - pl0`, `pg0 := (pg + Δpg) - Δpg`, `pl0 := pl - 0` and `Δpc := Δpg - 0`. -/
def gasPathPc (pl : K) : K → List K → List K
  | _, [] => []
  | pg, Δpg :: rest => (pg + Δpg - Δpg - (pl - 0) + (Δpg - 0)) :: gasPathPc pl (pg + Δpg) rest

end

/-! ## `Init`: the fields after the call -/

section
variable {K : Type} [LinearOrderedField K]

/-- The value that the parameter loop of `Init` leaves in a field that the case `name` of the
`switch` assigns: `f` of the value of the last parameter of that name, and `d`, the value
before the loop, when no parameter has that name. -/
def lastPrm {α : Type} (name : String) (f : K → α) (d : α) (prms : List (Prm K)) : α :=
  prms.foldl (fun v p => if p.N = name then f p.V else v) d

/-- The model `new(Model)` that `GetModel` allocates: every field has its zero value.  The
fields `Cnd` and `Lrm` are nil interfaces in Go; they have no value in the embedding and
are given by the parameters `c` and `m` (`Init` overwrites both). -/
def newModel (c : CndModel K) (m : LrmModel K) : Model K :=
  { NmaxIt := 0, Itol := 0, PcZero := 0, MEtrial := false, ShowR := false, AllBE := false,
    Ncns := false, Ncns2 := false, Nf0 := 0, RhoL0 := 0, RhoG0 := 0, RhoS0 := 0, BulkL := 0,
    RTg := 0, Gref := 0, Pkl := 0, Pkg := 0, Cl := 0, Cg := 0, Klsat := [], Kgsat := [],
    Cnd := c, Lrm := m, nonrateLrm := none }

end

/-- The example parameters of `GetPrms(true)`. -/
def examplePrms : List (Prm ℚ) :=
  [⟨"nf0", 0.3⟩, ⟨"RhoL0", 1⟩, ⟨"RhoG0", 0.01⟩, ⟨"RhoS0", 2.7⟩, ⟨"BulkL", 2.2e6⟩,
    ⟨"RTg", 0.02⟩, ⟨"gref", 10⟩, ⟨"kl", 1e-3⟩, ⟨"kg", 1e-2⟩]

/-- The example parameters with a negative liquid density and a porosity above 1. -/
def badPrms : List (Prm ℚ) :=
  [⟨"nf0", 1.5⟩, ⟨"RhoL0", -1⟩, ⟨"RhoG0", 0.01⟩, ⟨"RhoS0", 2.7⟩, ⟨"BulkL", 2.2e6⟩,
    ⟨"RTg", 0.02⟩, ⟨"gref", 10⟩, ⟨"kl", 1e-3⟩, ⟨"kg", 1e-2⟩]

/-- A model as `Init` with the parameters `ShowR = 1` and `RhoL0 = 2` leaves it. -/
def usedModel : Model ℚ :=
  (Init (newModel ⟨fun _ => 1⟩ linLrm) [⟨"ShowR", 1⟩, ⟨"RhoL0", 2⟩] (some ⟨fun _ => 1⟩)
    (some linLrm) none).1

/-! ## `GetModel` -/

/-- The database `_models` of the package.  A `*Model` is identified by its address, a
number; `next` is the address that the next `new(Model)` returns, so every address below
`next` is taken. -/
structure Models where
  db : String → Option Nat
  next : Nat

/-- The empty database at program start. -/
def noModels : Models := ⟨fun _ => none, 0⟩

/-- `GetModel(simfnk, matname, getnew)`: the address returned and the database after the
call.  `io.Sf("%s_%s", simfnk, matname)` is the concatenation with an underscore. -/
def GetModel (st : Models) (simfnk matname : String) (getnew : Bool) : Nat × Models :=
  if getnew then (st.next, { st with next := st.next + 1 })
  else
    let key := simfnk ++ "_" ++ matname
    match st.db key with
    | some model => (model, st)
    | none => (st.next, ⟨fun k => if k = key then some st.next else st.db k, st.next + 1⟩)

/-- The invariant of the database: every registered address is taken, and two keys never
share an address. -/
def Models.wf (st : Models) : Prop :=
  (∀ k a, st.db k = some a → a < st.next) ∧
    ∀ k1 k2 a, st.db k1 = some a → st.db k2 = some a → k1 = k2

end mporous

/-!
# gofem: the u-p element (`fem/e_up.go`)

The sub-elements `ElemU` and `ElemP`, the shape functions, the per-point evaluation `CalcLs`
and the information allocators of "u" and "p" are not among the sources; what `e_up.go` reads
from them is a parameter of the definitions below or a field of `ElemUP`.  Numeric slices are
embedded as functions of the index, and a statement `a[k] += v` is an update of the function
at `k`.  The index maps `Umap` and `Pmap` are lists; a read outside a list is a Go panic and
gives 0 here, so theorems that read them assume the lengths that the element gives them.
Where a claim is about indices being in range, a read is an `Option`.
-/

namespace fem

/-- The fields of `Info` that the "up" information allocator sets.  `Y2F` is a Go map: a key
without an entry is mapped to `none`. -/
structure Info where
  Dofs : List (List String)
  Y2F : String → Option String
  T1vars : List String
  T2vars : List String

/-- The loop `for i, dofs := range d { rows[i] = append(rows[i], dofs...) }` on the slice
`rows`; `none` is the index-out-of-range panic when `d` has more rows than `rows`. -/
def appendDofs : List (List String) → List (List String) → Option (List (List String))
  | rows, [] => some rows
  | [], _ :: _ => none
  | r :: rows, d :: ds => (appendDofs rows ds).map (fun t => (r ++ d) :: t)

/-- The information allocator `infogetters["up"]`.  Its calls of `infogetters["u"]`,
`infogetters["p"]` and `shp.GetNverts(cellType)` are the parameters `u_info`, `p_info` and
`nverts`; `none` is a panic.  The map `info.Y2F` is the map of `u_info` with the entries of
`p_info` written into it (the map of `u_info` is taken to be allocated). -/
def infogettersUP (nverts : Nat) (u_info p_info : Info) : Option Info :=
  match appendDofs (List.replicate nverts []) u_info.Dofs with
  | none => none
  | some d1 =>
    match appendDofs d1 p_info.Dofs with
    | none => none
    | some d2 =>
      some
        { Dofs := d2
          Y2F := fun key =>
            match p_info.Y2F key with
            | some val => some val
            | none => u_info.Y2F key
          T1vars := p_info.T1vars
          T2vars := u_info.T2vars }

/-- The read `eqs[i][j]`; `none` is the index-out-of-range panic. -/
def eqsAt (eqs : List (List Int)) (i j : Nat) : Option Int :=
  (eqs[i]?).bind (fun row => row[j]?)

/-- All values of a list of reads, or `none` when one of them fails. -/
def allReads {α : Type} : List (Option α) → Option (List α)
  | [] => some []
  | none :: _ => none
  | some a :: l => (allReads l).map (fun t => a :: t)

/-- The loop `for j := 0; j < nkeys; j++ { row[j] = eqs[i][start+j] }`. -/
def copyRow (eqs : List (List Int)) (i start nkeys : Nat) : Option (List Int) :=
  allReads ((List.range nkeys).map (fun j => eqsAt eqs i (start + j)))

/-- `ElemUP.SetEqs`.  `u_Dofs` and `p_Dofs` are the `Dofs` of `infogetters["u"](o.CtypeU,
o.Fconds)` and `infogetters["p"](o.CtypeP, o.Fconds)`; `USetEqs` and `PSetEqs` are the results
of `o.U.SetEqs` and of `o.P.SetEqs(·, nil)`.  The result is `none` for a panic, and otherwise
the slices `u_eqs` and `p_eqs` that are built and the value returned. -/
def SetEqs (u_Dofs p_Dofs : List (List String)) (USetEqs : List (List Int) → List Int → Bool)
    (PSetEqs : List (List Int) → Bool) (eqs : List (List Int)) (mixedform_eqs : List Int) :
    Option (List (List Int) × List (List Int) × Bool) :=
  let u_nverts := u_Dofs.length
  let p_nverts := p_Dofs.length
  match allReads ((List.range u_nverts).map (fun i =>
      (u_Dofs[i]?).bind (fun dofs => copyRow eqs i 0 dofs.length))) with
  | none => none
  | some u_eqs =>
    match allReads ((List.range p_nverts).map (fun i =>
        (u_Dofs[i]?).bind (fun udofs =>
          (p_Dofs[i]?).bind (fun pdofs => copyRow eqs i udofs.length pdofs.length)))) with
    | none => none
    | some p_eqs =>
      if !USetEqs u_eqs mixedform_eqs then some (u_eqs, p_eqs, false)
      else some (u_eqs, p_eqs, PSetEqs p_eqs)

/-! ## Integration-point loops of `e_up.go` -/

/-- Shape functions of the U sub-element at an integration point, after
`o.U.Shp.CalcAtIp`: `S[m]`, `G[m][i]` and the Jacobian `J`. -/
structure UShape (K : Type) where
  S : Nat → K
  G : Nat → Nat → K
  J : K

/-- Shape functions of the P sub-element at an integration point, after
`o.P.Shp.CalcAtIp`: `S[m]` and `G[m][i]`. -/
structure PShape (K : Type) where
  S : Nat → K
  G : Nat → Nat → K

/-- The fields of the record `o.P.res` that `e_up.go` reads after `CalcLs`. -/
structure LsVars (K : Type) where
  A_ρl : K
  A_ρ : K
  A_p : K
  Cpl : K
  Cvs : K
  Dρdpl : K
  Dpdpl : K
  DCpldpl : K
  DCvsdpl : K
  Dklrdpl : K
  DCpldusM : K
  DρldusM : K
  DρdusM : K

/-- The fields of `Solution` read by the functions below. -/
structure Solution (K : Type) where
  T : K
  Y : Nat → K

/-- The data of an `ElemUP`, of its sub-elements `U` and `P` and of `Global` that the
functions below read.  Results of functions that are not among the sources are fields:
the shape functions at the integration point `idx` (`none` is an error), the radius, the
gravity vector that `compute_gvec(t)` leaves in `o.P.g`, `CalcLs` (`none` is an error), the
outcome of `CalcD`, the components `tsr.M2T(σe, i, j)` of the effective stress and the vector
`tr(B)·σe` of the B-matrix form. -/
structure ElemUP (K : Type) where
  /-- `Global.Ndim` -/
  Ndim : Nat
  /-- `Global.DynCoefs` -/
  α1 : K
  α4 : K
  β1 : K
  /-- `Global.Sim.Data.Axisym` -/
  Axisym : Bool
  /-- `len(o.U.IpsElem)` and the weights `ip.W` -/
  Nip : Nat
  W : Nat → K
  /-- `o.U.Shp.Nverts`, `o.U.Nu`, `o.U.Umap`, `o.U.UseB`, `len(o.U.NatBcs)` -/
  u_nverts : Nat
  Nu : Nat
  Umap : List Nat
  UseB : Bool
  U_NatBcs : Nat
  UShp : Nat → Option (UShape K)
  Radius : Nat → K
  ζs : Nat → Nat → K
  divχs : Nat → K
  M2Tσe : Nat → Nat → Nat → K
  Btσe : Nat → Nat → K
  CalcD : Nat → Bool → Bool
  /-- `o.P.Shp.Nverts`, `o.P.Np`, `o.P.Pmap`, `o.P.DoExtrap`, `o.P.HasSeep`,
  `len(o.P.NatBcs)` -/
  p_nverts : Nat
  Np : Nat
  Pmap : List Nat
  DoExtrap : Bool
  HasSeep : Bool
  P_NatBcs : Nat
  PShp : Nat → Option (PShape K)
  ψl : Nat → K
  g : K → Nat → K
  Mdl : mporous.Model K
  States : Nat → mporous.State K
  StatesBkp : Nat → mporous.State K
  CalcLs : mporous.State K → K → K → Bool → Option (LsVars K)

section
variable {K : Type} [LinearOrderedField K]

/-- The loop `for k := 0; k < n; k++ { acc += term(k) }` from `acc = 0`. -/
def sumLoop (n : Nat) (term : Nat → K) : K :=
  (List.range n).foldl (fun acc k => acc + term k) 0

/-- Two nested loops adding to one accumulator:
`for a := 0; a < n1; a++ { for b := 0; b < n2; b++ { acc += term(a, b) } }` from `acc = 0`. -/
def sumLoop2 (n1 n2 : Nat) (term : Nat → Nat → K) : K :=
  (List.range n1).foldl (fun acc a => (List.range n2).foldl (fun acc b => acc + term a b) acc) 0

/-- The statements `f[k] += v` of a loop nest, executed in their order on `f`
(`f[k] -= v` is the statement with `-v`). -/
def addAll {ι : Type} [DecidableEq ι] (f : ι → K) (cmds : List (ι × K)) : ι → K :=
  cmds.foldl (fun f c => Function.update f c.1 (f c.1 + c.2)) f

/-- The sum of the values that the statements `cmds` add to the entry `k`. -/
def keySum {ι : Type} [DecidableEq ι] (cmds : List (ι × K)) (k : ι) : K :=
  ((cmds.filter (fun c => c.1 = k)).map Prod.snd).sum

/-- The entry `o.P.Mdl.Klsat[i][j]`. -/
def Klsat (o : ElemUP K) (i j : Nat) : K := (o.Mdl.Klsat.getD i []).getD j 0

/-- The scratch values that `ipvars` leaves behind. -/
structure IpVars (K : Type) where
  divus : K
  pl : K
  us : Nat → K
  gpl : Nat → K
  bs : Nat → K
  hl : Nat → K

/-- `ElemUP.ipvars(idx, sol)`: `none` when it returns false (a shape-function error), and
otherwise the shape functions of both sub-elements and the scratch values. -/
def ipvars (o : ElemUP K) (idx : Nat) (sol : Solution K) :
    Option (PShape K × UShape K × IpVars K) :=
  match o.PShp idx with
  | none => none
  | some p =>
    match o.UShp idx with
    | none => none
    | some u =>
      let ρL := (o.States idx).A_ρL
      let g := o.g sol.T
      let divus := sumLoop2 o.Ndim o.u_nverts
        (fun i m => u.G m i * sol.Y (o.Umap.getD (i + m * o.Ndim) 0))
      let us := fun i => sumLoop o.u_nverts
        (fun m => u.S m * sol.Y (o.Umap.getD (i + m * o.Ndim) 0))
      let pl := sumLoop o.p_nverts (fun m => p.S m * sol.Y (o.Pmap.getD m 0))
      let gpl := fun i => sumLoop o.p_nverts (fun m => p.G m i * sol.Y (o.Pmap.getD m 0))
      let bs := fun i => o.α1 * us i - o.ζs idx i - g i
      let hl := fun i => -ρL * bs i - gpl i
      some (p, u, ⟨divus, pl, us, gpl, bs, hl⟩)

/-- The values of the local variables of `AddToRhs` and `AddToKb` at an integration point,
up to and including the call of `CalcLs`. -/
structure IpLocals (K : Type) where
  p : PShape K
  u : UShape K
  v : IpVars K
  coef : K
  radius : K
  divvs : K
  plt : K
  klr : K
  ρL : K
  Cl : K
  res : LsVars K

/-- The head of the loop body of `AddToRhs` (`derivs = false`) and of `AddToKb`
(`derivs = true`): `ipvars`, `coef`, the axisymmetric case, `divvs`, `plt`, `klr`, `ρL`, `Cl`
and `CalcLs`; `none` when the function returns false there. -/
def ipLocals (o : ElemUP K) (sol : Solution K) (idx : Nat) (derivs : Bool) :
    Option (IpLocals K) :=
  match ipvars o idx sol with
  | none => none
  | some (p, u, v) =>
    let coef := u.J * o.W idx
    let radius := if o.Axisym then o.Radius idx else 1
    let coef := if o.Axisym then coef * radius else coef
    let divvs := o.α4 * v.divus - o.divχs idx
    let plt := o.β1 * v.pl - o.ψl idx
    let klr := o.Mdl.Cnd.Klr (o.States idx).A_sl
    let ρL := (o.States idx).A_ρL
    let Cl := o.Mdl.Cl
    match o.CalcLs (o.States idx) v.pl v.divus derivs with
    | none => none
    | some res => some ⟨p, u, v, coef, radius, divvs, plt, klr, ρL, Cl, res⟩

/-- The vector `o.P.ρwl` of `AddToRhs`: `ρwl[i] = 0`, then `ρwl[i] += klr·Klsat[i][j]·hl[j]`
for `j < ndim`. -/
def ρwl (o : ElemUP K) (e : IpLocals K) (i : Nat) : K :=
  sumLoop o.Ndim (fun j => e.klr * Klsat o i j * e.v.hl j)

/-- The statements on `fb` of the loop "p: add negative of residual term to fb" of
`AddToRhs`. -/
def rhsPCmds (o : ElemUP K) (e : IpLocals K) : List (Nat × K) :=
  (List.range o.p_nverts).flatMap (fun m =>
    (o.Pmap.getD m 0, -(e.coef * e.p.S m * (e.res.Cpl * e.plt + e.res.Cvs * e.divvs))) ::
      (List.range o.Ndim).map (fun i => (o.Pmap.getD m 0, e.coef * e.p.G m i * ρwl o e i)))

/-- The statements on `fb` of the loop "u: add negative of residual term to fb" of
`AddToRhs`, in the branch of `o.U.UseB` and in the other branch. -/
def rhsUCmds (o : ElemUP K) (idx : Nat) (e : IpLocals K) : List (Nat × K) :=
  (List.range o.u_nverts).flatMap (fun m =>
    (List.range o.Ndim).flatMap (fun i =>
      let r := o.Umap.getD (i + m * o.Ndim) 0
      if o.UseB then
        [(r, -(e.coef * e.u.S m * e.res.A_ρ * e.v.bs i)), (r, e.coef * e.res.A_p * e.u.G m i)]
      else
        (r, -(e.coef * e.u.S m * e.res.A_ρ * e.v.bs i)) ::
          ((List.range o.Ndim).map (fun j => (r, -(e.coef * o.M2Tσe idx i j * e.u.G m j))) ++
            [(r, e.coef * e.res.A_p * e.u.G m i)])))

/-- The loop over the integration points of `AddToRhs`, on `fb` and `o.U.fi`; the Boolean is
false when the function returns false inside the loop.  (The vector `o.P.ρl_ex` of the
seepage extrapolation is not part of the result.) -/
def rhsLoop (o : ElemUP K) (sol : Solution K) :
    List Nat → (Nat → K) × (Nat → K) → ((Nat → K) × (Nat → K)) × Bool
  | [], st => (st, true)
  | idx :: rest, (fb, fi) =>
    match ipLocals o sol idx false with
    | none => ((fb, fi), false)
    | some e =>
      let fb1 := addAll fb (rhsPCmds o e)
      let fi1 := if o.UseB then fun i => fi i + e.coef * o.Btσe idx i else fi
      let fb2 := addAll fb1 (rhsUCmds o idx e)
      rhsLoop o sol rest (fb2, fi1)

/-- `ElemUP.AddToRhs`: the vector `fb` after the call and the value returned.  The functions
`o.U.add_surfloads_to_rhs` and `o.P.add_natbcs_to_rhs` are parameters. -/
def AddToRhs (o : ElemUP K) (add_surfloads_to_rhs add_natbcs_to_rhs : (Nat → K) → (Nat → K) × Bool)
    (fb : Nat → K) (sol : Solution K) : (Nat → K) × Bool :=
  match rhsLoop o sol (List.range o.Nip) (fb, fun _ => 0) with
  | ((fb1, _), false) => (fb1, false)
  | ((fb1, fi), true) =>
    let fb2 := if o.UseB then addAll fb1 (o.Umap.enum.map (fun iI => (iI.2, -(fi iI.1)))) else fb1
    let r3 := if o.U_NatBcs > 0 then add_surfloads_to_rhs fb2 else (fb2, true)
    if !r3.2 then r3
    else if o.P_NatBcs > 0 then add_natbcs_to_rhs r3.1 else (r3.1, true)

/-- The statements on `o.Kpu` of the loop "Kpu, Kup and Kpp" of `AddToKb`; the entry
`Kpu[n][c]` is the value at `(n, c)`. -/
def kpuCmds (o : ElemUP K) (e : IpLocals K) : List ((Nat × Nat) × K) :=
  (List.range o.p_nverts).flatMap (fun n =>
    (List.range o.Ndim).flatMap (fun j =>
      (List.range o.u_nverts).flatMap (fun m =>
        ((n, j + m * o.Ndim),
            e.coef * e.p.S n * (e.res.DCpldusM * e.plt + o.α4 * e.res.Cvs) * e.u.G m j) ::
          (List.range o.Ndim).map (fun i =>
            ((n, j + m * o.Ndim),
              e.coef * e.p.G n i * e.u.S m * o.α1 * e.ρL * e.klr * Klsat o i j)))))

/-- The statements on `o.Kup` of the loop "Kpu, Kup and Kpp" of `AddToKb`; the entry
`Kup[c][n]` is the value at `(c, n)`. -/
def kupCmds (o : ElemUP K) (e : IpLocals K) : List ((Nat × Nat) × K) :=
  (List.range o.p_nverts).flatMap (fun n =>
    (List.range o.Ndim).flatMap (fun j =>
      (List.range o.u_nverts).map (fun m =>
        ((j + m * o.Ndim, n),
          e.coef * (e.u.S m * e.p.S n * e.res.Dρdpl * e.v.bs j
            - e.u.G m j * e.p.S n * e.res.Dpdpl)))))

/-- The loop "clear matrices" of `AddToKb` on `o.Kup`: `Kup[i][j] = 0` for `i < o.U.Nu` and
`j < o.P.Np`. -/
def clearKup (o : ElemUP K) (Kup : Nat × Nat → K) : Nat × Nat → K :=
  fun ij => if ij.1 < o.Nu ∧ ij.2 < o.Np then 0 else Kup ij

/-- The loop "clear matrices" of `AddToKb` on `o.Kpu`: `Kpu[j][i] = 0` for `i < o.U.Nu` and
`j < o.P.Np`. -/
def clearKpu (o : ElemUP K) (Kpu : Nat × Nat → K) : Nat × Nat → K :=
  fun ji => if ji.2 < o.Nu ∧ ji.1 < o.Np then 0 else Kpu ji

/-- The loop over the integration points of `AddToKb`, on the pair `(o.Kpu, o.Kup)`; the
Boolean is false when the function returns false inside the loop (after `ipvars`, after
`CalcLs`, or after `CalcD`, which comes after the statements on `Kpu` and `Kup`). -/
def kbLoop (o : ElemUP K) (sol : Solution K) (firstIt : Bool) :
    List Nat → (Nat × Nat → K) × (Nat × Nat → K) →
      ((Nat × Nat → K) × (Nat × Nat → K)) × Bool
  | [], st => (st, true)
  | idx :: rest, (Kpu, Kup) =>
    match ipLocals o sol idx true with
    | none => ((Kpu, Kup), false)
    | some e =>
      let Kpu1 := addAll Kpu (kpuCmds o e)
      let Kup1 := addAll Kup (kupCmds o e)
      if o.CalcD idx firstIt then kbLoop o sol firstIt rest (Kpu1, Kup1)
      else ((Kpu1, Kup1), false)

/-- `ElemUP.AddToKb` on the coupling blocks: the pair `(o.Kpu, o.Kup)` at the place where the
blocks are put into `Kb`, and false when the function has returned false before.  The
effect of the two calls `add_natbcs_to_jac` of a seepage face on the pair is the parameter
`natbcs_jac`. -/
def AddToKb (o : ElemUP K)
    (natbcs_jac : (Nat × Nat → K) × (Nat × Nat → K) → ((Nat × Nat → K) × (Nat × Nat → K)) × Bool)
    (sol : Solution K) (firstIt : Bool) (Kpu Kup : Nat × Nat → K) :
    ((Nat × Nat → K) × (Nat × Nat → K)) × Bool :=
  match kbLoop o sol firstIt (List.range o.Nip) (clearKpu o Kpu, clearKup o Kup) with
  | (st, false) => (st, false)
  | (st, true) => if o.HasSeep then natbcs_jac st else (st, true)

/-- The loop over the integration points of `SetIniIvs`: the triple
`(sx[i], sy[i], sz[i])` of every point, `none` when `CalcAtIp` gives an error at one of
them.  `States` are the states of the P sub-element. -/
def iniStresses (o : ElemUP K) (States : Nat → mporous.State K) (sol : Solution K)
    (svT : List K) (K0 : K) : Option (List (K × K × K)) :=
  allReads ((List.range o.Nip).map (fun i =>
    (o.PShp i).map (fun sh =>
      let pl := sumLoop o.p_nverts (fun m => sh.S m * sol.Y (o.Pmap.getD m 0))
      let p := pl * (States i).A_sl
      let svE := svT.getD i 0 + p
      let shE := K0 * svE
      if o.Ndim = 3 then (shE, shE, svE) else (shE, svE, shE))))

/-- `ElemUP.SetIniIvs(sol, ivs)`.  The result of `o.P.SetIniIvs(sol, nil)` is the parameter
`PSetIniIvs`: the states of the P sub-element when it returns true, `none` when it returns
false; `USetIniIvs` is `o.U.SetIniIvs(sol, ·)`.  The value is `none` when `chk.IntAssert`
stops the program, and otherwise the map handed to the U sub-element (`none` when it is
not called) and the value returned. -/
def SetIniIvs (o : ElemUP K) (PSetIniIvs : Option (Nat → mporous.State K))
    (USetIniIvs : (String → Option (List K)) → Bool) (sol : Solution K)
    (ivs : String → Option (List K)) : Option (Option (String → Option (List K)) × Bool) :=
  match PSetIniIvs with
  | none => some (none, false)
  | some States =>
    match ivs "svT" with
    | none => some (some ivs, USetIniIvs ivs)
    | some svT =>
      let K0s := (ivs "K0").getD []
      if svT.length ≠ o.Nip ∨ K0s.length ≠ 1 then none
      else
        match iniStresses o States sol svT (K0s.getD 0 0) with
        | none => some (none, false)
        | some s =>
          let ivs1 : String → Option (List K) := fun key =>
            if key = "sx" then some (s.map (fun t => t.1))
            else if key = "sy" then some (s.map (fun t => t.2.1))
            else if key = "sz" then some (s.map (fun t => t.2.2))
            else none
          some (some ivs1, USetIniIvs ivs1)

/-- The loop over the integration points of `Ureset`, on the pair
`(o.P.States, o.P.StatesBkp)`; the Boolean is false when `CalcAtIp` gives an error. -/
def uresetLoop (o : ElemUP K) (sol : Solution K) :
    List Nat → (Nat → mporous.State K) × (Nat → mporous.State K) →
      ((Nat → mporous.State K) × (Nat → mporous.State K)) × Bool
  | [], st => (st, true)
  | idx :: rest, (States, StatesBkp) =>
    match o.UShp idx with
    | none => ((States, StatesBkp), false)
    | some sh =>
      let divus := sumLoop2 o.u_nverts o.Ndim
        (fun m i => sh.G m i * sol.Y (o.Umap.getD (i + m * o.Ndim) 0))
      let States1 := Function.update States idx
        { States idx with A_ns0 := (1 - divus) * (1 - o.Mdl.Nf0) }
      let StatesBkp1 := Function.update StatesBkp idx
        { StatesBkp idx with A_ns0 := (States1 idx).A_ns0 }
      uresetLoop o sol rest (States1, StatesBkp1)

/-- `ElemUP.Ureset(sol)`: the pair `(o.P.States, o.P.StatesBkp)` after the call and the value
returned.  `UUreset` is the value of `o.U.Ureset(sol)`, and `PUreset` is `o.P.Ureset(sol)` as
a function on the pair. -/
def Ureset (o : ElemUP K) (UUreset : Bool)
    (PUreset : (Nat → mporous.State K) × (Nat → mporous.State K) →
      ((Nat → mporous.State K) × (Nat → mporous.State K)) × Bool)
    (sol : Solution K) : ((Nat → mporous.State K) × (Nat → mporous.State K)) × Bool :=
  match uresetLoop o sol (List.range o.Nip) (o.States, o.StatesBkp) with
  | (st, false) => (st, false)
  | (st, true) => if !UUreset then (st, false) else PUreset st

end

/-- The gradients of the three linear shape functions of the unit triangle. -/
def triG (m i : Nat) : ℚ :=
  match m, i with
  | 0, 0 => -1
  | 0, 1 => -1
  | 1, 0 => 1
  | 2, 1 => 1
  | _, _ => 0

/-- The record that `CalcLs` leaves in `o.P.res` for the example element. -/
def exampleLs : LsVars ℚ :=
  { A_ρl := 3 / 10, A_ρ := 2, A_p := 5, Cpl := 1 / 4, Cvs := 1 / 2, Dρdpl := 1 / 8,
    Dpdpl := 1, DCpldpl := 0, DCvsdpl := 0, Dklrdpl := 0, DCpldusM := 3, DρldusM := 0,
    DρdusM := 0 }

/-- An example element: a plane triangle with three displacement vertices (equations
0, 1, 3, 4, 6, 7), three pressure vertices (equations 2, 5, 8), two integration points of
weight 1/4 with shape functions 1/3 and Jacobian 2, gravity 10 downwards, saturated
states, no natural boundary conditions and no seepage face. -/
def exampleElem : ElemUP ℚ :=
  { Ndim := 2, α1 := 1, α4 := 2, β1 := 3, Axisym := false, Nip := 2, W := fun _ => 1 / 4,
    u_nverts := 3, Nu := 6, Umap := [0, 1, 3, 4, 6, 7], UseB := false, U_NatBcs := 0,
    UShp := fun _ => some ⟨fun _ => 1 / 3, triG, 2⟩, Radius := fun _ => 1,
    ζs := fun _ _ => 0, divχs := fun _ => 0, M2Tσe := fun _ _ _ => 0, Btσe := fun _ _ => 0,
    CalcD := fun _ _ => true,
    p_nverts := 3, Np := 3, Pmap := [2, 5, 8], DoExtrap := false, HasSeep := false,
    P_NatBcs := 0, PShp := fun _ => some ⟨fun _ => 1 / 3, triG⟩, ψl := fun _ => 0,
    g := fun _ i => if i = 1 then 10 else 0,
    Mdl := mporous.exampleModel (mporous.scenarioBLrm ℚ) none false,
    States := fun _ => mporous.satState ℚ, StatesBkp := fun _ => mporous.satState ℚ,
    CalcLs := fun _ _ _ _ => some exampleLs }

/-- A solution vector: displacements `u_x = k/10` and `u_y = 0` at vertex `k`, pressure 6
at every vertex. -/
def exampleSol : Solution ℚ :=
  { T := 0, Y := fun r => if r = 3 then 1 / 10 else if r = 6 then 2 / 10
      else if r = 2 ∨ r = 5 ∨ r = 8 then 6 else 0 }

/-! ## `ipvars` on the scratch values, the assembly of `AddToKb`, and the seepage face -/

section
variable {K : Type} [LinearOrderedField K]

/-- `ElemUP.ipvars(idx, sol)` as statements on the scratch values that the element holds
before the call, `prev` (`o.divus`, `o.P.pl` and the slices `o.U.us`, `o.P.gpl`, `o.bs`,
`o.hl`): the statements on each of `divus`, `us`, `gpl` and `pl` in their order, and the
loop "compute bs and hl" on the pair of slices.  The result is `none` when `ipvars` returns
false. -/
def ipvarsOn (o : ElemUP K) (idx : Nat) (sol : Solution K) (prev : IpVars K) :
    Option (PShape K × UShape K × IpVars K) :=
  match o.PShp idx with
  | none => none
  | some p =>
    match o.UShp idx with
    | none => none
    | some u =>
      let ρL := (o.States idx).A_ρL
      let g := o.g sol.T
      let divus := (List.range o.Ndim).foldl (fun acc i =>
        (List.range o.u_nverts).foldl (fun acc m =>
          acc + u.G m i * sol.Y (o.Umap.getD (i + m * o.Ndim) 0)) acc) 0
      let us := (List.range o.Ndim).foldl (fun us i =>
        (List.range o.u_nverts).foldl (fun us m =>
          Function.update us i (us i + u.S m * sol.Y (o.Umap.getD (i + m * o.Ndim) 0)))
          (Function.update us i 0)) prev.us
      let gpl0 := (List.range o.Ndim).foldl (fun gpl i => Function.update gpl i 0) prev.gpl
      let pl := (List.range o.p_nverts).foldl (fun acc m =>
        acc + p.S m * sol.Y (o.Pmap.getD m 0)) 0
      let gpl := (List.range o.p_nverts).foldl (fun gpl m =>
        (List.range o.Ndim).foldl (fun gpl i =>
          Function.update gpl i (gpl i + p.G m i * sol.Y (o.Pmap.getD m 0))) gpl) gpl0
      let bshl := (List.range o.Ndim).foldl (fun (t : (Nat → K) × (Nat → K)) i =>
        let bs := Function.update t.1 i (o.α1 * us i - o.ζs idx i - g i)
        (bs, Function.update t.2 i (-ρL * bs i - gpl i))) (prev.bs, prev.hl)
      some (p, u, ⟨divus, pl, us, gpl, bshl.1, bshl.2⟩)

/-- The entries of a local matrix with `len(rowMap)` rows and `len(colMap)` columns, each
index pair `(i, j)` once, row by row; `entry i j` is the triple put for the pair. -/
def blockPuts (rowMap colMap : List Nat) (entry : Nat → Nat → Nat × Nat × K) :
    List (Nat × Nat × K) :=
  (List.range rowMap.length).flatMap (fun i => (List.range colMap.length).map (fun j => entry i j))

/-- The calls `Kb.Put(I, J, value)` of the block "add K to sparse matrix Kb" of `AddToKb`, in
their order.  `Fmap` is `o.P.Fmap`, and the local matrices are given by their entries:
`Kpp (i, j)` is `o.P.Kpp[i][j]`, and so on for `o.P.Kpf`, `o.P.Kfp`, `o.P.Kff`, `o.U.K`,
`o.Kpu` and `o.Kup`. -/
def kbPuts (o : ElemUP K) (Fmap : List Nat) (Kpp Kpf Kfp Kff Kuu Kpu Kup : Nat × Nat → K) :
    List (Nat × Nat × K) :=
  o.Pmap.enum.flatMap (fun iI =>
      o.Pmap.enum.map (fun jJ => (iI.2, jJ.2, Kpp (iI.1, jJ.1))) ++
      (Fmap.enum.flatMap (fun jJ =>
        [(iI.2, jJ.2, Kpf (iI.1, jJ.1)), (jJ.2, iI.2, Kfp (jJ.1, iI.1))]) ++
      o.Umap.enum.flatMap (fun jJ =>
        [(iI.2, jJ.2, Kpu (iI.1, jJ.1)), (jJ.2, iI.2, Kup (jJ.1, iI.1))]))) ++
    (Fmap.enum.flatMap (fun iI => Fmap.enum.map (fun jJ => (iI.2, jJ.2, Kff (iI.1, jJ.1)))) ++
    o.Umap.enum.flatMap (fun iI => o.Umap.enum.map (fun jJ => (iI.2, jJ.2, Kuu (iI.1, jJ.1)))))

/-- `ElemUP.AddToKb` on the sink: the triples that the call puts into `Kb` and the value
returned.  The coupling blocks are those of `AddToKb`; the other local matrices are given
with the entries they have when the assembly is reached. -/
def AddToKbPuts (o : ElemUP K)
    (natbcs_jac : (Nat × Nat → K) × (Nat × Nat → K) → ((Nat × Nat → K) × (Nat × Nat → K)) × Bool)
    (sol : Solution K) (firstIt : Bool) (Fmap : List Nat)
    (Kpp Kpf Kfp Kff Kuu Kpu Kup : Nat × Nat → K) : List (Nat × Nat × K) × Bool :=
  match AddToKb o natbcs_jac sol firstIt Kpu Kup with
  | (_, false) => ([], false)
  | ((Kpu1, Kup1), true) => (kbPuts o Fmap Kpp Kpf Kfp Kff Kuu Kpu1 Kup1, true)

/-- A loop `for _, a := range l { ... }` whose body can leave the function with the result
false: the state when the loop is left, and whether it was left at its end. -/
def forEach {α S : Type} (body : α → S → S × Bool) : List α → S → S × Bool
  | [], s => (s, true)
  | a :: l, s =>
    match body a s with
    | (s1, false) => (s1, false)
    | (s1, true) => forEach body l s1

/-- A natural boundary condition of the P sub-element: its key, its face, and
`nbc.Fcn.F(t, nil)` as a function of the time `t`. -/
structure NaturalBc (K : Type) where
  Key : String
  IdxFace : Nat
  Fcn : K → K

/-- What `add_natbcs_to_jac` reads from the P sub-element: the conditions `o.P.NatBcs`, the
number of face integration points and their weights `ipf.W`, the face shape functions
`o.P.Shp.Sf` and the norm `la.VecNorm(o.P.Shp.Fnvec)` that `CalcAtFaceIp` gives at the face
point `jdx` of the face `iface` (`none` is an error), the values `pl` and `fl` of
`o.P.fipvars(iface, sol)` there, `o.P.Plmax`, `o.P.κ`, `o.P.ramp`, the face-local vertices
`o.P.Shp.FaceLocalV[iface]`, and the matrix `o.dρldus_ex`. -/
structure SeepFaces (K : Type) where
  NatBcs : List (NaturalBc K)
  NipFace : Nat
  Wf : Nat → K
  CalcAtFaceIp : Nat → Nat → Option ((Nat → K) × K)
  fipvars : Nat → Nat → Solution K → K × K
  Plmax : Nat → Nat → K
  κ : K
  ramp : K → K
  FaceLocalV : Nat → List Nat
  dρldus_ex : Nat × Nat → K

/-- The statements `o.Kpu[m][c] += ...` of the case "seep" at one face integration point. -/
def seepCmds (o : ElemUP K) (f : SeepFaces K) (iface : Nat) (coef : K) (Sf : Nat → K)
    (rmp : K) : List ((Nat × Nat) × K) :=
  (f.FaceLocalV iface).enum.flatMap (fun im =>
    (List.range o.u_nverts).flatMap (fun n =>
      (List.range o.Ndim).flatMap (fun j =>
        (f.FaceLocalV iface).enum.map (fun lr =>
          ((im.2, j + n * o.Ndim),
            coef * Sf im.1 * Sf lr.1 * f.dρldus_ex (lr.2, j + n * o.Ndim) * rmp)))))

/-- The value `rmp` of the case "seep": the ramp function at `fl + κ·(pl - plmax)`, with
`plmax = Plmax[idx][jdx] - shift`, replaced by 0 when negative. -/
def seepRamp (f : SeepFaces K) (sol : Solution K) (idx : Nat) (nbc : NaturalBc K)
    (jdx : Nat) : K :=
  let shift := nbc.Fcn sol.T
  let plfl := f.fipvars jdx nbc.IdxFace sol
  let plmax := f.Plmax idx jdx - shift
  let plmax := if plmax < 0 then 0 else plmax
  let g := plfl.1 - plmax
  f.ramp (plfl.2 + f.κ * g)

/-- The body of the loop over the face integration points of `add_natbcs_to_jac`, for the
condition `nbc` with index `idx`, on `o.Kpu`. -/
def natbcsFaceIp (o : ElemUP K) (f : SeepFaces K) (sol : Solution K) (idx : Nat)
    (nbc : NaturalBc K) (jdx : Nat) (Kpu : Nat × Nat → K) : (Nat × Nat → K) × Bool :=
  match f.CalcAtFaceIp jdx nbc.IdxFace with
  | none => (Kpu, false)
  | some (Sf, Jf) =>
    let coef := f.Wf jdx * Jf
    if nbc.Key = "seep" then
      (addAll Kpu (seepCmds o f nbc.IdxFace coef Sf (seepRamp f sol idx nbc jdx)), true)
    else (Kpu, true)

/-- `ElemUP.add_natbcs_to_jac(sol)`: the matrix `o.Kpu` after the call and the value
returned. -/
def add_natbcs_to_jac (o : ElemUP K) (f : SeepFaces K) (sol : Solution K)
    (Kpu : Nat × Nat → K) : (Nat × Nat → K) × Bool :=
  forEach (fun inb => forEach (fun jdx => natbcsFaceIp o f sol inb.1 inb.2 jdx)
    (List.range f.NipFace)) f.NatBcs.enum Kpu

end

/-- Two conditions on the example element: a seepage face on the face 0, with the vertices
0 and 1, and a condition with another key on the face 1, with the vertices 1 and 2; two
face integration points, the ramp function `max 0`. -/
def exampleFaces : SeepFaces ℚ :=
  { NatBcs := [⟨"seep", 0, fun t => t⟩, ⟨"ql", 1, fun _ => 0⟩], NipFace := 2,
    Wf := fun _ => 1, CalcAtFaceIp := fun _ _ => some (fun _ => 1 / 2, 3),
    fipvars := fun _ _ _ => (6, 1), Plmax := fun _ _ => 4, κ := 2,
    ramp := fun x => max 0 x,
    FaceLocalV := fun iface => if iface = 0 then [0, 1] else [1, 2],
    dρldus_ex := fun rc => if rc.1 = 0 then 1 else 2 }

end fem

/-!
# gofem: spectral composition (`msolid/auxiliary.go`)

Slices are embedded as functions of the index and a slice of slices as a function of two
indices; the statements write the entries they name and leave the others.  The library
`gosl/tsr` is not among the sources: its constant `tsr.SQ2` (the square root of 2) is the
parameter `SQ2` and its function `tsr.Ten2Man` is a parameter of `SpectralCompose`.
-/

namespace msolid

section
variable {K : Type} [LinearOrderedField K]

/-- `SpectralCompose(m, λ, n, tmp)`: the slice `m` and the matrix `tmp` after the call; `lam`
is the slice `λ`.  The function `tsr.Ten2Man` of the library `gosl/tsr` is not among the
sources and is the parameter `Ten2Man`: it is called with the slice `m` and the matrix `tmp`
just written, and its result is the slice `m` after its call, `none` when it panics. -/
def SpectralCompose (Ten2Man : (Nat → K) → (Nat → Nat → K) → Option (Nat → K))
    (m lam : Nat → K) (n tmp : Nat → Nat → K) : Option (Nat → K) × (Nat → Nat → K) :=
  let tmp1 : Nat → Nat → K := fun i j =>
    if i < 3 ∧ j < 3 then lam 0 * n i 0 * n j 0 + lam 1 * n i 1 * n j 1 + lam 2 * n i 2 * n j 2
    else tmp i j
  (Ten2Man m tmp1, tmp1)

/-- `Eigenprojectors(P, n)`: the slice `P` after the call; `ncp` is `len(P[0])`. -/
def Eigenprojectors (SQ2 : K) (ncp : Nat) (P n : Nat → Nat → K) : Nat → Nat → K :=
  fun k c =>
    if k < 3 then
      if c = 0 then n 0 k * n 0 k
      else if c = 1 then n 1 k * n 1 k
      else if c = 2 then n 2 k * n 2 k
      else if c = 3 then n 0 k * n 1 k * SQ2
      else if c = 4 ∧ ncp = 6 then n 1 k * n 2 k * SQ2
      else if c = 5 ∧ ncp = 6 then n 2 k * n 0 k * SQ2
      else P k c
    else P k c

end

end msolid

namespace mporous

/-! ## Lemmas on `Update` -/

section
variable {K : Type} [LinearOrderedField K]

/-- `Update` with its local variables written out. -/
theorem Update_unfold (o : Model K) (s : State K) (Δpl Δpg pl pg : K) :
    Update o s Δpl Δpg pl pg =
      match updateSl o (pg - Δpg - (pl - Δpl)) s.A_sl (pg - Δpg - (pl - Δpl) + (Δpg - Δpl))
          (Δpg - Δpl) (decide (Δpg - Δpl < 0)) with
      | .error e => (s, some e)
      | .ok sl =>
        if pg - Δpg - (pl - Δpl) + (Δpg - Δpl) < 0 ∧ sl < 1 then (s, some Error.inconsistent)
        else if sl < o.Lrm.SlMin then (s, some Error.belowSlMin)
        else (commitState o s Δpl Δpg sl, none) := rfl

/-- A call of `Update` without error passed the three branches and both final checks, and
left the committed state. -/
theorem Update_success (o : Model K) (s : State K) (Δpl Δpg pl pg : K)
    (h : (Update o s Δpl Δpg pl pg).2 = none) :
    ∃ sl, updateSl o (pg - Δpg - (pl - Δpl)) s.A_sl (pg - Δpg - (pl - Δpl) + (Δpg - Δpl))
          (Δpg - Δpl) (decide (Δpg - Δpl < 0)) = .ok sl ∧
      ¬ (pg - Δpg - (pl - Δpl) + (Δpg - Δpl) < 0 ∧ sl < 1) ∧ ¬ sl < o.Lrm.SlMin ∧
      Update o s Δpl Δpg pl pg = (commitState o s Δpl Δpg sl, none) := by
  rw [Update_unfold] at h ⊢
  generalize updateSl o (pg - Δpg - (pl - Δpl)) s.A_sl (pg - Δpg - (pl - Δpl) + (Δpg - Δpl))
          (Δpg - Δpl) (decide (Δpg - Δpl < 0)) = u at h ⊢
  cases u with
  | error e => exact absurd h (by simp)
  | ok sl =>
    refine ⟨sl, rfl, ?_⟩
    by_cases h1 : pg - Δpg - (pl - Δpl) + (Δpg - Δpl) < 0 ∧ sl < 1
    · exact absurd h (by simp only [if_pos h1]; simp)
    · by_cases h2 : sl < o.Lrm.SlMin
      · exact absurd h (by simp only [if_neg h1, if_pos h2]; simp)
      · exact ⟨h1, h2, by simp only [if_neg h1, if_neg h2]⟩

/-- First branch of `Update`: full saturation. -/
theorem updateSl_of_nonpos (o : Model K) (pc0 sl0 pc Δpc : K) (wet : Bool) (h : pc ≤ 0) :
    updateSl o pc0 sl0 pc Δpc wet = .ok 1 := by
  simp [updateSl, h]

/-- Second branch of `Update`: the non-rate retention model. -/
theorem updateSl_of_nonrate (o : Model K) (pc0 sl0 pc Δpc : K) (wet : Bool) (m : Nonrate K)
    (h : 0 < pc) (hm : o.nonrateLrm = some m) (hb : o.AllBE = false) :
    updateSl o pc0 sl0 pc Δpc wet = .ok (m.Sl pc) := by
  simp [updateSl, not_le.mpr h, hm, hb]

/-- C1 (amended): whenever `Update` returns no error the committed saturation satisfies
`slmin ≤ A_sl` with `slmin = Lrm.SlMin()`, and `A_sl ≤ 1` holds when the end-of-step
capillary pressure that `Update` computes, `pc = pc0 + Δpc` with
`pc0 = (pg - Δpg) - (pl - Δpl)` and `Δpc = Δpg - Δpl`, is not positive. -/
theorem Update_sl_lower_bound (o : Model K) (s : State K) (Δpl Δpg pl pg : K)
    (h : (Update o s Δpl Δpg pl pg).2 = none) :
    o.Lrm.SlMin ≤ (Update o s Δpl Δpg pl pg).1.A_sl ∧
      (pg - Δpg - (pl - Δpl) + (Δpg - Δpl) ≤ 0 → (Update o s Δpl Δpg pl pg).1.A_sl ≤ 1) := by
  obtain ⟨sl, hu, _, h2, he⟩ := Update_success o s Δpl Δpg pl pg h
  rw [he]
  refine ⟨not_lt.mp h2, fun hpc => ?_⟩
  rw [updateSl_of_nonpos _ _ _ _ _ _ hpc] at hu
  injection hu with hu
  simp [commitState, ← hu]

/-- C1, witness: wetting the dried state of `hystLrm` down to pc = -1, computed by `Update`
as `pc0 + Δpc = (-1 - -5 - (0 - 0)) + (-5 - 0)`. -/
theorem Update_sl_lower_bound_witness :
    (Update (exampleModel hystLrm none false) driedState 0 (-5) 0 (-1)).2 = none ∧
      (hystLrm.SlMin ≤ (Update (exampleModel hystLrm none false) driedState 0 (-5) 0 (-1)).1.A_sl ∧
        ((-1 : ℚ) - -5 - (0 - 0) + (-5 - 0) ≤ 0 →
          (Update (exampleModel hystLrm none false) driedState 0 (-5) 0 (-1)).1.A_sl ≤ 1)) :=
  ⟨by norm_num [Update, updateSl, exampleModel, hystLrm],
   Update_sl_lower_bound (exampleModel hystLrm none false) driedState 0 (-5) 0 (-1)
     (by norm_num [Update, updateSl, exampleModel, hystLrm])⟩

/-- C1, counterexample: with the hysteretic rate-type model `hystLrm`, drying the saturated
state to pc = 4 and wetting it back to pc = 1 are two successful calls of `Update`, and the
second one commits the saturation 2, outside `[slmin, 1]`. -/
theorem Update_sl_upper_bound_fails :
    Update (exampleModel hystLrm none false) (satState ℚ) 0 4 0 4 = (driedState, none) ∧
      (Update (exampleModel hystLrm none false) driedState 0 (-3) 0 1).2 = none ∧
      (Update (exampleModel hystLrm none false) driedState 0 (-3) 0 1).1.A_sl = 2 ∧
      ¬ (hystLrm.SlMin ≤ (Update (exampleModel hystLrm none false) driedState 0 (-3) 0 1).1.A_sl ∧
          (Update (exampleModel hystLrm none false) driedState 0 (-3) 0 1).1.A_sl ≤ 1) := by
  norm_num [Update, updateSl, rateSl, trialSl, clipSl, beLoop, exampleModel, hystLrm, satState,
    driedState]

/-- C2 (amended): after every `Update` that returns no error, if the end-of-step capillary
pressure that `Update` computes, `pc = pc0 + Δpc` with `pc0 = (pg - Δpg) - (pl - Δpl)` and
`Δpc = Δpg - Δpl`, is `≤ 0` then the committed saturation is 1. -/
theorem Update_sl_one_of_pc_nonpos (o : Model K) (s : State K) (Δpl Δpg pl pg : K)
    (h : (Update o s Δpl Δpg pl pg).2 = none)
    (hpc : pg - Δpg - (pl - Δpl) + (Δpg - Δpl) ≤ 0) :
    (Update o s Δpl Δpg pl pg).1.A_sl = 1 := by
  obtain ⟨sl, hu, _, _, he⟩ := Update_success o s Δpl Δpg pl pg h
  rw [updateSl_of_nonpos _ _ _ _ _ _ hpc] at hu
  injection hu with hu
  rw [he]
  simp [commitState, ← hu]

/-- C2, witness: the linear law, from saturation to pc = -2, computed by `Update` as
`pc0 + Δpc = (0 - 0 - (2 - 2)) + (0 - 2)`. -/
theorem Update_sl_one_of_pc_nonpos_witness :
    (Update (exampleModel linLrm (some ⟨linSl⟩) false) (satState ℚ) 2 0 2 0).2 = none ∧
      (0 : ℚ) - 0 - (2 - 2) + (0 - 2) ≤ 0 ∧
      (Update (exampleModel linLrm (some ⟨linSl⟩) false) (satState ℚ) 2 0 2 0).1.A_sl = 1 :=
  ⟨by norm_num [Update, updateSl, exampleModel, linLrm], by norm_num,
   Update_sl_one_of_pc_nonpos (exampleModel linLrm (some ⟨linSl⟩) false) (satState ℚ) 2 0 2 0
     (by norm_num [Update, updateSl, exampleModel, linLrm]) (by norm_num)⟩

/-- C2, counterexample: for the linear law with air-entry pressure 1, a step from the saturated
state to pc = 1/2 > 0 succeeds and commits the saturation 1, both with the non-rate branch
and (AllBE) with the rate-type branch. -/
theorem Update_sl_one_with_pc_pos :
    Update (exampleModel linLrm (some ⟨linSl⟩) false) (satState ℚ) 0 (1/2) 0 (1/2) =
        ({ satState ℚ with A_ρG := 0.01 + 1 / 0.02 * (1/2), A_Δpc := 1/2 }, none) ∧
      Update (exampleModel linLrm (some ⟨linSl⟩) true) (satState ℚ) 0 (1/2) 0 (1/2) =
        ({ satState ℚ with A_ρG := 0.01 + 1 / 0.02 * (1/2), A_Δpc := 1/2 }, none) ∧
      (satState ℚ).A_sl = 1 ∧ ¬ ((1/2 : ℚ) - 0 ≤ 0) := by
  norm_num [Update, updateSl, rateSl, trialSl, clipSl, beLoop, exampleModel, linLrm, linSl,
    satState]

/-- C3: with `pc = pc0 + Δpc`, `pc0 = (pg - Δpg) - (pl - Δpl)` and `Δpc = Δpg - Δpl`, if
`pc ≤ 0`, or if `pc > 0` with a non-rate retention model `m` bound and `AllBE` false, then
`Update` fails only through the final check `sl < slmin` and otherwise commits exactly
`sl = 1`, respectively `sl = m.Sl pc`; the result is the same whatever `Cc` and `J` of the
retention model are, error-returning functions included. -/
theorem Update_noniterative (o : Model K) (s : State K) (Δpl Δpg pl pg : K) (m : Nonrate K)
    (h : pg - Δpg - (pl - Δpl) + (Δpg - Δpl) ≤ 0 ∨
      (0 < pg - Δpg - (pl - Δpl) + (Δpg - Δpl) ∧ o.nonrateLrm = some m ∧ o.AllBE = false)) :
    let pc := pg - Δpg - (pl - Δpl) + (Δpg - Δpl)
    let sl := if pc ≤ 0 then 1 else m.Sl pc
    Update o s Δpl Δpg pl pg =
        (if sl < o.Lrm.SlMin then (s, some Error.belowSlMin)
          else (commitState o s Δpl Δpg sl, none)) ∧
      ∀ cc j : K → K → Bool → Except Error K,
        Update { o with Lrm := { o.Lrm with Cc := cc, J := j } } s Δpl Δpg pl pg =
          Update o s Δpl Δpg pl pg := by
  intro pc sl
  have key : ∀ o1 : Model K, o1.Lrm.SlMin = o.Lrm.SlMin → o1.Cl = o.Cl → o1.Cg = o.Cg →
      o1.nonrateLrm = o.nonrateLrm → o1.AllBE = o.AllBE →
      Update o1 s Δpl Δpg pl pg =
        (if sl < o.Lrm.SlMin then (s, some Error.belowSlMin)
          else (commitState o s Δpl Δpg sl, none)) := by
    intro o1 e1 e2 e3 e4 e5
    have hsl : updateSl o1 (pg - Δpg - (pl - Δpl)) s.A_sl pc (Δpg - Δpl)
        (decide (Δpg - Δpl < 0)) = .ok sl := by
      rcases h with h | ⟨h, hm, hb⟩
      · rw [updateSl_of_nonpos _ _ _ _ _ _ h]
        simp only [sl, pc, if_pos h]
      · rw [updateSl_of_nonrate _ _ _ _ _ _ m h (e4.trans hm) (e5.trans hb)]
        simp only [sl, pc, if_neg (not_le.mpr h)]
    have hcons : ¬ (pc < 0 ∧ sl < 1) := by
      rintro ⟨h1, h2⟩
      simp only [sl, if_pos h1.le] at h2
      exact lt_irrefl _ h2
    rw [Update_unfold, hsl]
    simp only [if_neg hcons, e1, commitState, e2, e3]
  refine ⟨key o rfl rfl rfl rfl rfl, fun cc j => ?_⟩
  exact (key { o with Lrm := { o.Lrm with Cc := cc, J := j } } rfl rfl rfl rfl rfl).trans
    (key o rfl rfl rfl rfl rfl).symm

/-- C3, witness: the retention model `failLrm`, whose `Cc` and `J` always fail, with the
non-rate law `linSl` bound, in a step from saturation to pc = 2. -/
theorem Update_noniterative_witness :
    ((2 : ℚ) - 2 - (0 - 0) + (2 - 0) ≤ 0 ∨
      (0 < (2 : ℚ) - 2 - (0 - 0) + (2 - 0) ∧
        (exampleModel failLrm (some ⟨linSl⟩) false).nonrateLrm = some ⟨linSl⟩ ∧
        (exampleModel failLrm (some ⟨linSl⟩) false).AllBE = false)) ∧
      Update (exampleModel failLrm (some ⟨linSl⟩) false) (satState ℚ) 0 2 0 2 =
        ({ satState ℚ with A_sl := 9/10, A_ρG := 0.01 + 1 / 0.02 * 2, A_Δpc := 2 }, none) :=
  ⟨Or.inr ⟨by norm_num, rfl, rfl⟩,
   (Update_noniterative (exampleModel failLrm (some ⟨linSl⟩) false) (satState ℚ) 0 2 0 2 ⟨linSl⟩
      (Or.inr ⟨by norm_num, rfl, rfl⟩)).1.trans
     (by norm_num [commitState, exampleModel, failLrm, linSl, satState])⟩

/-- C4: whenever `Update` returns no error, the new state has
`A_ρL = old A_ρL + Cl·Δpl`, `A_ρG = old A_ρG + Cg·Δpg`, `A_Δpc = Δpg - Δpl`,
`A_wet = (Δpg - Δpl < 0)`, and `A_ns0` is unchanged. -/
theorem Update_commit_fields (o : Model K) (s : State K) (Δpl Δpg pl pg : K)
    (h : (Update o s Δpl Δpg pl pg).2 = none) :
    (Update o s Δpl Δpg pl pg).1.A_ρL = s.A_ρL + o.Cl * Δpl ∧
      (Update o s Δpl Δpg pl pg).1.A_ρG = s.A_ρG + o.Cg * Δpg ∧
      (Update o s Δpl Δpg pl pg).1.A_Δpc = Δpg - Δpl ∧
      ((Update o s Δpl Δpg pl pg).1.A_wet = true ↔ Δpg - Δpl < 0) ∧
      (Update o s Δpl Δpg pl pg).1.A_ns0 = s.A_ns0 := by
  obtain ⟨sl, _, _, _, he⟩ := Update_success o s Δpl Δpg pl pg h
  rw [he]
  simp [commitState]

/-- C4, witness: the wetting step of `hystLrm` from the dried state to pc = 1. -/
theorem Update_commit_fields_witness :
    (Update (exampleModel hystLrm none false) driedState 1 (-2) 1 2).2 = none ∧
      (Update (exampleModel hystLrm none false) driedState 1 (-2) 1 2).1.A_ρL =
        driedState.A_ρL + (exampleModel hystLrm none false).Cl * 1 ∧
      (Update (exampleModel hystLrm none false) driedState 1 (-2) 1 2).1.A_ρG =
        driedState.A_ρG + (exampleModel hystLrm none false).Cg * (-2) ∧
      (Update (exampleModel hystLrm none false) driedState 1 (-2) 1 2).1.A_Δpc = -2 - 1 ∧
      ((Update (exampleModel hystLrm none false) driedState 1 (-2) 1 2).1.A_wet = true ↔
        (-2 : ℚ) - 1 < 0) ∧
      (Update (exampleModel hystLrm none false) driedState 1 (-2) 1 2).1.A_ns0 =
        driedState.A_ns0 :=
  ⟨by norm_num [Update, updateSl, rateSl, trialSl, clipSl, beLoop, exampleModel, hystLrm,
      driedState],
   Update_commit_fields (exampleModel hystLrm none false) driedState 1 (-2) 1 2
     (by norm_num [Update, updateSl, rateSl, trialSl, clipSl, beLoop, exampleModel, hystLrm,
      driedState])⟩

/-- C6: `Update` is atomic on failure: whenever it returns an error, whatever its cause, the
state is left exactly as it was before the call (every field). -/
theorem Update_error_state_unchanged (o : Model K) (s : State K) (Δpl Δpg pl pg : K)
    (h : (Update o s Δpl Δpg pl pg).2 ≠ none) :
    (Update o s Δpl Δpg pl pg).1 = s := by
  rw [Update_unfold] at h ⊢
  generalize updateSl o (pg - Δpg - (pl - Δpl)) s.A_sl (pg - Δpg - (pl - Δpl) + (Δpg - Δpl))
          (Δpg - Δpl) (decide (Δpg - Δpl < 0)) = u at h ⊢
  cases u with
  | error e => rfl
  | ok sl =>
    by_cases h1 : pg - Δpg - (pl - Δpl) + (Δpg - Δpl) < 0 ∧ sl < 1
    · simp only [if_pos h1]
    · by_cases h2 : sl < o.Lrm.SlMin
      · simp only [if_neg h1, if_pos h2]
      · exact absurd (by simp only [if_neg h1, if_neg h2]) h

/-- C6, witness: with `failLrm` in rate form the call fails in `Cc` and the saturated state is
returned untouched. -/
theorem Update_error_state_unchanged_witness :
    (Update (exampleModel failLrm none false) (satState ℚ) 0 2 0 2).2 ≠ none ∧
      (Update (exampleModel failLrm none false) (satState ℚ) 0 2 0 2).1 = satState ℚ :=
  ⟨by norm_num [Update, updateSl, rateSl, trialSl, exampleModel, failLrm]
      exact Option.some_ne_none _,
   Update_error_state_unchanged (exampleModel failLrm none false) (satState ℚ) 0 2 0 2
     (by norm_num [Update, updateSl, rateSl, trialSl, exampleModel, failLrm]
         exact Option.some_ne_none _)⟩

/-! ## The backward-Euler loop -/

/-- The loop is left either with its counter at the bound or, earlier, by `break` at a
saturation that passes the residual test. -/
theorem beLoop_exit (o : Model K) (pc sl0 Δpc : K) (wet : Bool) :
    ∀ (n : Nat) (it : Int) (sl sl1 : K) (it1 : Int),
      beLoop o pc sl0 Δpc wet n it sl = .ok (sl1, it1) →
      it1 = it + n ∨
        (it1 < it + n ∧ ∃ f, o.Lrm.Cc pc sl1 wet = .ok f ∧ |sl1 - sl0 - Δpc * f| < o.Itol) := by
  intro n
  induction n with
  | zero =>
    intro it sl sl1 it1 h
    simp only [beLoop, Except.ok.injEq, Prod.mk.injEq] at h
    left
    simp [h.2]
  | succ n ih =>
    intro it sl sl1 it1 h
    rw [beLoop] at h
    cases hf : o.Lrm.Cc pc sl wet with
    | error e => simp [hf] at h
    | ok f =>
      simp only [hf] at h
      by_cases hr : |sl - sl0 - Δpc * f| < o.Itol
      · simp only [if_pos hr, Except.ok.injEq, Prod.mk.injEq] at h
        right
        refine ⟨?_, f, ?_, ?_⟩
        · rw [← h.2]; push_cast; linarith [Int.ofNat_nonneg n]
        · rw [← h.1]; exact hf
        · rw [← h.1]; exact hr
      · simp only [if_neg hr] at h
        cases hj : o.Lrm.J pc sl wet with
        | error e => simp [hj] at h
        | ok J =>
          simp only [hj] at h
          by_cases hd : 1 - Δpc * J = 0
          · simp [hd] at h
          · simp only [if_neg hd] at h
            rcases ih _ _ _ _ h with h1 | ⟨h1, h2⟩
            · left; rw [h1]; push_cast; ring
            · right; exact ⟨by push_cast; linarith, h2⟩

/-- With `0 ≤ NmaxIt`, a saturation delivered by the rate-type branch satisfies the
backward-Euler residual test. -/
theorem rateSl_converged (o : Model K) (pc0 sl0 pc Δpc sl : K) (wet : Bool)
    (hN : 0 ≤ o.NmaxIt) (h : rateSl o pc0 sl0 pc Δpc wet = .ok sl) :
    ∃ f, o.Lrm.Cc pc sl wet = .ok f ∧ |sl - sl0 - Δpc * f| < o.Itol := by
  unfold rateSl at h
  cases ht : trialSl o pc0 sl0 pc Δpc wet with
  | error e => simp [ht] at h
  | ok slT =>
    simp only [ht] at h
    cases hb : beLoop o pc sl0 Δpc wet o.NmaxIt.toNat 0 (clipSl o.Lrm.SlMin slT) with
    | error e => simp [hb] at h
    | ok p =>
      obtain ⟨sl1, it1⟩ := p
      simp only [hb] at h
      by_cases hit : it1 = o.NmaxIt
      · simp [hit] at h
      · simp only [if_neg hit, Except.ok.injEq] at h
        rcases beLoop_exit o pc sl0 Δpc wet _ _ _ _ _ hb with h1 | ⟨_, h2⟩
        · exact absurd (by rw [h1, Int.toNat_of_nonneg hN]; ring) hit
        · rw [← h]; exact h2

/-- C5, the code at the failing input: with `NmaxIt = -1` and the retention law of Scenario B,
the call `Update(s, Δpl = -1000, Δpg = 0, pl = -1000, pg = 0)` on the saturated state goes
through the rate-type branch, returns no error and commits the clipped trial saturation
`3813639/4004000`, whose backward-Euler residual is not below `Itol = 1e-9`; with
`NmaxIt = 20` the same call commits `200201/200220`, whose residual is zero. -/
theorem Update_negative_NmaxIt :
    Update { scenarioBModel ℚ with NmaxIt := -1 } (satState ℚ) (-1000) 0 (-1000) 0 =
        ({ satState ℚ with
            A_sl := 3813639/4004000, A_ρL := 1 + 1 / 2.2e6 * (-1000), A_Δpc := 1000 }, none) ∧
      (scenarioBLrm ℚ).Cc 1000 (3813639/4004000) false = .ok (-3613439/40080040000000) ∧
      ¬ |(3813639/4004000 : ℚ) - 1 - 1000 * (-3613439/40080040000000)| < 1e-9 ∧
      Update (scenarioBModel ℚ) (satState ℚ) (-1000) 0 (-1000) 0 =
        ({ satState ℚ with
            A_sl := 200201/200220, A_ρL := 1 + 1 / 2.2e6 * (-1000), A_Δpc := 1000 }, none) := by
  refine ⟨?_, ?_, ?_, ?_⟩
  · norm_num [Update, updateSl, rateSl, trialSl, clipSl, beLoop, scenarioBModel, exampleModel,
      scenarioBLrm, satState]
  · norm_num [scenarioBLrm]
  · norm_num [abs_lt]
  · norm_num [Update, updateSl, rateSl, trialSl, clipSl, beLoop, scenarioBModel, exampleModel,
      scenarioBLrm, satState, abs_lt]

/-! ## Consistent derivatives -/

/-- C7: `Ccb(s, pc)` returns `f = Lrm.Cc(pc, s.A_sl, s.A_wet)` when `Ncns` is set, and
otherwise `(f + Δpc·L) / (1 - Δpc·J)` with `L = Lrm.L` and `J = Lrm.J` at the same point and
`Δpc = s.A_Δpc`; it returns an error exactly when one of the retention-model functions it
evaluates does.  The state is an input only: the function has no state result. -/
theorem Ccb_spec (o : Model K) (s : State K) (pc : K) :
    (o.Ncns = true → Ccb o s pc = o.Lrm.Cc pc s.A_sl s.A_wet) ∧
      (o.Ncns = false → ∀ f L J : K, o.Lrm.Cc pc s.A_sl s.A_wet = .ok f →
        o.Lrm.L pc s.A_sl s.A_wet = .ok L → o.Lrm.J pc s.A_sl s.A_wet = .ok J →
        Ccb o s pc = .ok ((f + s.A_Δpc * L) / (1 - s.A_Δpc * J))) ∧
      ((∃ e, Ccb o s pc = .error e) ↔
        ((∃ e, o.Lrm.Cc pc s.A_sl s.A_wet = .error e) ∨
          (o.Ncns = false ∧ ((∃ e, o.Lrm.L pc s.A_sl s.A_wet = .error e) ∨
            (∃ e, o.Lrm.J pc s.A_sl s.A_wet = .error e))))) := by
  unfold Ccb
  refine ⟨fun hn => ?_, fun hn f L J hf hL hJ => ?_, ?_⟩
  · cases hf : o.Lrm.Cc pc s.A_sl s.A_wet <;> simp [hf, hn]
  · simp [hf, hL, hJ, hn]
  · cases hf : o.Lrm.Cc pc s.A_sl s.A_wet <;> cases hn : o.Ncns <;>
      cases hL : o.Lrm.L pc s.A_sl s.A_wet <;> cases hJ : o.Lrm.J pc s.A_sl s.A_wet <;>
      simp [hf, hn, hL, hJ]

/-- C7, witness: the state committed in Scenario B, at pc = 1000. -/
theorem Ccb_spec_witness :
    (scenarioBModel ℚ).Ncns = false ∧
      Ccb (scenarioBModel ℚ) ⟨7/10, 200201/200220, 2199/2200, 1/100, 1000, false⟩ 1000 =
        .ok ((-1e-4 * (200201/200220 - 0.05) / (1000 + 1) +
            1000 * (1e-4 * (200201/200220 - 0.05) / (1000 + 1) ^ 2)) /
          (1 - 1000 * (-1e-4 / (1000 + 1)))) :=
  ⟨rfl, (Ccb_spec (scenarioBModel ℚ) ⟨7/10, 200201/200220, 2199/2200, 1/100, 1000, false⟩
      1000).2.1 rfl _ _ _ rfl rfl rfl⟩

/-- C8: `Ccd(s, pc)` returns `Lrm.L(pc, sl, wet)` when `Ncns` or `Ncns2` is set, and
otherwise, with `(L, Lx, J, Jx, Jy) = Lrm.Derivs(pc, sl, wet)`, `f = Lrm.Cc(pc, sl, wet)`,
`Ly = Jx`, `Ccb = (f + Δpc·L)/(1 - Δpc·J)`, `LL = Lx + Ly·Ccb`, `JJ = Jx + Jy·Ccb`, it returns
`(2L + Δpc·LL + (2J + Δpc·JJ)·Ccb) / (1 - Δpc·J)`, where `sl`, `wet`, `Δpc` are read from
the state. -/
theorem Ccd_spec (o : Model K) (s : State K) (pc : K) :
    ((o.Ncns = true ∨ o.Ncns2 = true) → Ccd o s pc = o.Lrm.L pc s.A_sl s.A_wet) ∧
      (o.Ncns = false → o.Ncns2 = false → ∀ f L Lx J Jx Jy : K,
        o.Lrm.Cc pc s.A_sl s.A_wet = .ok f →
        o.Lrm.Derivs pc s.A_sl s.A_wet = .ok (L, Lx, J, Jx, Jy) →
        Ccd o s pc =
          .ok ((2 * L + s.A_Δpc * (Lx + Jx * ((f + s.A_Δpc * L) / (1 - s.A_Δpc * J))) +
              (2 * J + s.A_Δpc * (Jx + Jy * ((f + s.A_Δpc * L) / (1 - s.A_Δpc * J)))) *
                ((f + s.A_Δpc * L) / (1 - s.A_Δpc * J))) /
            (1 - s.A_Δpc * J))) := by
  unfold Ccd
  refine ⟨fun hn => ?_, fun hn hn2 f L Lx J Jx Jy hf hD => ?_⟩
  · rw [if_pos hn]
  · simp [hn, hn2, hf, hD]

/-- C8, witness: the state committed in Scenario B, at pc = 1000. -/
theorem Ccd_spec_witness :
    (scenarioBModel ℚ).Ncns = false ∧ (scenarioBModel ℚ).Ncns2 = false ∧
      Ccd (scenarioBModel ℚ) ⟨7/10, 200201/200220, 2199/2200, 1/100, 1000, false⟩ 1000 =
        .ok (190019/1003303631331000000) :=
  ⟨rfl, rfl,
   ((Ccd_spec (scenarioBModel ℚ) ⟨7/10, 200201/200220, 2199/2200, 1/100, 1000, false⟩
      1000).2 rfl rfl _ _ _ _ _ _ rfl rfl).trans (by norm_num)⟩

/-! ## `NewState` -/

/-- C10 (amended): for every `(ρL, ρG, pl, pg)` for which `NewState` returns a state `s`
without error, if `pg ≤ pl` then `s.A_sl = 1`, and otherwise `s.A_sl` is the saturation that
the retention update `mreten.Update(Lrm, 0, 1, pg - pl)` returned, stored as it is. -/
theorem NewState_sl (upd : LrmModel K → K → K → K → Except Error K) (o : Model K)
    (ρL ρG pl pg : K) (s : State K) (h : NewState upd o ρL ρG pl pg = .ok s) :
    (pg ≤ pl → s.A_sl = 1) ∧ (pl < pg → upd o.Lrm 0 1 (pg - pl) = .ok s.A_sl) := by
  unfold NewState at h
  by_cases hpc : pg - pl > 0
  · simp only [if_pos hpc] at h
    refine ⟨fun hle => absurd hpc (by linarith), fun _ => ?_⟩
    cases hu : upd o.Lrm 0 1 (pg - pl) with
    | error e => simp [hu] at h
    | ok sl =>
      simp only [hu, Except.ok.injEq] at h
      rw [← h]
  · simp only [if_neg hpc, Except.ok.injEq] at h
    refine ⟨fun _ => by rw [← h], fun hlt => absurd (sub_pos.mpr hlt) hpc⟩

/-- C10, witness: the linear law at `pl = 0`, `pg = 3`. -/
theorem NewState_sl_witness :
    NewState (mretenUpdate (exampleModel linLrm (some ⟨linSl⟩) false))
        (exampleModel linLrm (some ⟨linSl⟩) false) 1 0.01 0 3 =
        .ok ⟨1 - 0.3, 4/5, 1, 0.01, 0, false⟩ ∧
      (((3 : ℚ) ≤ 0 → (4/5 : ℚ) = 1) ∧
        ((0 : ℚ) < 3 → mretenUpdate (exampleModel linLrm (some ⟨linSl⟩) false) linLrm 0 1 (3 - 0) =
          .ok (4/5))) :=
  ⟨by norm_num [NewState, mretenUpdate, Update, updateSl, exampleModel, linLrm, linSl],
   NewState_sl (mretenUpdate (exampleModel linLrm (some ⟨linSl⟩) false))
     (exampleModel linLrm (some ⟨linSl⟩) false) 1 0.01 0 3 ⟨1 - 0.3, 4/5, 1, 0.01, 0, false⟩
     (by norm_num [NewState, mretenUpdate, Update, updateSl, exampleModel, linLrm, linSl])⟩

/-- C10, counterexample: for the linear retention law with air-entry pressure 1, `NewState` at
`pl = 0`, `pg = 1/2` returns a state with `A_sl = 1` although `pg > pl`, whether the retention
update takes the non-rate branch or (AllBE) the rate-type branch. -/
theorem NewState_sl_one_with_pg_gt_pl :
    NewState (mretenUpdate (exampleModel linLrm (some ⟨linSl⟩) false))
        (exampleModel linLrm (some ⟨linSl⟩) false) 1 0.01 0 (1/2) =
        .ok ⟨1 - 0.3, 1, 1, 0.01, 0, false⟩ ∧
      NewState (mretenUpdate (exampleModel linLrm (some ⟨linSl⟩) true))
        (exampleModel linLrm (some ⟨linSl⟩) true) 1 0.01 0 (1/2) =
        .ok ⟨1 - 0.3, 1, 1, 0.01, 0, false⟩ ∧
      ¬ ((1/2 : ℚ) ≤ 0) := by
  norm_num [NewState, mretenUpdate, Update, updateSl, rateSl, trialSl, clipSl, beLoop,
    exampleModel, linLrm, linSl]

/-! ## Scenario B in closed form -/

/-- Third branch of `Update`: the rate-type update. -/
theorem updateSl_of_rate (o : Model K) (pc0 sl0 pc Δpc : K) (wet : Bool)
    (h : 0 < pc) (hr : o.nonrateLrm = none ∨ o.AllBE = true) :
    updateSl o pc0 sl0 pc Δpc wet = rateSl o pc0 sl0 pc Δpc wet := by
  unfold updateSl
  rw [if_neg (not_le.mpr h)]
  rcases hr with hr | hr
  · rw [hr]
  · rw [hr]
    cases o.nonrateLrm <;> rfl

/-- The saturation committed by a successful `Update` with a non-rate retention model, in
terms of the capillary pressure `pc0 + Δpc` that `Update` computes. -/
theorem Update_nonrate_sl (o : Model K) (s : State K) (Δpl Δpg pl pg : K) (m : Nonrate K)
    (hm : o.nonrateLrm = some m) (hb : o.AllBE = false)
    (h : (Update o s Δpl Δpg pl pg).2 = none) :
    (Update o s Δpl Δpg pl pg).1.A_sl =
      if pg - Δpg - (pl - Δpl) + (Δpg - Δpl) ≤ 0 then 1
      else m.Sl (pg - Δpg - (pl - Δpl) + (Δpg - Δpl)) := by
  obtain ⟨sl, hu, _, _, he⟩ := Update_success o s Δpl Δpg pl pg h
  rw [he]
  by_cases hpc : pg - Δpg - (pl - Δpl) + (Δpg - Δpl) ≤ 0
  · rw [updateSl_of_nonpos _ _ _ _ _ _ hpc] at hu
    injection hu with hu
    simp [commitState, ← hu, hpc]
  · rw [updateSl_of_nonrate _ _ _ _ _ _ m (not_le.mp hpc) hm hb] at hu
    injection hu with hu
    simp [commitState, ← hu, hpc]

/-- One step of `gasPath`. -/
theorem gasPath_cons (o : Model K) (s : State K) (pl pg δ : K) (rest sls : List K)
    (h : gasPath o s pl pg (δ :: rest) = some sls) :
    (Update o s 0 δ pl (pg + δ)).2 = none ∧
      ∃ tl, gasPath o (Update o s 0 δ pl (pg + δ)).1 pl (pg + δ) rest = some tl ∧
        sls = (Update o s 0 δ pl (pg + δ)).1.A_sl :: tl := by
  rw [gasPath] at h
  rcases hU : Update o s 0 δ pl (pg + δ) with ⟨s1, e⟩
  rw [hU] at h
  cases e with
  | some e => simp at h
  | none =>
    simp only [Option.map_eq_some'] at h
    obtain ⟨tl, h1, h2⟩ := h
    exact ⟨rfl, tl, h1, h2.symm⟩

/-- Along a path of a non-rate model the committed saturations are the values of the law at
the capillary pressures that the calls compute. -/
theorem gasPath_nonrate (o : Model K) (m : Nonrate K) (hm : o.nonrateLrm = some m)
    (hb : o.AllBE = false) (pl : K) :
    ∀ (Δs : List K) (s : State K) (pg : K) (sls : List K), gasPath o s pl pg Δs = some sls →
      sls = (gasPathPc pl pg Δs).map (fun pc => if pc ≤ 0 then 1 else m.Sl pc) := by
  intro Δs
  induction Δs with
  | nil =>
    intro s pg sls h
    simp only [gasPath, Option.some.injEq] at h
    subst h
    rfl
  | cons δ rest ih =>
    intro s pg sls h
    obtain ⟨hok, tl, htl, hsls⟩ := gasPath_cons o s pl pg δ rest sls h
    rw [hsls, Update_nonrate_sl o s 0 δ pl (pg + δ) m hm hb hok, ih _ (pg + δ) tl htl]
    rfl

/-- A law `Sl` that is non-increasing and at most 1 on the positive capillary pressures,
continued by 1 on the others as `Update` does, is non-increasing. -/
theorem nonrate_antitone (m : Nonrate K) (hanti : ∀ p q, 0 < p → p ≤ q → m.Sl q ≤ m.Sl p)
    (hle : ∀ p, 0 < p → m.Sl p ≤ 1) (p q : K) (hpq : p ≤ q) :
    (if q ≤ 0 then 1 else m.Sl q) ≤ (if p ≤ 0 then 1 else m.Sl p) := by
  by_cases c1 : q ≤ 0
  · rw [if_pos c1, if_pos (hpq.trans c1)]
  · rw [if_neg c1]
    by_cases c0 : p ≤ 0
    · rw [if_pos c0]
      exact hle _ (not_le.mp c1)
    · rw [if_neg c0]
      exact hanti _ _ (not_le.mp c0) hpq

/-- A successful rate-type step with `0 ≤ NmaxIt` passes the residual test at the committed
saturation, with the capillary pressure `pc0 + Δpc` that `Update` computes. -/
theorem Update_rate_residual (o : Model K) (s : State K) (Δpl Δpg pl pg : K)
    (h : (Update o s Δpl Δpg pl pg).2 = none) (hN : 0 ≤ o.NmaxIt)
    (hpc : 0 < pg - Δpg - (pl - Δpl) + (Δpg - Δpl))
    (hr : o.nonrateLrm = none ∨ o.AllBE = true) :
    ∃ f, o.Lrm.Cc (pg - Δpg - (pl - Δpl) + (Δpg - Δpl)) (Update o s Δpl Δpg pl pg).1.A_sl
        (decide (Δpg - Δpl < 0)) = .ok f ∧
      |(Update o s Δpl Δpg pl pg).1.A_sl - s.A_sl - (Δpg - Δpl) * f| < o.Itol := by
  obtain ⟨sl, hu, _, _, he⟩ := Update_success o s Δpl Δpg pl pg h
  rw [updateSl_of_rate _ _ _ _ _ _ hpc hr] at hu
  rw [he]
  exact rateSl_converged o _ _ _ _ _ _ hN hu

/-- C11 (amended): monotonicity along monotone pressure paths is a property of the retention
model, in terms of the end-of-step capillary pressure that each call of `Update` computes,
`pc = pc0 + Δpc` with `pc0 = (pg - Δpg) - (pl - Δpl)` and `Δpc = Δpg - Δpl`.
(1) With a non-rate retention model bound (AllBE false) whose `Sl` is non-increasing in `pc`
and at most 1, along every path of successful `Update` calls with `pl` fixed there is one
committed saturation for each call, and the committed saturations are non-increasing when the
computed `pc` does not decrease from call to call and non-decreasing when it does not increase.
(2) A successful rate-form step with `0 ≤ NmaxIt` and computed `pc > 0` commits `sl_new` with
`|sl_new - sl_old - Δpc·Cc(pc, sl_new, wet)| < Itol`; when that slope `Cc` is `≤ 0`,
`sl_new < sl_old + Itol` on drying (`Δpc > 0`) and `sl_new > sl_old - Itol` on wetting
(`Δpc < 0`). -/
theorem Update_path_monotone (o : Model K) :
    (∀ m : Nonrate K, o.nonrateLrm = some m → o.AllBE = false →
      (∀ p q, 0 < p → p ≤ q → m.Sl q ≤ m.Sl p) → (∀ p, 0 < p → m.Sl p ≤ 1) →
      ∀ (s : State K) (pl pg : K) (Δs sls : List K), gasPath o s pl pg Δs = some sls →
        sls.length = (gasPathPc pl pg Δs).length ∧
        ((gasPathPc pl pg Δs).Chain' (· ≤ ·) → sls.Chain' (· ≥ ·)) ∧
          ((gasPathPc pl pg Δs).Chain' (· ≥ ·) → sls.Chain' (· ≤ ·))) ∧
      (∀ (s : State K) (Δpg pl pg : K), (Update o s 0 Δpg pl pg).2 = none → 0 ≤ o.NmaxIt →
        0 < pg - Δpg - (pl - 0) + (Δpg - 0) → (o.nonrateLrm = none ∨ o.AllBE = true) →
        ∃ f, o.Lrm.Cc (pg - Δpg - (pl - 0) + (Δpg - 0)) (Update o s 0 Δpg pl pg).1.A_sl
            (decide (Δpg - 0 < 0)) = .ok f ∧
          |(Update o s 0 Δpg pl pg).1.A_sl - s.A_sl - (Δpg - 0) * f| < o.Itol ∧
          (0 < Δpg - 0 → f ≤ 0 → (Update o s 0 Δpg pl pg).1.A_sl < s.A_sl + o.Itol) ∧
          (Δpg - 0 < 0 → f ≤ 0 → s.A_sl - o.Itol < (Update o s 0 Δpg pl pg).1.A_sl)) := by
  constructor
  · intro m hm hb hanti hle s pl pg Δs sls h
    have hsls := gasPath_nonrate o m hm hb pl Δs s pg sls h
    refine ⟨by rw [hsls, List.length_map], fun hch => ?_, fun hch => ?_⟩
    · rw [hsls, List.chain'_map]
      exact hch.imp (fun p q hpq => nonrate_antitone m hanti hle p q hpq)
    · rw [hsls, List.chain'_map]
      exact hch.imp (fun p q hpq => nonrate_antitone m hanti hle q p hpq)
  · intro s Δpg pl pg h hN hpc hr
    obtain ⟨f, hf, hres⟩ := Update_rate_residual o s 0 Δpg pl pg h hN hpc hr
    refine ⟨f, hf, hres, fun hd hf0 => ?_, fun hw hf0 => ?_⟩
    · have := (abs_lt.mp hres).2
      nlinarith
    · have := (abs_lt.mp hres).1
      nlinarith

/-- The law `linSl` is non-increasing. -/
theorem linSl_antitone (p q : ℚ) (h : p ≤ q) : linSl q ≤ linSl p := by
  unfold linSl
  split_ifs with h1 h2 h2
  · exact le_refl _
  · linarith
  · exact max_le (by norm_num) (by linarith)
  · exact max_le_max (le_refl _) (by linarith)

/-- The law `linSl` is at most 1. -/
theorem linSl_le_one (p : ℚ) : linSl p ≤ 1 := by
  unfold linSl
  split_ifs with h1
  · exact le_refl _
  · exact max_le (by norm_num) (by linarith)

/-- C11, witness: the linear law as non-rate model, dried from saturation over the gas
pressures 1/2, 7/2 and 47/2; the three calls compute the capillary pressures 1/2, 7/2 and
47/2. -/
theorem Update_path_monotone_witness :
    gasPath (exampleModel linLrm (some ⟨linSl⟩) false) (satState ℚ) 0 0 [1/2, 3, 20] =
        some [1, 3/4, 1/10] ∧
      gasPathPc (0 : ℚ) 0 [1/2, 3, 20] = [1/2, 7/2, 47/2] ∧
      (gasPathPc (0 : ℚ) 0 [1/2, 3, 20]).Chain' (· ≤ ·) ∧
      ([1, 3/4, 1/10] : List ℚ).Chain' (· ≥ ·) :=
  have hp : gasPath (exampleModel linLrm (some ⟨linSl⟩) false) (satState ℚ) 0 0 [1/2, 3, 20] =
      some [1, 3/4, 1/10] := by
    norm_num [gasPath, Update, updateSl, exampleModel, linLrm, linSl, satState]
  have hpc : gasPathPc (0 : ℚ) 0 [1/2, 3, 20] = [1/2, 7/2, 47/2] := by
    norm_num [gasPathPc]
  have hd : (gasPathPc (0 : ℚ) 0 [1/2, 3, 20]).Chain' (· ≤ ·) := by
    rw [hpc]
    norm_num [List.chain'_cons]
  ⟨hp, hpc, hd,
    (((Update_path_monotone (exampleModel linLrm (some ⟨linSl⟩) false)).1 ⟨linSl⟩ rfl rfl
      (fun p q _ hpq => linSl_antitone p q hpq) (fun p _ => linSl_le_one p)
      (satState ℚ) 0 0 [1/2, 3, 20] [1, 3/4, 1/10] hp).2.1 hd)⟩

/-- C11, counterexample: a wetting path on which the committed saturation decreases.  With
the hysteretic rate-type model `hystLrm`, the liquid pressure fixed at 0 and the state dried
to pc = 4, lowering the gas pressure from 4 to 1 and then to -1 are two successful calls of
`Update` that commit the saturations 2 and then 1. -/
theorem Update_path_not_monotone :
    gasPath (exampleModel hystLrm none false) driedState 0 4 [-3, -2] = some [2, 1] ∧
      (∀ δ ∈ [(-3 : ℚ), -2], δ < 0) ∧
      ¬ ([2, 1] : List ℚ).Chain' (· ≤ ·) := by
  refine ⟨?_, ?_, ?_⟩
  · norm_num [gasPath, Update, updateSl, rateSl, trialSl, clipSl, beLoop, exampleModel, hystLrm,
      driedState]
  · intro δ hδ
    simp only [List.mem_cons, List.mem_singleton, List.not_mem_nil, or_false] at hδ
    rcases hδ with h | h <;> rw [h] <;> norm_num
  · norm_num [List.chain'_cons]

/-! ## Scenarios B and C -/

/-- The call of Scenario B, evaluated. -/
theorem scenarioB_Update_1000 :
    Update (scenarioBModel ℚ) (satState ℚ) (-1000) 0 (-1000) 0 =
      ({ satState ℚ with
          A_sl := 200201/200220, A_ρL := 1 + 1 / 2.2e6 * (-1000), A_Δpc := 1000 }, none) := by
  norm_num [Update, updateSl, rateSl, trialSl, clipSl, beLoop, scenarioBModel, exampleModel,
    scenarioBLrm, satState, abs_lt]

/-- The call of Scenario B with the forward-Euler trial, evaluated. -/
theorem scenarioB_Update_1000_FE :
    Update { scenarioBModel ℚ with MEtrial := false } (satState ℚ) (-1000) 0 (-1000) 0 =
      ({ satState ℚ with
          A_sl := 200201/200220, A_ρL := 1 + 1 / 2.2e6 * (-1000), A_Δpc := 1000 }, none) := by
  norm_num [Update, updateSl, rateSl, trialSl, clipSl, beLoop, scenarioBModel, exampleModel,
    scenarioBLrm, satState, abs_lt]

/-- C12: Scenario B.  For the law of Scenario B with `Itol = 1e-9`, `NmaxIt = 20`, the state
with `sl0 = 1` and the call `Update(s, Δpl = -1000, Δpg = 0, pl = -1000, pg = 0)`: the trial
value is `3813639/4004000`, the backward-Euler loop leaves at the iteration index `it = 1 ≤ 8`
with the saturation `200201/200220`, whose residual is below `Itol`, and `Update` returns no
error and commits that saturation. -/
theorem scenarioB_converges :
    (scenarioBModel ℚ).Itol = 1e-9 ∧ (scenarioBModel ℚ).NmaxIt = 20 ∧
      trialSl (scenarioBModel ℚ) 0 1 1000 1000 false = .ok (3813639/4004000) ∧
      beLoop (scenarioBModel ℚ) 1000 1 1000 false (scenarioBModel ℚ).NmaxIt.toNat 0
          (clipSl (scenarioBModel ℚ).Lrm.SlMin (3813639/4004000)) =
        .ok (200201/200220, 1) ∧
      (1 : Int) ≤ 8 ∧
      (scenarioBModel ℚ).Lrm.Cc 1000 (200201/200220) false = .ok (-19/200220000) ∧
      |(200201/200220 : ℚ) - 1 - 1000 * (-19/200220000)| < (scenarioBModel ℚ).Itol ∧
      Update (scenarioBModel ℚ) (satState ℚ) (-1000) 0 (-1000) 0 =
        ({ satState ℚ with
            A_sl := 200201/200220, A_ρL := 1 + 1 / 2.2e6 * (-1000), A_Δpc := 1000 }, none) := by
  refine ⟨rfl, rfl, ?_, ?_, by norm_num, ?_, ?_, ?_⟩
  · norm_num [trialSl, scenarioBModel, exampleModel, scenarioBLrm]
  · norm_num [beLoop, clipSl, scenarioBModel, exampleModel, scenarioBLrm, abs_lt]
  · norm_num [scenarioBModel, exampleModel, scenarioBLrm]
  · norm_num [scenarioBModel, exampleModel]
  · exact scenarioB_Update_1000

/-- C13: Scenario C.  For the inputs of Scenario B, `Update` with `MEtrial = true` and with
`MEtrial = false` both return no error and commit the same saturation `200201/200220` (so
they differ by less than `1e-10`); the trial values are `sl0 + 0.5·Δpc·(fA + fB)` and
`sl0 + Δpc·fA`, clipping leaves them unchanged, and the residual at iteration 0 is strictly
smaller in absolute value with the Modified-Euler trial. -/
theorem scenarioC_trials :
    Update (scenarioBModel ℚ) (satState ℚ) (-1000) 0 (-1000) 0 =
        ({ satState ℚ with
            A_sl := 200201/200220, A_ρL := 1 + 1 / 2.2e6 * (-1000), A_Δpc := 1000 }, none) ∧
      Update { scenarioBModel ℚ with MEtrial := false } (satState ℚ) (-1000) 0 (-1000) 0 =
        ({ satState ℚ with
            A_sl := 200201/200220, A_ρL := 1 + 1 / 2.2e6 * (-1000), A_Δpc := 1000 }, none) ∧
      |(Update (scenarioBModel ℚ) (satState ℚ) (-1000) 0 (-1000) 0).1.A_sl -
          (Update { scenarioBModel ℚ with MEtrial := false } (satState ℚ) (-1000) 0 (-1000)
            0).1.A_sl| < 1e-10 ∧
      (scenarioBLrm ℚ).Cc 0 1 false = .ok (-19/200000) ∧
      (scenarioBLrm ℚ).Cc 1000 (1 + 1000 * (-19/200000)) false = .ok (-171/2002000000) ∧
      trialSl (scenarioBModel ℚ) 0 1 1000 1000 false =
        .ok (1 + 0.5 * 1000 * (-19/200000 + -171/2002000000)) ∧
      trialSl { scenarioBModel ℚ with MEtrial := false } 0 1 1000 1000 false =
        .ok (1 + 1000 * (-19/200000)) ∧
      clipSl (0.05 : ℚ) (1 + 0.5 * 1000 * (-19/200000 + -171/2002000000)) = 3813639/4004000 ∧
      clipSl (0.05 : ℚ) (1 + 1000 * (-19/200000)) = 181/200 ∧
      (scenarioBLrm ℚ).Cc 1000 (3813639/4004000) false = .ok (-3613439/40080040000000) ∧
      (scenarioBLrm ℚ).Cc 1000 (181/200) false = .ok (-171/2002000000) ∧
      |(3813639/4004000 : ℚ) - 1 - 1000 * (-3613439/40080040000000)| <
        |(181/200 : ℚ) - 1 - 1000 * (-171/2002000000)| := by
  have hME := scenarioB_Update_1000
  have hFE := scenarioB_Update_1000_FE
  refine ⟨hME, hFE, ?_, ?_, ?_, ?_, ?_, ?_, ?_, ?_, ?_, ?_⟩
  · rw [hME, hFE]
    norm_num
  · norm_num [scenarioBLrm]
  · norm_num [scenarioBLrm]
  · norm_num [trialSl, scenarioBModel, exampleModel, scenarioBLrm]
  · norm_num [trialSl, scenarioBModel, exampleModel, scenarioBLrm]
  · norm_num [clipSl]
  · norm_num [clipSl]
  · norm_num [scenarioBLrm]
  · norm_num [scenarioBLrm]
  · norm_num [abs_lt, abs_of_neg]

/-! ## `Init` -/

/-- The last part of `Init` passes the error of the loop on. -/
theorem initDerived_error (r : Model K × InitLocals K × Option Error) :
    (initDerived r).2 = r.2.2 := by
  rcases r with ⟨o5, l5, _ | e⟩ <;> rfl

section
variable [FloorRing K]

/-- A parameter with an unknown name falls into the `default` case. -/
theorem readPrm_unknown (o : Model K) (l : InitLocals K) (p : Prm K) (h : p.N ∉ prmNames) :
    readPrm o l p = .error (Error.badParameter p.N) := by
  simp only [prmNames, List.mem_cons, List.mem_singleton, List.not_mem_nil, or_false,
    not_or] at h
  obtain ⟨h1, h2, h3, h4, h5, h6, h7, h8, h9, h10, h11, h12, h13, h14, h15, h16, h17⟩ := h
  simp only [readPrm, if_neg h1, if_neg h2, if_neg h3, if_neg h4, if_neg h5, if_neg h6,
    if_neg h7, if_neg h8, if_neg h9, if_neg h10, if_neg h11, if_neg h12, if_neg h13, if_neg h14,
    if_neg h15, if_neg h16, if_neg h17]

/-- A parameter with a recognised name is read without error. -/
theorem readPrm_known (o : Model K) (l : InitLocals K) (p : Prm K) (h : p.N ∈ prmNames) :
    ∃ r, readPrm o l p = .ok r := by
  unfold readPrm
  by_cases h1 : p.N = "NmaxIt"
  · exact ⟨_, if_pos h1⟩
  rw [if_neg h1]
  by_cases h2 : p.N = "Itol"
  · exact ⟨_, if_pos h2⟩
  rw [if_neg h2]
  by_cases h3 : p.N = "PcZero"
  · exact ⟨_, if_pos h3⟩
  rw [if_neg h3]
  by_cases h4 : p.N = "MEtrial"
  · exact ⟨_, if_pos h4⟩
  rw [if_neg h4]
  by_cases h5 : p.N = "ShowR"
  · exact ⟨_, if_pos h5⟩
  rw [if_neg h5]
  by_cases h6 : p.N = "AllBE"
  · exact ⟨_, if_pos h6⟩
  rw [if_neg h6]
  by_cases h7 : p.N = "Ncns"
  · exact ⟨_, if_pos h7⟩
  rw [if_neg h7]
  by_cases h8 : p.N = "Ncns2"
  · exact ⟨_, if_pos h8⟩
  rw [if_neg h8]
  by_cases h9 : p.N = "nf0"
  · exact ⟨_, if_pos h9⟩
  rw [if_neg h9]
  by_cases h10 : p.N = "RhoL0"
  · exact ⟨_, if_pos h10⟩
  rw [if_neg h10]
  by_cases h11 : p.N = "RhoG0"
  · exact ⟨_, if_pos h11⟩
  rw [if_neg h11]
  by_cases h12 : p.N = "RhoS0"
  · exact ⟨_, if_pos h12⟩
  rw [if_neg h12]
  by_cases h13 : p.N = "BulkL"
  · exact ⟨_, if_pos h13⟩
  rw [if_neg h13]
  by_cases h14 : p.N = "RTg"
  · exact ⟨_, if_pos h14⟩
  rw [if_neg h14]
  by_cases h15 : p.N = "gref"
  · exact ⟨_, if_pos h15⟩
  rw [if_neg h15]
  by_cases h16 : p.N = "kl"
  · exact ⟨_, if_pos h16⟩
  rw [if_neg h16]
  by_cases h17 : p.N = "kg"
  · exact ⟨_, if_pos h17⟩
  rw [if_neg h17]
  simp only [prmNames, List.mem_cons, List.mem_singleton, List.not_mem_nil, or_false] at h
  rcases h with h | h | h | h | h | h | h | h | h | h | h | h | h | h | h | h | h <;>
    contradiction

/-- The parameter loop fails exactly when some name is unknown, with that name. -/
theorem readPrms_error (prms : List (Prm K)) :
    ∀ (o : Model K) (l : InitLocals K),
      ((∀ p ∈ prms, p.N ∈ prmNames) → (readPrms o l prms).2.2 = none) ∧
        ((∃ p ∈ prms, p.N ∉ prmNames) →
          ∃ p ∈ prms, p.N ∉ prmNames ∧ (readPrms o l prms).2.2 = some (Error.badParameter p.N)) := by
  induction prms with
  | nil =>
    intro o l
    exact ⟨fun _ => rfl, fun ⟨p, hp, _⟩ => absurd hp (List.not_mem_nil p)⟩
  | cons q qs ih =>
    intro o l
    by_cases hq : q.N ∈ prmNames
    · obtain ⟨r, hr⟩ := readPrm_known o l q hq
      obtain ⟨o1, l1⟩ := r
      have e : readPrms o l (q :: qs) = readPrms o1 l1 qs := by
        rw [readPrms, hr]
      rw [e]
      refine ⟨fun h => (ih o1 l1).1 (fun p hp => h p (List.mem_cons_of_mem _ hp)), ?_⟩
      rintro ⟨p, hp, hpn⟩
      rcases List.mem_cons.mp hp with rfl | hp'
      · exact absurd hq hpn
      · obtain ⟨p', hp1, hp2, hp3⟩ := (ih o1 l1).2 ⟨p, hp', hpn⟩
        exact ⟨p', List.mem_cons_of_mem _ hp1, hp2, hp3⟩
    · have e : readPrms o l (q :: qs) = (o, l, some (Error.badParameter q.N)) := by
        rw [readPrms, readPrm_unknown o l q hq]
      rw [e]
      exact ⟨fun h => absurd (h q (List.mem_cons_self _ _)) hq,
        fun _ => ⟨q, List.mem_cons_self _ _, hq, rfl⟩⟩

/-- C20: `Init` returns the configuration error "models must be non nil" when the conductivity
model or the retention model is nil; with both models given it returns the error "parameter
named ... is incorrect" when some parameter name is not one of the recognised names (`NmaxIt`,
`Itol`, `PcZero`, `MEtrial`, `ShowR`, `AllBE`, `Ncns`, `Ncns2`, `nf0`, `RhoL0`, `RhoG0`,
`RhoS0`, `BulkL`, `RTg`, `gref`, `kl`, `kg`), and no error for every other input. -/
theorem Init_error (o : Model K) (prms : List (Prm K)) (cnd : Option (CndModel K))
    (lrm : Option (LrmModel K)) (lrmNonrate : Option (Nonrate K)) :
    ((cnd = none ∨ lrm = none) → (Init o prms cnd lrm lrmNonrate).2 = some Error.nilModels) ∧
      (cnd ≠ none → lrm ≠ none → (∃ p ∈ prms, p.N ∉ prmNames) →
        ∃ p ∈ prms, p.N ∉ prmNames ∧
          (Init o prms cnd lrm lrmNonrate).2 = some (Error.badParameter p.N)) ∧
      (cnd ≠ none → lrm ≠ none → (∀ p ∈ prms, p.N ∈ prmNames) →
        (Init o prms cnd lrm lrmNonrate).2 = none) := by
  cases cnd with
  | none => exact ⟨fun _ => rfl, fun h => absurd rfl h, fun h => absurd rfl h⟩
  | some c =>
    cases lrm with
    | none => exact ⟨fun _ => rfl, fun _ h => absurd rfl h, fun _ h => absurd rfl h⟩
    | some m =>
      refine ⟨fun h => ?_, fun _ _ hex => ?_, fun _ _ hall => ?_⟩
      · rcases h with h | h <;> simp at h
      · obtain ⟨p, hp1, hp2, hp3⟩ :=
          (readPrms_error prms (initStart o c m lrmNonrate) ⟨0, 0, 0, 0, 0, 0⟩).2 hex
        exact ⟨p, hp1, hp2, (initDerived_error _).trans hp3⟩
      · exact (initDerived_error _).trans
          ((readPrms_error prms (initStart o c m lrmNonrate) ⟨0, 0, 0, 0, 0, 0⟩).1 hall)

end

/-- C20, witness: a parameter list with the unknown name `"porosity"`. -/
theorem Init_error_witness :
    (∃ p ∈ [Prm.mk "nf0" (3/10 : ℚ), Prm.mk "porosity" (3/10)], p.N ∉ prmNames) ∧
      ∃ p ∈ [Prm.mk "nf0" (3/10 : ℚ), Prm.mk "porosity" (3/10)], p.N ∉ prmNames ∧
        (Init (scenarioBModel ℚ) [Prm.mk "nf0" (3/10 : ℚ), Prm.mk "porosity" (3/10)]
          (some ⟨fun _ => 1⟩) (some linLrm) none).2 = some (Error.badParameter p.N) :=
  have hex : ∃ p ∈ [Prm.mk "nf0" (3/10 : ℚ), Prm.mk "porosity" (3/10)], p.N ∉ prmNames :=
    ⟨Prm.mk "porosity" (3/10), by simp, by decide⟩
  ⟨hex, (Init_error (scenarioBModel ℚ) [Prm.mk "nf0" (3/10 : ℚ), Prm.mk "porosity" (3/10)]
    (some ⟨fun _ => 1⟩) (some linLrm) none).2.1 (by simp) (by simp) hex⟩

end

/-- The value of `lastPrm` is read from the last parameter of the name. -/
theorem lastPrm_eq_getLast {K α : Type} (name : String) (f : K → α) (d : α) (prms : List (Prm K)) :
    lastPrm name f d prms
      = (((prms.filter (fun p => p.N = name)).getLast?).map (fun p => f p.V)).getD d := by
  induction prms using List.reverseRecOn with
  | nil => rfl
  | append_singleton ps p ih =>
    have hfold : lastPrm name f d (ps ++ [p])
        = if p.N = name then f p.V else lastPrm name f d ps := by
      simp [lastPrm, List.foldl_append]
    rw [hfold, ih, List.filter_append]
    by_cases hp : p.N = name
    · simp [hp, List.filter_cons]
    · simp [hp, List.filter_cons]

section
variable {K : Type} [LinearOrderedField K] [FloorRing K]

/-- The parameter loop of `Init`, field by field. -/
theorem readPrms_spec (prms : List (Prm K)) : ∀ (o : Model K) (l : InitLocals K)
    (o1 : Model K) (l1 : InitLocals K), readPrms o l prms = (o1, l1, none) →
    o1 = { o with
        NmaxIt := lastPrm "NmaxIt" toInt o.NmaxIt prms,
        Itol := lastPrm "Itol" id o.Itol prms,
        PcZero := lastPrm "PcZero" id o.PcZero prms,
        MEtrial := lastPrm "MEtrial" (fun v => decide (v > 0)) o.MEtrial prms,
        ShowR := lastPrm "ShowR" (fun v => decide (v > 0)) o.ShowR prms,
        AllBE := lastPrm "AllBE" (fun v => decide (v > 0)) o.AllBE prms,
        Ncns := lastPrm "Ncns" (fun v => decide (v > 0)) o.Ncns prms,
        Ncns2 := lastPrm "Ncns2" (fun v => decide (v > 0)) o.Ncns2 prms,
        Nf0 := lastPrm "nf0" id o.Nf0 prms,
        RhoL0 := lastPrm "RhoL0" id o.RhoL0 prms,
        RhoG0 := lastPrm "RhoG0" id o.RhoG0 prms,
        RhoS0 := lastPrm "RhoS0" id o.RhoS0 prms,
        BulkL := lastPrm "BulkL" id o.BulkL prms,
        RTg := lastPrm "RTg" id o.RTg prms,
        Gref := lastPrm "gref" id o.Gref prms,
        Pkl := lastPrm "kl" id o.Pkl prms,
        Pkg := lastPrm "kg" id o.Pkg prms } ∧
    l1 = ⟨lastPrm "kl" id l.klx prms, lastPrm "kl" id l.kly prms, lastPrm "kl" id l.klz prms,
      lastPrm "kg" id l.kgx prms, lastPrm "kg" id l.kgy prms, lastPrm "kg" id l.kgz prms⟩ := by
  induction prms with
  | nil =>
    intro o l o1 l1 h
    simp only [readPrms, Prod.mk.injEq, and_true] at h
    obtain ⟨rfl, rfl⟩ := h
    exact ⟨rfl, rfl⟩
  | cons p ps ih =>
    intro o l o1 l1 h
    simp only [readPrms] at h
    have hfold : ∀ (α : Type) (name : String) (g : K → α) (d : α),
        lastPrm name g d (p :: ps) = lastPrm name g (if p.N = name then g p.V else d) ps :=
      fun _ _ _ _ => rfl
    simp only [hfold]
    by_cases hNmaxIt : p.N = "NmaxIt"
    · simp only [readPrm, hNmaxIt, String.reduceEq, if_true, if_false] at h
      obtain ⟨e1, e2⟩ := ih _ _ _ _ h
      simp only [hNmaxIt, String.reduceEq, if_true, if_false]
      exact ⟨e1, e2⟩
    by_cases hItol : p.N = "Itol"
    · simp only [readPrm, hItol, String.reduceEq, if_true, if_false] at h
      obtain ⟨e1, e2⟩ := ih _ _ _ _ h
      simp only [hItol, String.reduceEq, if_true, if_false]
      exact ⟨e1, e2⟩
    by_cases hPcZero : p.N = "PcZero"
    · simp only [readPrm, hPcZero, String.reduceEq, if_true, if_false] at h
      obtain ⟨e1, e2⟩ := ih _ _ _ _ h
      simp only [hPcZero, String.reduceEq, if_true, if_false]
      exact ⟨e1, e2⟩
    by_cases hMEtrial : p.N = "MEtrial"
    · simp only [readPrm, hMEtrial, String.reduceEq, if_true, if_false] at h
      obtain ⟨e1, e2⟩ := ih _ _ _ _ h
      simp only [hMEtrial, String.reduceEq, if_true, if_false]
      exact ⟨e1, e2⟩
    by_cases hShowR : p.N = "ShowR"
    · simp only [readPrm, hShowR, String.reduceEq, if_true, if_false] at h
      obtain ⟨e1, e2⟩ := ih _ _ _ _ h
      simp only [hShowR, String.reduceEq, if_true, if_false]
      exact ⟨e1, e2⟩
    by_cases hAllBE : p.N = "AllBE"
    · simp only [readPrm, hAllBE, String.reduceEq, if_true, if_false] at h
      obtain ⟨e1, e2⟩ := ih _ _ _ _ h
      simp only [hAllBE, String.reduceEq, if_true, if_false]
      exact ⟨e1, e2⟩
    by_cases hNcns : p.N = "Ncns"
    · simp only [readPrm, hNcns, String.reduceEq, if_true, if_false] at h
      obtain ⟨e1, e2⟩ := ih _ _ _ _ h
      simp only [hNcns, String.reduceEq, if_true, if_false]
      exact ⟨e1, e2⟩
    by_cases hNcns2 : p.N = "Ncns2"
    · simp only [readPrm, hNcns2, String.reduceEq, if_true, if_false] at h
      obtain ⟨e1, e2⟩ := ih _ _ _ _ h
      simp only [hNcns2, String.reduceEq, if_true, if_false]
      exact ⟨e1, e2⟩
    by_cases hnf0 : p.N = "nf0"
    · simp only [readPrm, hnf0, String.reduceEq, if_true, if_false] at h
      obtain ⟨e1, e2⟩ := ih _ _ _ _ h
      simp only [hnf0, String.reduceEq, if_true, if_false]
      exact ⟨e1, e2⟩
    by_cases hRhoL0 : p.N = "RhoL0"
    · simp only [readPrm, hRhoL0, String.reduceEq, if_true, if_false] at h
      obtain ⟨e1, e2⟩ := ih _ _ _ _ h
      simp only [hRhoL0, String.reduceEq, if_true, if_false]
      exact ⟨e1, e2⟩
    by_cases hRhoG0 : p.N = "RhoG0"
    · simp only [readPrm, hRhoG0, String.reduceEq, if_true, if_false] at h
      obtain ⟨e1, e2⟩ := ih _ _ _ _ h
      simp only [hRhoG0, String.reduceEq, if_true, if_false]
      exact ⟨e1, e2⟩
    by_cases hRhoS0 : p.N = "RhoS0"
    · simp only [readPrm, hRhoS0, String.reduceEq, if_true, if_false] at h
      obtain ⟨e1, e2⟩ := ih _ _ _ _ h
      simp only [hRhoS0, String.reduceEq, if_true, if_false]
      exact ⟨e1, e2⟩
    by_cases hBulkL : p.N = "BulkL"
    · simp only [readPrm, hBulkL, String.reduceEq, if_true, if_false] at h
      obtain ⟨e1, e2⟩ := ih _ _ _ _ h
      simp only [hBulkL, String.reduceEq, if_true, if_false]
      exact ⟨e1, e2⟩
    by_cases hRTg : p.N = "RTg"
    · simp only [readPrm, hRTg, String.reduceEq, if_true, if_false] at h
      obtain ⟨e1, e2⟩ := ih _ _ _ _ h
      simp only [hRTg, String.reduceEq, if_true, if_false]
      exact ⟨e1, e2⟩
    by_cases hgref : p.N = "gref"
    · simp only [readPrm, hgref, String.reduceEq, if_true, if_false] at h
      obtain ⟨e1, e2⟩ := ih _ _ _ _ h
      simp only [hgref, String.reduceEq, if_true, if_false]
      exact ⟨e1, e2⟩
    by_cases hkl : p.N = "kl"
    · simp only [readPrm, hkl, String.reduceEq, if_true, if_false] at h
      obtain ⟨e1, e2⟩ := ih _ _ _ _ h
      simp only [hkl, String.reduceEq, if_true, if_false]
      exact ⟨e1, e2⟩
    by_cases hkg : p.N = "kg"
    · simp only [readPrm, hkg, String.reduceEq, if_true, if_false] at h
      obtain ⟨e1, e2⟩ := ih _ _ _ _ h
      simp only [hkg, String.reduceEq, if_true, if_false]
      exact ⟨e1, e2⟩
    simp only [readPrm, hNmaxIt, hItol, hPcZero, hMEtrial, hShowR, hAllBE, hNcns, hNcns2, hnf0, hRhoL0, hRhoG0, hRhoS0, hBulkL, hRTg, hgref, hkl, hkg, if_false] at h
    cases h

/-- The model that a successful `Init` leaves, field by field. -/
theorem Init_spec (o : Model K) (prms : List (Prm K)) (c : CndModel K) (m : LrmModel K)
    (nr : Option (Nonrate K)) (o1 : Model K)
    (h : Init o prms (some c) (some m) nr = (o1, none)) :
    o1 =
      { NmaxIt := lastPrm "NmaxIt" toInt 20 prms
        Itol := lastPrm "Itol" id 1e-9 prms
        PcZero := lastPrm "PcZero" id 1e-10 prms
        MEtrial := lastPrm "MEtrial" (fun v => decide (v > 0)) true prms
        ShowR := lastPrm "ShowR" (fun v => decide (v > 0)) o.ShowR prms
        AllBE := lastPrm "AllBE" (fun v => decide (v > 0)) o.AllBE prms
        Ncns := lastPrm "Ncns" (fun v => decide (v > 0)) o.Ncns prms
        Ncns2 := lastPrm "Ncns2" (fun v => decide (v > 0)) o.Ncns2 prms
        Nf0 := lastPrm "nf0" id o.Nf0 prms
        RhoL0 := lastPrm "RhoL0" id o.RhoL0 prms
        RhoG0 := lastPrm "RhoG0" id o.RhoG0 prms
        RhoS0 := lastPrm "RhoS0" id o.RhoS0 prms
        BulkL := lastPrm "BulkL" id o.BulkL prms
        RTg := lastPrm "RTg" id 1 prms
        Gref := lastPrm "gref" id o.Gref prms
        Pkl := lastPrm "kl" id o.Pkl prms
        Pkg := lastPrm "kg" id o.Pkg prms
        Cl := lastPrm "RhoL0" id o.RhoL0 prms / lastPrm "BulkL" id o.BulkL prms
        Cg := 1 / lastPrm "RTg" id 1 prms
        Klsat := [[lastPrm "kl" id 0 prms / lastPrm "gref" id o.Gref prms, 0, 0],
          [0, lastPrm "kl" id 0 prms / lastPrm "gref" id o.Gref prms, 0],
          [0, 0, lastPrm "kl" id 0 prms / lastPrm "gref" id o.Gref prms]]
        Kgsat := [[lastPrm "kg" id 0 prms / lastPrm "gref" id o.Gref prms, 0, 0],
          [0, lastPrm "kg" id 0 prms / lastPrm "gref" id o.Gref prms, 0],
          [0, 0, lastPrm "kg" id 0 prms / lastPrm "gref" id o.Gref prms]]
        Cnd := c
        Lrm := m
        nonrateLrm := if nr.isSome then nr else o.nonrateLrm } := by
  unfold Init at h
  simp only at h
  rcases hr : readPrms (initStart o c m nr) ⟨0, 0, 0, 0, 0, 0⟩ prms with ⟨o2, l2, e⟩
  rw [hr] at h
  cases e with
  | some e => simp [initDerived] at h
  | none =>
    obtain ⟨e1, e2⟩ := readPrms_spec prms _ _ _ _ hr
    simp only [initDerived, Prod.mk.injEq, and_true] at h
    subst h
    clear hr
    subst e1 e2
    cases nr <;> rfl

/-- C21 (amended): `Init` checks no parameter value and does not ask for any parameter.  In the
model that a successful `Init` leaves, `RhoL0`, `RhoG0`, `RhoS0`, `BulkL` and `Nf0` are the
values of the last parameters of these names in `prms` (the values of the receiver when
there is none), so each invariant holds exactly when that value satisfies it; `Klsat` is a
3×3 diagonal matrix with `kl/gref` on the diagonal, which is non-negative when `0 ≤ kl` and
`0 < gref`. -/
theorem Init_parameter_values (o : Model K) (prms : List (Prm K)) (c : CndModel K)
    (m : LrmModel K) (nr : Option (Nonrate K)) (o1 : Model K)
    (h : Init o prms (some c) (some m) nr = (o1, none)) :
    o1.RhoL0 = lastPrm "RhoL0" id o.RhoL0 prms ∧
    o1.RhoG0 = lastPrm "RhoG0" id o.RhoG0 prms ∧
    o1.RhoS0 = lastPrm "RhoS0" id o.RhoS0 prms ∧
    o1.BulkL = lastPrm "BulkL" id o.BulkL prms ∧
    o1.Nf0 = lastPrm "nf0" id o.Nf0 prms ∧
    o1.Gref = lastPrm "gref" id o.Gref prms ∧
    o1.Klsat = [[lastPrm "kl" id 0 prms / o1.Gref, 0, 0],
      [0, lastPrm "kl" id 0 prms / o1.Gref, 0], [0, 0, lastPrm "kl" id 0 prms / o1.Gref]] ∧
    (0 ≤ lastPrm "kl" id 0 prms → 0 < o1.Gref → 0 ≤ lastPrm "kl" id 0 prms / o1.Gref) := by
  have hs := Init_spec o prms c m nr o1 h
  subst hs
  exact ⟨rfl, rfl, rfl, rfl, rfl, rfl, rfl, fun h1 h2 => div_nonneg h1 (le_of_lt h2)⟩

/-- C22: after a successful `Init`, `Cl = RhoL0 / BulkL`, `Cg = 1 / RTg` with `RTg` the last
parameter "RTg" and 1 when there is none, `Klsat` is the 3×3 matrix with `kl/gref` on the
diagonal and zeros elsewhere and `Kgsat` the one with `kg/gref`, where `kl` and `kg` are the
last parameters of these names (0 when there is none) and `RhoL0`, `BulkL` and `gref` are
the last parameters of these names (the values of the receiver when there is none).  The
quotients are those of the field. -/
theorem Init_derived (o : Model K) (prms : List (Prm K)) (c : CndModel K)
    (m : LrmModel K) (nr : Option (Nonrate K)) (o1 : Model K)
    (h : Init o prms (some c) (some m) nr = (o1, none)) :
    o1.Cl = o1.RhoL0 / o1.BulkL ∧ o1.Cg = 1 / o1.RTg ∧
    o1.Klsat = [[lastPrm "kl" id 0 prms / o1.Gref, 0, 0],
      [0, lastPrm "kl" id 0 prms / o1.Gref, 0], [0, 0, lastPrm "kl" id 0 prms / o1.Gref]] ∧
    o1.Kgsat = [[lastPrm "kg" id 0 prms / o1.Gref, 0, 0],
      [0, lastPrm "kg" id 0 prms / o1.Gref, 0], [0, 0, lastPrm "kg" id 0 prms / o1.Gref]] ∧
    o1.RTg = lastPrm "RTg" id 1 prms ∧
    o1.RhoL0 = lastPrm "RhoL0" id o.RhoL0 prms ∧
    o1.BulkL = lastPrm "BulkL" id o.BulkL prms ∧
    o1.Gref = lastPrm "gref" id o.Gref prms := by
  have hs := Init_spec o prms c m nr o1 h
  subst hs
  exact ⟨rfl, rfl, rfl, rfl, rfl, rfl, rfl, rfl⟩

/-- C30 (amended): on a receiver as `new(Model)` allocates it, the model that a successful
`Init` leaves is given by `prms`, `cnd`, `lrm` alone: the non-rate handle is the outcome of the
type assertion on `lrm`, and a constant, flag or parameter that `prms` does not name has its
default.  On every receiver `Init` sets `Cnd`, `Lrm`, the constants `NmaxIt`, `Itol`,
`PcZero`, `MEtrial` and `RTg` and the quantity `Cg` from its arguments and sets the handle
when `lrm` has the method `Sl`, and the flags `ShowR`, `AllBE`, `Ncns`, `Ncns2` and the
parameters that `prms` does not name keep the values that the receiver held. -/
theorem Init_fresh_receiver (prms : List (Prm K)) (c0 c : CndModel K) (m0 m : LrmModel K)
    (nr : Option (Nonrate K)) (o1 : Model K)
    (h : Init (newModel c0 m0) prms (some c) (some m) nr = (o1, none)) :
    o1 =
      { NmaxIt := lastPrm "NmaxIt" toInt 20 prms
        Itol := lastPrm "Itol" id 1e-9 prms
        PcZero := lastPrm "PcZero" id 1e-10 prms
        MEtrial := lastPrm "MEtrial" (fun v => decide (v > 0)) true prms
        ShowR := lastPrm "ShowR" (fun v => decide (v > 0)) false prms
        AllBE := lastPrm "AllBE" (fun v => decide (v > 0)) false prms
        Ncns := lastPrm "Ncns" (fun v => decide (v > 0)) false prms
        Ncns2 := lastPrm "Ncns2" (fun v => decide (v > 0)) false prms
        Nf0 := lastPrm "nf0" id 0 prms
        RhoL0 := lastPrm "RhoL0" id 0 prms
        RhoG0 := lastPrm "RhoG0" id 0 prms
        RhoS0 := lastPrm "RhoS0" id 0 prms
        BulkL := lastPrm "BulkL" id 0 prms
        RTg := lastPrm "RTg" id 1 prms
        Gref := lastPrm "gref" id 0 prms
        Pkl := lastPrm "kl" id 0 prms
        Pkg := lastPrm "kg" id 0 prms
        Cl := lastPrm "RhoL0" id 0 prms / lastPrm "BulkL" id 0 prms
        Cg := 1 / lastPrm "RTg" id 1 prms
        Klsat := [[lastPrm "kl" id 0 prms / lastPrm "gref" id 0 prms, 0, 0],
          [0, lastPrm "kl" id 0 prms / lastPrm "gref" id 0 prms, 0],
          [0, 0, lastPrm "kl" id 0 prms / lastPrm "gref" id 0 prms]]
        Kgsat := [[lastPrm "kg" id 0 prms / lastPrm "gref" id 0 prms, 0, 0],
          [0, lastPrm "kg" id 0 prms / lastPrm "gref" id 0 prms, 0],
          [0, 0, lastPrm "kg" id 0 prms / lastPrm "gref" id 0 prms]]
        Cnd := c
        Lrm := m
        nonrateLrm := nr } ∧
    ∀ (o o2 : Model K), Init o prms (some c) (some m) nr = (o2, none) →
      o2.Cnd = c ∧ o2.Lrm = m ∧ o2.NmaxIt = o1.NmaxIt ∧ o2.Itol = o1.Itol ∧
      o2.PcZero = o1.PcZero ∧ o2.MEtrial = o1.MEtrial ∧ o2.RTg = o1.RTg ∧ o2.Cg = o1.Cg ∧
      (nr.isSome = true → o2.nonrateLrm = nr) ∧
      o2.ShowR = lastPrm "ShowR" (fun v => decide (v > 0)) o.ShowR prms ∧
      o2.AllBE = lastPrm "AllBE" (fun v => decide (v > 0)) o.AllBE prms ∧
      o2.Ncns = lastPrm "Ncns" (fun v => decide (v > 0)) o.Ncns prms ∧
      o2.Ncns2 = lastPrm "Ncns2" (fun v => decide (v > 0)) o.Ncns2 prms ∧
      o2.Nf0 = lastPrm "nf0" id o.Nf0 prms ∧
      o2.RhoL0 = lastPrm "RhoL0" id o.RhoL0 prms ∧
      o2.RhoG0 = lastPrm "RhoG0" id o.RhoG0 prms ∧
      o2.RhoS0 = lastPrm "RhoS0" id o.RhoS0 prms ∧
      o2.BulkL = lastPrm "BulkL" id o.BulkL prms ∧
      o2.Gref = lastPrm "gref" id o.Gref prms ∧
      o2.Pkl = lastPrm "kl" id o.Pkl prms ∧
      o2.Pkg = lastPrm "kg" id o.Pkg prms := by
  have hs := Init_spec _ prms c m nr o1 h
  subst hs
  constructor
  · cases nr <;> rfl
  · intro o o2 h2
    have hs2 := Init_spec o prms c m nr o2 h2
    subst hs2
    refine ⟨rfl, rfl, rfl, rfl, rfl, rfl, rfl, rfl, fun hn => ?_, rfl, rfl, rfl, rfl, rfl, rfl,
      rfl, rfl, rfl, rfl, rfl, rfl⟩
    simp [hn]

end

theorem Init_examplePrms_ok (o : Model ℚ) :
    (Init o examplePrms (some ⟨fun _ => 1⟩) (some linLrm) none).2 = none := by
  simp [Init, initStart, readPrms, readPrm, initDerived, examplePrms]

/-- C21, witness: the example parameters of `GetPrms`. -/
theorem Init_parameter_values_witness :
    Init (newModel ⟨fun _ => 1⟩ linLrm) examplePrms (some ⟨fun _ => 1⟩) (some linLrm) none
      = ((Init (newModel ⟨fun _ => 1⟩ linLrm) examplePrms (some ⟨fun _ => 1⟩) (some linLrm)
          none).1, none) ∧
    (Init (newModel ⟨fun _ => 1⟩ linLrm) examplePrms (some ⟨fun _ => 1⟩) (some linLrm)
      none).1.RhoL0 = 1 ∧
    (Init (newModel ⟨fun _ => 1⟩ linLrm) examplePrms (some ⟨fun _ => 1⟩) (some linLrm)
      none).1.Klsat = [[1 / 10000, 0, 0], [0, 1 / 10000, 0], [0, 0, 1 / 10000]] := by
  have h : Init (newModel ⟨fun _ => 1⟩ linLrm) examplePrms (some ⟨fun _ => 1⟩) (some linLrm) none
      = ((Init (newModel ⟨fun _ => 1⟩ linLrm) examplePrms (some ⟨fun _ => 1⟩) (some linLrm)
          none).1, none) := Prod.ext rfl (Init_examplePrms_ok _)
  have ht := Init_parameter_values _ _ _ _ _ _ h
  refine ⟨h, ?_, ?_⟩
  · rw [ht.1]
    simp [lastPrm, examplePrms]
  · rw [ht.2.2.2.2.2.2.1, ht.2.2.2.2.2.1]
    simp [lastPrm, examplePrms, newModel]
    norm_num

/-- C21, counterexample: `Init` returns no error for a parameter list with `RhoL0 = -1` and
`nf0 = 1.5`, and none for the empty parameter list, which leaves `RhoL0 = 0`. -/
theorem Init_accepts_bad_parameters :
    (Init (newModel ⟨fun _ => 1⟩ linLrm) badPrms (some ⟨fun _ => 1⟩) (some linLrm) none).2 = none ∧
    ¬ (0 < (Init (newModel ⟨fun _ => 1⟩ linLrm) badPrms (some ⟨fun _ => 1⟩) (some linLrm)
      none).1.RhoL0) ∧
    ¬ ((Init (newModel ⟨fun _ => 1⟩ linLrm) badPrms (some ⟨fun _ => 1⟩) (some linLrm)
      none).1.Nf0 < 1) ∧
    (Init (newModel ⟨fun _ => 1⟩ linLrm) [] (some ⟨fun _ => 1⟩) (some linLrm) none).2 = none ∧
    ¬ (0 < (Init (newModel ⟨fun _ => 1⟩ linLrm) [] (some ⟨fun _ => 1⟩) (some linLrm)
      none).1.RhoL0) := by
  refine ⟨?_, ?_, ?_, ?_, ?_⟩
  · simp [Init, initStart, readPrms, readPrm, initDerived, badPrms]
  · simp [Init, initStart, readPrms, readPrm, initDerived, badPrms, newModel]
  · simp [Init, initStart, readPrms, readPrm, initDerived, badPrms, newModel]
    norm_num
  · simp [Init, initStart, readPrms, initDerived]
  · simp [Init, initStart, readPrms, initDerived, newModel]

/-- C22, witness: the example parameters of `GetPrms`. -/
theorem Init_derived_witness :
    Init (newModel ⟨fun _ => 1⟩ linLrm) examplePrms (some ⟨fun _ => 1⟩) (some linLrm) none
      = ((Init (newModel ⟨fun _ => 1⟩ linLrm) examplePrms (some ⟨fun _ => 1⟩) (some linLrm)
          none).1, none) ∧
    (Init (newModel ⟨fun _ => 1⟩ linLrm) examplePrms (some ⟨fun _ => 1⟩) (some linLrm)
      none).1.Cl = 1 / 2200000 ∧
    (Init (newModel ⟨fun _ => 1⟩ linLrm) examplePrms (some ⟨fun _ => 1⟩) (some linLrm)
      none).1.Cg = 50 ∧
    (Init (newModel ⟨fun _ => 1⟩ linLrm) examplePrms (some ⟨fun _ => 1⟩) (some linLrm)
      none).1.Kgsat = [[1 / 1000, 0, 0], [0, 1 / 1000, 0], [0, 0, 1 / 1000]] := by
  have h : Init (newModel ⟨fun _ => 1⟩ linLrm) examplePrms (some ⟨fun _ => 1⟩) (some linLrm) none
      = ((Init (newModel ⟨fun _ => 1⟩ linLrm) examplePrms (some ⟨fun _ => 1⟩) (some linLrm)
          none).1, none) := Prod.ext rfl (Init_examplePrms_ok _)
  have ht := Init_derived _ _ _ _ _ _ h
  obtain ⟨h1, h2, -, h4, h5, h6, h7, h8⟩ := ht
  refine ⟨h, ?_, ?_, ?_⟩
  · rw [h1, h6, h7]
    simp [lastPrm, examplePrms, newModel]
    norm_num
  · rw [h2, h5]
    simp [lastPrm, examplePrms]
    norm_num
  · rw [h4, h8]
    simp [lastPrm, examplePrms, newModel]
    norm_num

/-- C30, witness: the example parameters of `GetPrms` on a new model; the model left has the
default `NmaxIt = 20` and no non-rate handle. -/
theorem Init_fresh_receiver_witness :
    Init (newModel ⟨fun _ => 1⟩ linLrm) examplePrms (some ⟨fun _ => 1⟩) (some linLrm) none
      = ((Init (newModel ⟨fun _ => 1⟩ linLrm) examplePrms (some ⟨fun _ => 1⟩) (some linLrm)
          none).1, none) ∧
    (Init (newModel ⟨fun _ => 1⟩ linLrm) examplePrms (some ⟨fun _ => 1⟩) (some linLrm)
      none).1.NmaxIt = 20 ∧
    (Init (newModel ⟨fun _ => 1⟩ linLrm) examplePrms (some ⟨fun _ => 1⟩) (some linLrm)
      none).1.ShowR = false ∧
    (Init (newModel ⟨fun _ => 1⟩ linLrm) examplePrms (some ⟨fun _ => 1⟩) (some linLrm)
      none).1.nonrateLrm = none := by
  have h : Init (newModel ⟨fun _ => 1⟩ linLrm) examplePrms (some ⟨fun _ => 1⟩) (some linLrm) none
      = ((Init (newModel ⟨fun _ => 1⟩ linLrm) examplePrms (some ⟨fun _ => 1⟩) (some linLrm)
          none).1, none) := Prod.ext rfl (Init_examplePrms_ok _)
  have ht := (Init_fresh_receiver examplePrms ⟨fun _ => 1⟩ ⟨fun _ => 1⟩ linLrm linLrm none _ h).1
  refine ⟨h, ?_, ?_, ?_⟩
  · rw [ht]
    simp [lastPrm, examplePrms]
  · rw [ht]
    simp [lastPrm, examplePrms]
  · rw [ht]

/-- C30, counterexample: `Init` with the empty parameter list on a model that an earlier `Init`
left with `ShowR = true` and `RhoL0 = 2` returns no error and keeps both values, so the
model is not the one that the same arguments give on a new model. -/
theorem Init_keeps_receiver_fields :
    (Init usedModel [] (some ⟨fun _ => 1⟩) (some linLrm) none).2 = none ∧
    (Init (newModel ⟨fun _ => 1⟩ linLrm) [] (some ⟨fun _ => 1⟩) (some linLrm) none).2 = none ∧
    (Init usedModel [] (some ⟨fun _ => 1⟩) (some linLrm) none).1.ShowR = true ∧
    (Init usedModel [] (some ⟨fun _ => 1⟩) (some linLrm) none).1.RhoL0 = 2 ∧
    (Init usedModel [] (some ⟨fun _ => 1⟩) (some linLrm) none).1
      ≠ (Init (newModel ⟨fun _ => 1⟩ linLrm) [] (some ⟨fun _ => 1⟩) (some linLrm) none).1 := by
  have h1 : (Init usedModel [] (some ⟨fun _ => 1⟩) (some linLrm) none).1.ShowR = true := by
    simp [Init, initStart, readPrms, readPrm, initDerived, usedModel, newModel]
  have h2 : (Init (newModel ⟨fun _ => 1⟩ linLrm) [] (some ⟨fun _ => 1⟩) (some linLrm)
      none).1.ShowR = false := by
    simp [Init, initStart, readPrms, initDerived, newModel]
  refine ⟨?_, ?_, h1, ?_, fun h => ?_⟩
  · simp [Init, initStart, readPrms, initDerived]
  · simp [Init, initStart, readPrms, initDerived]
  · simp [Init, initStart, readPrms, readPrm, initDerived, usedModel, newModel]
  · rw [h] at h1
    rw [h1] at h2
    cases h2

/-! ## `GetModel` -/

/-- `GetModel` keeps the invariant of the database. -/
theorem GetModel_wf (st : Models) (simfnk matname : String) (getnew : Bool) (h : st.wf) :
    (GetModel st simfnk matname getnew).2.wf ∧
      st.next ≤ (GetModel st simfnk matname getnew).2.next := by
  unfold GetModel
  cases getnew with
  | true =>
    refine ⟨⟨fun k a hk => ?_, h.2⟩, Nat.le_succ _⟩
    exact Nat.lt_succ_of_lt (h.1 k a hk)
  | false =>
    simp only [Bool.false_eq_true, if_false]
    cases hdb : st.db (simfnk ++ "_" ++ matname) with
    | some a => exact ⟨h, le_refl _⟩
    | none =>
      refine ⟨⟨fun k a hk => ?_, fun k1 k2 a h1 h2 => ?_⟩, Nat.le_succ _⟩
      · simp only at hk
        split at hk
        · cases hk; exact Nat.lt_succ_self _
        · exact Nat.lt_succ_of_lt (h.1 k a hk)
      · simp only at h1 h2
        split at h1 <;> split at h2
        · rename_i e1 e2; rw [e1, e2]
        · cases h1; exact absurd (h.1 _ _ h2) (lt_irrefl _)
        · cases h2; exact absurd (h.1 _ _ h1) (lt_irrefl _)
        · exact h.2 k1 k2 a h1 h2

/-- Two calls of `GetModel` with `getnew = false`, one after the other, return the same model
exactly when the keys `simfnk_matname` are the same string; with `getnew = true` the model
returned is a new one and the database is the one before the call. -/
theorem GetModel_shared_iff_key (st : Models) (s1 n1 s2 n2 : String) (h : st.wf) :
    ((GetModel (GetModel st s1 n1 false).2 s2 n2 false).1 = (GetModel st s1 n1 false).1
      ↔ s1 ++ "_" ++ n1 = s2 ++ "_" ++ n2) ∧
    (GetModel st s1 n1 true).2.db = st.db ∧
    ∀ k, st.db k ≠ some (GetModel st s1 n1 true).1 := by
  refine ⟨?_, rfl, fun k hk => absurd (h.1 k _ hk) (lt_irrefl _)⟩
  unfold GetModel
  simp only [Bool.false_eq_true, if_false]
  cases hdb : st.db (s1 ++ "_" ++ n1) with
  | some a =>
    simp only
    cases hdb2 : st.db (s2 ++ "_" ++ n2) with
    | some b =>
      simp only
      constructor
      · intro e; subst e; exact h.2 _ _ _ hdb hdb2
      · intro e; rw [e, hdb2] at hdb; cases hdb; rfl
    | none =>
      simp only
      constructor
      · intro e; rw [← e] at hdb; exact absurd (h.1 _ _ hdb) (lt_irrefl _)
      · intro e; rw [e, hdb2] at hdb; cases hdb
  | none =>
    simp only
    by_cases e : s2 ++ "_" ++ n2 = s1 ++ "_" ++ n1
    · simp [e]
    · simp only [if_neg e]
      cases hdb2 : st.db (s2 ++ "_" ++ n2) with
      | some b =>
        simp only
        constructor
        · intro e2; subst e2; exact absurd (h.1 _ _ hdb2) (lt_irrefl _)
        · intro e2; exact absurd e2.symm e
      | none =>
        simp only
        constructor
        · intro e2; omega
        · intro e2; exact absurd e2.symm e

/-- C23, the code at the failing input: from the empty database, the calls
`GetModel("a_b", "c", false)` and `GetModel("a", "b_c", false)` have different pairs
`(simfnk, matname)` and the same key `"a_b_c"`, and the second call returns the model that
the first one registered. -/
theorem GetModel_key_collision :
    ("a_b", "c") ≠ ("a", "b_c") ∧
    (GetModel noModels "a_b" "c" false).1 = 0 ∧
    (GetModel (GetModel noModels "a_b" "c" false).2 "a" "b_c" false).1 = 0 ∧
    (GetModel (GetModel noModels "a_b" "c" false).2 "a" "b_c" false).2
      = (GetModel noModels "a_b" "c" false).2 := by
  refine ⟨by decide, ?_, ?_, ?_⟩
  · simp [GetModel, noModels]
  · simp [GetModel, noModels]
  · simp [GetModel, noModels]

/-! ## The iteration bound -/

/-- C26, the code at the failing input: with `NmaxIt = -2` and the retention law of Scenario B
the loop of the rate-type branch runs no iteration (it is left with `it = 0` at the clipped
trial saturation, without an evaluation of the residual inside it), the test
`it == NmaxIt` does not fire, and `Update` returns no error although the residual at the
saturation it commits is not below `Itol`. -/
theorem Update_without_iteration :
    ({ scenarioBModel ℚ with NmaxIt := -2 } : Model ℚ).NmaxIt.toNat = 0 ∧
    trialSl { scenarioBModel ℚ with NmaxIt := -2 } 0 1 1000 1000 false = .ok (3813639/4004000) ∧
    beLoop { scenarioBModel ℚ with NmaxIt := -2 } 1000 1 1000 false 0 0 (3813639/4004000)
      = .ok (3813639/4004000, 0) ∧
    rateSl { scenarioBModel ℚ with NmaxIt := -2 } 0 1 1000 1000 false
      = .ok (3813639/4004000) ∧
    (Update { scenarioBModel ℚ with NmaxIt := -2 } (satState ℚ) (-1000) 0 (-1000) 0).2 = none ∧
    (Update { scenarioBModel ℚ with NmaxIt := -2 } (satState ℚ) (-1000) 0 (-1000) 0).1.A_sl
      = 3813639/4004000 ∧
    (scenarioBLrm ℚ).Cc 1000 (3813639/4004000) false = .ok (-3613439/40080040000000) ∧
    ¬ |(3813639/4004000 : ℚ) - 1 - 1000 * (-3613439/40080040000000)|
        < ({ scenarioBModel ℚ with NmaxIt := -2 } : Model ℚ).Itol := by
  refine ⟨by decide, ?_, rfl, ?_, ?_, ?_, ?_, ?_⟩
  · norm_num [trialSl, clipSl, scenarioBModel, exampleModel, scenarioBLrm]
  · norm_num [rateSl, trialSl, clipSl, beLoop, scenarioBModel, exampleModel, scenarioBLrm]
  · norm_num [Update, updateSl, rateSl, trialSl, clipSl, beLoop, scenarioBModel, exampleModel,
      scenarioBLrm, satState]
  · norm_num [Update, updateSl, rateSl, trialSl, clipSl, beLoop, scenarioBModel, exampleModel,
      scenarioBLrm, satState]
  · norm_num [scenarioBLrm]
  · norm_num [abs_lt, scenarioBModel, exampleModel]

end mporous

namespace fem

/-! ## `Info` and `SetEqs` -/

/-- Reads that all succeed are all collected. -/
theorem allReads_map {α β : Type} (l : List α) (f : α → Option β) (g : α → β)
    (h : ∀ x ∈ l, f x = some (g x)) : allReads (l.map f) = some (l.map g) := by
  induction l with
  | nil => rfl
  | cons a l ih =>
    have ha := h a (List.mem_cons_self _ _)
    have ih' := ih (fun x hx => h x (List.mem_cons_of_mem _ hx))
    simp only [List.map_cons, ha, allReads, ih', Option.map_some']

/-- The rows after `appendDofs`. -/
theorem appendDofs_spec : ∀ (rows d out : List (List String)), appendDofs rows d = some out →
    d.length ≤ rows.length ∧ out.length = rows.length ∧
      ∀ i : Nat, (out[i]?).getD [] = (rows[i]?).getD [] ++ (d[i]?).getD []
  | rows, [], out, h => by
    simp only [appendDofs, Option.some.injEq] at h
    subst h
    exact ⟨Nat.zero_le _, rfl, fun i => by simp⟩
  | [], _ :: _, out, h => by simp [appendDofs] at h
  | r :: rows, d :: ds, out, h => by
    simp only [appendDofs, Option.map_eq_some'] at h
    obtain ⟨t, ht, rfl⟩ := h
    obtain ⟨h1, h2, h3⟩ := appendDofs_spec rows ds t ht
    refine ⟨by simpa using h1, by simpa using h2, fun i => ?_⟩
    cases i with
    | zero => simp
    | succ i => simpa using h3 i

/-- The `Dofs` of the "up" information: `nverts` rows, row `i` holding the names of "u" and
then those of "p". -/
theorem infogettersUP_Dofs (nverts : Nat) (u_info p_info info : Info)
    (h : infogettersUP nverts u_info p_info = some info) :
    u_info.Dofs.length ≤ nverts ∧ p_info.Dofs.length ≤ nverts ∧ info.Dofs.length = nverts ∧
      (∀ i : Nat, (info.Dofs[i]?).getD [] = (u_info.Dofs[i]?).getD [] ++ (p_info.Dofs[i]?).getD []) ∧
      info.T1vars = p_info.T1vars ∧ info.T2vars = u_info.T2vars ∧
      ∀ key, info.Y2F key =
        match p_info.Y2F key with
        | some val => some val
        | none => u_info.Y2F key := by
  unfold infogettersUP at h
  cases h1 : appendDofs (List.replicate nverts []) u_info.Dofs with
  | none => simp [h1] at h
  | some d1 =>
    cases h2 : appendDofs d1 p_info.Dofs with
    | none => simp [h1, h2] at h
    | some d2 =>
      simp only [h1, h2, Option.some.injEq] at h
      subst h
      obtain ⟨a1, a2, a3⟩ := appendDofs_spec _ _ _ h1
      obtain ⟨b1, b2, b3⟩ := appendDofs_spec _ _ _ h2
      rw [List.length_replicate] at a1 a2
      refine ⟨a1, by omega, (by show d2.length = nverts; omega), fun i => ?_, rfl, rfl,
        fun _ => rfl⟩
      show (d2[i]?).getD [] = _
      rw [b3 i, a3 i]
      by_cases hi : i < nverts
      · simp [List.getElem?_replicate, hi]
      · simp [List.getElem?_replicate, hi]

/-- A row copied with all its reads in range. -/
theorem copyRow_eq (eqs : List (List Int)) (i start nkeys : Nat) (row : List Int)
    (hrow : eqs[i]? = some row) (hlen : start + nkeys ≤ row.length) :
    copyRow eqs i start nkeys = some ((row.drop start).take nkeys) := by
  unfold copyRow
  rw [allReads_map _ _ (fun j => (row[start + j]?).getD 0)]
  · congr 1
    apply List.ext_getElem?
    intro n
    by_cases hn : n < nkeys
    · have h1 : start + n < row.length := by omega
      simp [List.getElem?_range hn, List.getElem?_take_of_lt hn, List.getElem?_drop, h1]
    · have hn' : nkeys ≤ n := not_lt.mp hn
      rw [List.getElem?_eq_none (by simpa using hn'),
        List.getElem?_eq_none (by simp; omega)]
  · intro j hj
    have hj' : j < nkeys := List.mem_range.mp hj
    have h1 : start + j < row.length := by omega
    simp [eqsAt, hrow, h1]

/-- C14: `SetEqs` splits every per-vertex equation row between the sub-elements.  For rows laid
out as the "up" `Info` reports them (row `i` of `eqs` as long as `info.Dofs[i]`), and the
pressure cell having no more vertices than the displacement cell, every index read is in
range: `SetEqs` builds, for each vertex `i` of "u", the row `eqs[i][0 .. |U.Dofs[i]|)` for
the U sub-element and, for each vertex `i` of "p", the remainder `eqs[i][|U.Dofs[i]| ..]` for
the P sub-element, the two rows concatenated are `eqs[i]`, and the value returned is true iff
both sub-element calls return true. -/
theorem SetEqs_split (nverts : Nat) (u_info p_info info : Info)
    (USetEqs : List (List Int) → List Int → Bool) (PSetEqs : List (List Int) → Bool)
    (eqs : List (List Int)) (mixedform_eqs : List Int)
    (hinfo : infogettersUP nverts u_info p_info = some info)
    (hrows : eqs.map List.length = info.Dofs.map List.length)
    (hpu : p_info.Dofs.length ≤ u_info.Dofs.length) :
    ∃ u_eqs p_eqs,
      SetEqs u_info.Dofs p_info.Dofs USetEqs PSetEqs eqs mixedform_eqs =
          some (u_eqs, p_eqs, USetEqs u_eqs mixedform_eqs && PSetEqs p_eqs) ∧
        u_eqs.length = u_info.Dofs.length ∧ p_eqs.length = p_info.Dofs.length ∧
        (∀ i : Nat, i < u_info.Dofs.length →
          u_eqs[i]? = some (((eqs[i]?).getD []).take ((u_info.Dofs[i]?).getD []).length)) ∧
        (∀ i : Nat, i < p_info.Dofs.length →
          p_eqs[i]? = some (((eqs[i]?).getD []).drop ((u_info.Dofs[i]?).getD []).length)) ∧
        (∀ i : Nat, i < u_info.Dofs.length →
          (u_eqs[i]?).getD [] ++ (p_eqs[i]?).getD [] = (eqs[i]?).getD []) := by
  obtain ⟨hu, hp, hlen, hrow, -, -, -⟩ := infogettersUP_Dofs nverts u_info p_info info hinfo
  have hel : eqs.length = nverts := by
    have := congrArg List.length hrows
    simpa [hlen] using this
  have hrl : ∀ i : Nat, ((eqs[i]?).getD []).length =
      ((u_info.Dofs[i]?).getD []).length + ((p_info.Dofs[i]?).getD []).length := by
    intro i
    have h1 : (eqs[i]?).map List.length = (info.Dofs[i]?).map List.length := by
      rw [← List.getElem?_map, ← List.getElem?_map, hrows]
    rw [← List.length_append, ← hrow i]
    cases h2 : eqs[i]? with
    | none =>
      cases h3 : info.Dofs[i]? with
      | none => rfl
      | some b => rw [h2, h3] at h1; exact absurd h1 (by simp)
    | some a =>
      cases h3 : info.Dofs[i]? with
      | none => rw [h2, h3] at h1; exact absurd h1 (by simp)
      | some b =>
        rw [h2, h3] at h1
        simpa using h1
  have hU : ∀ i ∈ List.range u_info.Dofs.length,
      (u_info.Dofs[i]?).bind (fun dofs => copyRow eqs i 0 dofs.length) =
        some (((eqs[i]?).getD []).take ((u_info.Dofs[i]?).getD []).length) := by
    intro i hi
    have hi' : i < u_info.Dofs.length := List.mem_range.mp hi
    have hie : i < eqs.length := by omega
    have h1 := hrl i
    rw [List.getElem?_eq_getElem hi', List.getElem?_eq_getElem hie] at h1 ⊢
    simp only [Option.getD_some, Option.some_bind] at h1 ⊢
    rw [copyRow_eq eqs i 0 _ _ (List.getElem?_eq_getElem hie) (by omega)]
    simp
  have hP : ∀ i ∈ List.range p_info.Dofs.length,
      (u_info.Dofs[i]?).bind (fun udofs =>
        (p_info.Dofs[i]?).bind (fun pdofs => copyRow eqs i udofs.length pdofs.length)) =
        some (((eqs[i]?).getD []).drop ((u_info.Dofs[i]?).getD []).length) := by
    intro i hi
    have hi' : i < p_info.Dofs.length := List.mem_range.mp hi
    have hiu : i < u_info.Dofs.length := by omega
    have hie : i < eqs.length := by omega
    have h1 := hrl i
    rw [List.getElem?_eq_getElem hi', List.getElem?_eq_getElem hiu,
      List.getElem?_eq_getElem hie] at h1 ⊢
    simp only [Option.getD_some, Option.some_bind] at h1 ⊢
    rw [copyRow_eq eqs i _ _ _ (List.getElem?_eq_getElem hie) (by omega)]
    congr 1
    apply List.take_of_length_le
    simp
    omega
  refine ⟨(List.range u_info.Dofs.length).map (fun i =>
      ((eqs[i]?).getD []).take ((u_info.Dofs[i]?).getD []).length),
    (List.range p_info.Dofs.length).map (fun i =>
      ((eqs[i]?).getD []).drop ((u_info.Dofs[i]?).getD []).length), ?_, ?_, ?_, ?_, ?_, ?_⟩
  · unfold SetEqs
    simp only [allReads_map _ _ _ hU, allReads_map _ _ _ hP]
    cases USetEqs _ mixedform_eqs <;> simp
  · simp
  · simp
  · intro i hi
    simp [List.getElem?_range hi]
  · intro i hi
    simp [List.getElem?_range hi]
  · intro i hi
    have hie : i < eqs.length := by omega
    by_cases hip : i < p_info.Dofs.length
    · simp [List.getElem?_range hi, List.getElem?_range hip]
    · have h1 := hrl i
      have h0 : (p_info.Dofs[i]?) = none := List.getElem?_eq_none (not_lt.mp hip)
      rw [h0] at h1
      simp only [Option.getD_none, List.length_nil, add_zero] at h1
      have h2 : ((List.range p_info.Dofs.length).map (fun i =>
          ((eqs[i]?).getD []).drop ((u_info.Dofs[i]?).getD []).length))[i]? = none :=
        List.getElem?_eq_none (by simpa using not_lt.mp hip)
      rw [h2]
      simp only [List.getElem?_map, List.getElem?_range hi, Option.map_some', Option.getD_some,
        Option.getD_none, List.append_nil]
      apply List.take_of_length_le
      omega

/-- C14, witness: a triangle with three displacement vertices and two pressure vertices. -/
theorem SetEqs_split_witness :
    infogettersUP 3 ⟨[["ux", "uy"], ["ux", "uy"], ["ux", "uy"]], fun _ => none, [], ["ux", "uy"]⟩
        ⟨[["pl"], ["pl"]], fun _ => none, ["pl"], []⟩ =
        some ⟨[["ux", "uy", "pl"], ["ux", "uy", "pl"], ["ux", "uy"]], fun _ => none, ["pl"],
          ["ux", "uy"]⟩ ∧
      SetEqs [["ux", "uy"], ["ux", "uy"], ["ux", "uy"]] [["pl"], ["pl"]] (fun _ _ => true)
        (fun _ => true) [[0, 1, 2], [3, 4, 5], [6, 7]] [] =
        some ([[0, 1], [3, 4], [6, 7]], [[2], [5]], true) := by
  have hinfo : infogettersUP 3
      ⟨[["ux", "uy"], ["ux", "uy"], ["ux", "uy"]], fun _ => none, [], ["ux", "uy"]⟩
      ⟨[["pl"], ["pl"]], fun _ => none, ["pl"], []⟩ =
      some ⟨[["ux", "uy", "pl"], ["ux", "uy", "pl"], ["ux", "uy"]], fun _ => none, ["pl"],
        ["ux", "uy"]⟩ := by
    simp [infogettersUP, appendDofs, List.replicate]
  obtain ⟨u_eqs, p_eqs, h, -⟩ := SetEqs_split 3 _ _ _ (fun _ _ => true) (fun _ => true)
    [[0, 1, 2], [3, 4, 5], [6, 7]] [] hinfo (by simp) (by simp)
  refine ⟨hinfo, ?_⟩
  rw [h]
  have h2 : SetEqs [["ux", "uy"], ["ux", "uy"], ["ux", "uy"]] [["pl"], ["pl"]]
      (fun _ _ => true) (fun _ => true) [[0, 1, 2], [3, 4, 5], [6, 7]] [] =
      some ([[0, 1], [3, 4], [6, 7]], [[2], [5]], true) := by decide
  rw [h] at h2
  exact h2

/-- C15 (amended): the "up" `Info` merges the DOFs of the sub-elements with U first, then P:
it has one row per vertex of the cell, row `i` is the list of U's names of vertex `i` followed
by P's names of vertex `i` (nothing for a vertex that the pressure cell does not have),
`T1vars` is P's `T1vars`, `T2vars` is U's `T2vars`, and `Y2F` holds every entry of P's map and
every entry of U's map whose key is not a key of P's map, and no other entry. -/
theorem infogettersUP_merge (nverts : Nat) (u_info p_info info : Info)
    (h : infogettersUP nverts u_info p_info = some info) :
    info.Dofs.length = nverts ∧
      (∀ i : Nat, i < nverts →
        info.Dofs[i]? = some ((u_info.Dofs[i]?).getD [] ++ (p_info.Dofs[i]?).getD [])) ∧
      info.T1vars = p_info.T1vars ∧ info.T2vars = u_info.T2vars ∧
      (∀ key val, p_info.Y2F key = some val → info.Y2F key = some val) ∧
      (∀ key val, u_info.Y2F key = some val → p_info.Y2F key = none →
        info.Y2F key = some val) ∧
      (∀ key val, info.Y2F key = some val →
        p_info.Y2F key = some val ∨ (p_info.Y2F key = none ∧ u_info.Y2F key = some val)) := by
  obtain ⟨-, -, hlen, hrow, h1, h2, hy⟩ := infogettersUP_Dofs nverts u_info p_info info h
  refine ⟨hlen, fun i hi => ?_, h1, h2, fun key val hp => ?_, fun key val hu hp => ?_,
    fun key val hi => ?_⟩
  · have := hrow i
    rw [List.getElem?_eq_getElem (by omega : i < info.Dofs.length)] at this ⊢
    simpa using this
  · rw [hy key, hp]
  · rw [hy key, hp, hu]
  · rw [hy key] at hi
    cases hp : p_info.Y2F key with
    | none =>
      rw [hp] at hi
      exact Or.inr ⟨rfl, hi⟩
    | some v =>
      rw [hp] at hi
      exact Or.inl hi

/-- C15, witness: the infos of a triangle as in the witness of `SetEqs`, with the maps
`ux ↦ fx`, `pl ↦ qu` of "u" and `pl ↦ ql` of "p". -/
theorem infogettersUP_merge_witness :
    ∃ info, infogettersUP 3
        ⟨[["ux", "uy"], ["ux", "uy"], ["ux", "uy"]],
          fun key => if key = "ux" then some "fx" else if key = "pl" then some "qu" else none,
          [], ["ux", "uy"]⟩
        ⟨[["pl"], ["pl"]], fun key => if key = "pl" then some "ql" else none, ["pl"], []⟩ =
        some info ∧
      info.Dofs = [["ux", "uy", "pl"], ["ux", "uy", "pl"], ["ux", "uy"]] ∧
      info.T1vars = ["pl"] ∧ info.T2vars = ["ux", "uy"] ∧
      info.Y2F "ux" = some "fx" ∧ info.Y2F "pl" = some "ql" := by
  have hinfo : infogettersUP 3
      ⟨[["ux", "uy"], ["ux", "uy"], ["ux", "uy"]],
        fun key => if key = "ux" then some "fx" else if key = "pl" then some "qu" else none,
        [], ["ux", "uy"]⟩
      ⟨[["pl"], ["pl"]], fun key => if key = "pl" then some "ql" else none, ["pl"], []⟩ =
      some ⟨[["ux", "uy", "pl"], ["ux", "uy", "pl"], ["ux", "uy"]],
        fun key =>
          match (if key = "pl" then some "ql" else none : Option String) with
          | some val => some val
          | none => if key = "ux" then some "fx" else if key = "pl" then some "qu" else none,
        ["pl"], ["ux", "uy"]⟩ := by
    simp [infogettersUP, appendDofs, List.replicate]
  obtain ⟨-, -, h3, h4, h5, h6, -⟩ := infogettersUP_merge 3 _ _ _ hinfo
  exact ⟨_, hinfo, rfl, h3, h4, h6 "ux" "fx" (by simp) (by simp), h5 "pl" "ql" (by simp)⟩

/-- C15, counterexample: with the key `pl` in both maps, `pl ↦ qu` in the map of "u" and
`pl ↦ ql` in the map of "p", the "up" map holds `pl ↦ ql`: the entry `pl ↦ qu` of U's map is
not in it. -/
theorem infogettersUP_common_key :
    ∃ info, infogettersUP 3
        ⟨[["ux", "uy"], ["ux", "uy"], ["ux", "uy"]],
          fun key => if key = "ux" then some "fx" else if key = "pl" then some "qu" else none,
          [], ["ux", "uy"]⟩
        ⟨[["pl"], ["pl"]], fun key => if key = "pl" then some "ql" else none, ["pl"], []⟩ =
        some info ∧
      info.Y2F "pl" = some "ql" ∧
      ¬ ∀ key val,
        (if key = "ux" then some "fx" else if key = "pl" then some "qu" else none) = some val →
          info.Y2F key = some val := by
  refine ⟨_, rfl, ?_, fun hall => ?_⟩
  · simp
  · have := hall "pl" "qu" (by simp)
    simp at this

/-! ## Sums and lists of statements -/

section
variable {K : Type} [LinearOrderedField K]

theorem sum_map_range (n : Nat) (t : Nat → K) :
    ((List.range n).map t).sum = ∑ k in Finset.range n, t k := by
  induction n with
  | zero => simp
  | succ n ih => simp [List.range_succ, Finset.sum_range_succ, ih]

theorem foldl_add_range (n : Nat) (t : Nat → K) (a : K) :
    (List.range n).foldl (fun acc k => acc + t k) a = a + ∑ k in Finset.range n, t k := by
  induction n with
  | zero => simp
  | succ n ih => simp [List.range_succ, Finset.sum_range_succ, ih, add_assoc]

theorem sumLoop_eq (n : Nat) (t : Nat → K) : sumLoop n t = ∑ k in Finset.range n, t k := by
  simp [sumLoop, foldl_add_range]

theorem sumLoop2_eq (n1 n2 : Nat) (t : Nat → Nat → K) :
    sumLoop2 n1 n2 t = ∑ a in Finset.range n1, ∑ b in Finset.range n2, t a b := by
  unfold sumLoop2
  simp only [foldl_add_range]
  rw [zero_add]

theorem addAll_apply {ι : Type} [DecidableEq ι] (cmds : List (ι × K)) (f : ι → K) (k : ι) :
    addAll f cmds k = f k + keySum cmds k := by
  induction cmds generalizing f with
  | nil => simp [addAll, keySum]
  | cons c cs ih =>
    have h : addAll f (c :: cs) = addAll (Function.update f c.1 (f c.1 + c.2)) cs := rfl
    rw [h, ih]
    by_cases hk : c.1 = k
    · subst hk
      simp [keySum, List.filter_cons, add_assoc]
    · have hk2 : k ≠ c.1 := fun h => hk h.symm
      simp [keySum, List.filter_cons, hk, Function.update_noteq hk2]

theorem keySum_nil {ι : Type} [DecidableEq ι] (k : ι) : keySum ([] : List (ι × K)) k = 0 := rfl

theorem keySum_cons {ι : Type} [DecidableEq ι] (c : ι × K) (cs : List (ι × K)) (k : ι) :
    keySum (c :: cs) k = (if c.1 = k then c.2 else 0) + keySum cs k := by
  by_cases hk : c.1 = k <;> simp [keySum, List.filter_cons, hk]

theorem keySum_append {ι : Type} [DecidableEq ι] (l1 l2 : List (ι × K)) (k : ι) :
    keySum (l1 ++ l2) k = keySum l1 k + keySum l2 k := by
  simp [keySum]

theorem keySum_flatMap {ι α : Type} [DecidableEq ι] (l : List α) (f : α → List (ι × K)) (k : ι) :
    keySum (l.flatMap f) k = (l.map (fun a => keySum (f a) k)).sum := by
  induction l with
  | nil => simp [keySum]
  | cons a l ih => simp [List.flatMap_cons, keySum_append, ih]

theorem keySum_flatMap_range {ι : Type} [DecidableEq ι] (n : Nat) (f : Nat → List (ι × K))
    (k : ι) : keySum ((List.range n).flatMap f) k = ∑ a in Finset.range n, keySum (f a) k := by
  rw [keySum_flatMap, sum_map_range]

theorem keySum_map_range {ι : Type} [DecidableEq ι] (n : Nat) (key : Nat → ι) (v : Nat → K)
    (k : ι) : keySum ((List.range n).map (fun a => (key a, v a))) k
      = ∑ a in Finset.range n, if key a = k then v a else 0 := by
  have h : (List.range n).map (fun a => (key a, v a))
      = (List.range n).flatMap (fun a => [(key a, v a)]) := by
    induction (List.range n) with
    | nil => rfl
    | cons a l ih => simp [List.flatMap_cons, ih]
  rw [h, keySum_flatMap_range]
  refine Finset.sum_congr rfl (fun a _ => ?_)
  simp [keySum_cons, keySum_nil]

theorem keySum_of_not_mem {ι : Type} [DecidableEq ι] (cmds : List (ι × K)) (k : ι)
    (h : ∀ c ∈ cmds, c.1 ≠ k) : keySum cmds k = 0 := by
  have : cmds.filter (fun c => c.1 = k) = [] := by
    rw [List.filter_eq_nil_iff]
    intro c hc
    simpa using h c hc
  simp [keySum, this]

end

/-! ## `Ureset` -/

section
variable {K : Type} [LinearOrderedField K]

theorem uresetLoop_spec (o : ElemUP K) (sol : Solution K) (l : List Nat) (hl : l.Nodup)
    (st st1 : (Nat → mporous.State K) × (Nat → mporous.State K))
    (h : uresetLoop o sol l st = (st1, true)) (idx : Nat) :
    (idx ∈ l → ∃ sh, o.UShp idx = some sh ∧
      st1.1 idx = { st.1 idx with A_ns0 := (1 - sumLoop2 o.u_nverts o.Ndim
        (fun m i => sh.G m i * sol.Y (o.Umap.getD (i + m * o.Ndim) 0))) * (1 - o.Mdl.Nf0) } ∧
      st1.2 idx = { st.2 idx with A_ns0 := (1 - sumLoop2 o.u_nverts o.Ndim
        (fun m i => sh.G m i * sol.Y (o.Umap.getD (i + m * o.Ndim) 0))) * (1 - o.Mdl.Nf0) }) ∧
    (idx ∉ l → st1.1 idx = st.1 idx ∧ st1.2 idx = st.2 idx) := by
  induction l generalizing st with
  | nil =>
    simp only [uresetLoop, Prod.mk.injEq, and_true] at h
    subst h
    simp
  | cons a l ih =>
    obtain ⟨S, B⟩ := st
    rw [List.nodup_cons] at hl
    simp only [uresetLoop] at h
    cases hsh : o.UShp a with
    | none => simp [hsh] at h
    | some sh =>
      simp only [hsh] at h
      have ih2 := ih hl.2 _ h
      constructor
      · intro hmem
        rcases List.mem_cons.mp hmem with rfl | hmem
        · have hn := ih2.2 hl.1
          refine ⟨sh, hsh, ?_, ?_⟩
          · rw [hn.1]; simp
          · rw [hn.2]; simp
        · have hne : idx ≠ a := fun h => hl.1 (h ▸ hmem)
          obtain ⟨sh1, h1, h2, h3⟩ := ih2.1 hmem
          refine ⟨sh1, h1, ?_, ?_⟩
          · rw [h2]; simp [Function.update_noteq hne]
          · rw [h3]; simp [Function.update_noteq hne]
      · intro hmem
        have hne : idx ≠ a := fun h => hmem (h ▸ List.mem_cons_self _ _)
        have hmem2 : idx ∉ l := fun h => hmem (List.mem_cons_of_mem _ h)
        have hn := ih2.2 hmem2
        rw [hn.1, hn.2]
        simp [Function.update_noteq hne]

theorem Ureset_loop_of_ok (o : ElemUP K) (UUreset : Bool)
    (PUreset : (Nat → mporous.State K) × (Nat → mporous.State K) →
      ((Nat → mporous.State K) × (Nat → mporous.State K)) × Bool)
    (sol : Solution K) (hP : ∀ st, (PUreset st).1 = st)
    (hok : (Ureset o UUreset PUreset sol).2 = true) :
    uresetLoop o sol (List.range o.Nip) (o.States, o.StatesBkp)
      = ((Ureset o UUreset PUreset sol).1, true) := by
  unfold Ureset at hok ⊢
  rcases hloop : uresetLoop o sol (List.range o.Nip) (o.States, o.StatesBkp) with ⟨st, b⟩
  rw [hloop] at hok
  cases b with
  | false => simp at hok
  | true =>
    cases UUreset with
    | false => simp at hok
    | true => simp [hP]

/-- C17: after a successful `Ureset`, at every integration point the field `A_ns0` of
`States` and of `StatesBkp` is `(1 - divus)·(1 - Nf0)`, with `divus` the sum over the
vertices `m` and the directions `i` of `G[m][i]·Y[Umap[i + m·ndim]]`, and the other fields of
the two states are those from before the call; with zero displacements the value is
`1 - Nf0`, which is the `A_ns0` of every state that `NewState` returns.  Entries past the
integration points are not written.  (`o.P.Ureset` is taken not to write the states.) -/
theorem Ureset_ns0 (o : ElemUP K) (UUreset : Bool)
    (PUreset : (Nat → mporous.State K) × (Nat → mporous.State K) →
      ((Nat → mporous.State K) × (Nat → mporous.State K)) × Bool)
    (sol : Solution K) (hP : ∀ st, (PUreset st).1 = st)
    (hok : (Ureset o UUreset PUreset sol).2 = true) :
    (∀ idx, idx < o.Nip → ∃ sh, o.UShp idx = some sh ∧
      (Ureset o UUreset PUreset sol).1.1 idx
        = { o.States idx with A_ns0 := (1 - ∑ m in Finset.range o.u_nverts,
            ∑ i in Finset.range o.Ndim, sh.G m i * sol.Y (o.Umap.getD (i + m * o.Ndim) 0))
              * (1 - o.Mdl.Nf0) } ∧
      (Ureset o UUreset PUreset sol).1.2 idx
        = { o.StatesBkp idx with A_ns0 := (1 - ∑ m in Finset.range o.u_nverts,
            ∑ i in Finset.range o.Ndim, sh.G m i * sol.Y (o.Umap.getD (i + m * o.Ndim) 0))
              * (1 - o.Mdl.Nf0) } ∧
      ((∀ m, m < o.u_nverts → ∀ i, i < o.Ndim → sol.Y (o.Umap.getD (i + m * o.Ndim) 0) = 0) →
        ((Ureset o UUreset PUreset sol).1.1 idx).A_ns0 = 1 - o.Mdl.Nf0 ∧
        ((Ureset o UUreset PUreset sol).1.2 idx).A_ns0 = 1 - o.Mdl.Nf0 ∧
        ∀ upd ρL ρG pl pg s, mporous.NewState upd o.Mdl ρL ρG pl pg = .ok s →
          s.A_ns0 = ((Ureset o UUreset PUreset sol).1.1 idx).A_ns0)) ∧
    (∀ idx, o.Nip ≤ idx →
      (Ureset o UUreset PUreset sol).1.1 idx = o.States idx ∧
      (Ureset o UUreset PUreset sol).1.2 idx = o.StatesBkp idx) := by
  have hloop := Ureset_loop_of_ok o UUreset PUreset sol hP hok
  constructor
  · intro idx hidx
    obtain ⟨sh, h1, h2, h3⟩ :=
      (uresetLoop_spec o sol _ (List.nodup_range _) _ _ hloop idx).1 (List.mem_range.mpr hidx)
    rw [sumLoop2_eq] at h2 h3
    refine ⟨sh, h1, h2, h3, ?_⟩
    intro hzero
    have hsum : (∑ m in Finset.range o.u_nverts, ∑ i in Finset.range o.Ndim,
        sh.G m i * sol.Y (o.Umap.getD (i + m * o.Ndim) 0)) = 0 := by
      refine Finset.sum_eq_zero (fun m hm => Finset.sum_eq_zero (fun i hi => ?_))
      rw [hzero m (Finset.mem_range.mp hm) i (Finset.mem_range.mp hi), mul_zero]
    have hv : ((Ureset o UUreset PUreset sol).1.1 idx).A_ns0 = 1 - o.Mdl.Nf0 := by
      rw [h2, hsum]; simp
    refine ⟨hv, ?_, ?_⟩
    · rw [h3, hsum]; simp
    · intro upd ρL ρG pl pg s hs
      rw [hv]
      unfold mporous.NewState at hs
      simp only at hs
      split at hs
      · cases hs
      · cases hs
        rfl
  · intro idx hidx
    exact (uresetLoop_spec o sol _ (List.nodup_range _) _ _ hloop idx).2
      (fun h => absurd (List.mem_range.mp h) (not_lt.mpr hidx))

end

theorem Ureset_ns0_witness :
    (Ureset exampleElem true (fun st => (st, true)) exampleSol).2 = true ∧
    (Ureset exampleElem true (fun st => (st, true)) exampleSol).1.1 1
      = { mporous.satState ℚ with A_ns0 := (1 - 1 / 10) * (1 - 3 / 10) } :=
  ⟨by simp [Ureset, uresetLoop, exampleElem, List.range_succ], by
    obtain ⟨sh, h1, h2, -⟩ := (Ureset_ns0 exampleElem true (fun st => (st, true)) exampleSol
      (fun _ => rfl) (by simp [Ureset, uresetLoop, exampleElem, List.range_succ])).1 1
      (by decide)
    rw [h2]
    simp only [exampleElem, Option.some.injEq] at h1
    subst h1
    simp [exampleElem, exampleSol, mporous.exampleModel, Finset.sum_range_succ, triG]
    norm_num⟩

/-! ## `SetIniIvs` -/

section
variable {K : Type} [LinearOrderedField K]

/-- C16: the map that `SetIniIvs` hands to the U sub-element.  When the P sub-element fails,
the result is false and U is not called.  Without an entry "svT" the map is `ivs` itself.
With "svT" (one value for each integration point), "K0" (one value) and shape functions at
every point, the map has the keys "sx", "sy" and "sz" only, each with one value for each
integration point: with `svE = svT[i] + pl·sl` and `shE = K0·svE`, where
`pl = Σ S[m]·Y[Pmap[m]]`, the triple is `(shE, shE, svE)` when `ndim = 3` and
`(shE, svE, shE)` otherwise.  The value returned is the one of the U sub-element. -/
theorem SetIniIvs_map (o : ElemUP K) (USetIniIvs : (String → Option (List K)) → Bool)
    (sol : Solution K) (ivs : String → Option (List K)) :
    SetIniIvs o none USetIniIvs sol ivs = some (none, false) ∧
    (∀ States, ivs "svT" = none →
      SetIniIvs o (some States) USetIniIvs sol ivs = some (some ivs, USetIniIvs ivs)) ∧
    (∀ States svT K0 (sh : Nat → PShape K), ivs "svT" = some svT → ivs "K0" = some [K0] →
      svT.length = o.Nip → (∀ i, i < o.Nip → o.PShp i = some (sh i)) →
      ∃ sx sy sz : List K,
        SetIniIvs o (some States) USetIniIvs sol ivs
          = some (some (fun key => if key = "sx" then some sx else if key = "sy" then some sy
              else if key = "sz" then some sz else none),
            USetIniIvs (fun key => if key = "sx" then some sx else if key = "sy" then some sy
              else if key = "sz" then some sz else none)) ∧
        sx.length = o.Nip ∧ sy.length = o.Nip ∧ sz.length = o.Nip ∧
        ∀ i, i < o.Nip →
          (sx[i]?, sy[i]?, sz[i]?) =
            if o.Ndim = 3 then
              (some (K0 * (svT.getD i 0 + (∑ m in Finset.range o.p_nverts,
                  (sh i).S m * sol.Y (o.Pmap.getD m 0)) * (States i).A_sl)),
                some (K0 * (svT.getD i 0 + (∑ m in Finset.range o.p_nverts,
                  (sh i).S m * sol.Y (o.Pmap.getD m 0)) * (States i).A_sl)),
                some (svT.getD i 0 + (∑ m in Finset.range o.p_nverts,
                  (sh i).S m * sol.Y (o.Pmap.getD m 0)) * (States i).A_sl))
            else
              (some (K0 * (svT.getD i 0 + (∑ m in Finset.range o.p_nverts,
                  (sh i).S m * sol.Y (o.Pmap.getD m 0)) * (States i).A_sl)),
                some (svT.getD i 0 + (∑ m in Finset.range o.p_nverts,
                  (sh i).S m * sol.Y (o.Pmap.getD m 0)) * (States i).A_sl),
                some (K0 * (svT.getD i 0 + (∑ m in Finset.range o.p_nverts,
                  (sh i).S m * sol.Y (o.Pmap.getD m 0)) * (States i).A_sl)))) := by
  refine ⟨rfl, ?_, ?_⟩
  · intro States h
    simp only [SetIniIvs, h]
  · intro States svT K0 sh hsvT hK0 hlen hsh
    have hs : iniStresses o States sol svT K0 = some ((List.range o.Nip).map (fun i =>
        if o.Ndim = 3 then
          (K0 * (svT.getD i 0 + (∑ m in Finset.range o.p_nverts,
              (sh i).S m * sol.Y (o.Pmap.getD m 0)) * (States i).A_sl),
            K0 * (svT.getD i 0 + (∑ m in Finset.range o.p_nverts,
              (sh i).S m * sol.Y (o.Pmap.getD m 0)) * (States i).A_sl),
            svT.getD i 0 + (∑ m in Finset.range o.p_nverts,
              (sh i).S m * sol.Y (o.Pmap.getD m 0)) * (States i).A_sl)
        else
          (K0 * (svT.getD i 0 + (∑ m in Finset.range o.p_nverts,
              (sh i).S m * sol.Y (o.Pmap.getD m 0)) * (States i).A_sl),
            svT.getD i 0 + (∑ m in Finset.range o.p_nverts,
              (sh i).S m * sol.Y (o.Pmap.getD m 0)) * (States i).A_sl,
            K0 * (svT.getD i 0 + (∑ m in Finset.range o.p_nverts,
              (sh i).S m * sol.Y (o.Pmap.getD m 0)) * (States i).A_sl)))) := by
      unfold iniStresses
      refine allReads_map _ _ _ (fun i hi => ?_)
      rw [hsh i (List.mem_range.mp hi)]
      simp only [Option.map_some', sumLoop_eq]
    obtain ⟨s, hs1⟩ : ∃ s, iniStresses o States sol svT K0 = some s := ⟨_, hs⟩
    have hs2 := Option.some.inj (hs1.symm.trans hs)
    refine ⟨s.map (fun t => t.1), s.map (fun t => t.2.1), s.map (fun t => t.2.2),
      ?_, ?_, ?_, ?_, ?_⟩
    · simp only [SetIniIvs, hsvT, hK0, Option.getD_some, hlen, List.length_singleton, ne_eq,
        not_true_eq_false, or_self, if_false, hs1, List.getD_cons_zero]
    · rw [hs2]; simp
    · rw [hs2]; simp
    · rw [hs2]; simp
    · intro i hi
      rw [hs2]
      by_cases h3 : o.Ndim = 3 <;>
        simp [h3, List.getElem?_map, List.getElem?_range hi]

end

theorem SetIniIvs_map_witness :
    ∃ sx sy sz : List ℚ,
      SetIniIvs exampleElem (some exampleElem.States) (fun m => (m "sx").isSome) exampleSol
          (fun key => if key = "svT" then some [-10, -20] else
            if key = "K0" then some [1 / 2] else none)
        = some (some (fun key => if key = "sx" then some sx else if key = "sy" then some sy
              else if key = "sz" then some sz else none), true) ∧
      (sx[1]?, sy[1]?, sz[1]?) = (some (-7 : ℚ), some (-14 : ℚ), some (-7 : ℚ)) := by
  obtain ⟨sx, sy, sz, h1, -, -, -, h2⟩ := (SetIniIvs_map exampleElem (fun m => (m "sx").isSome)
    exampleSol (fun key => if key = "svT" then some [-10, -20] else
      if key = "K0" then some [1 / 2] else none)).2.2 exampleElem.States [-10, -20] (1 / 2)
    (fun _ => ⟨fun _ => 1 / 3, triG⟩) (by simp) (by simp) (by simp [exampleElem])
    (fun _ _ => by simp [exampleElem])
  refine ⟨sx, sy, sz, ?_, ?_⟩
  · rw [h1]; simp
  · rw [h2 1 (by simp [exampleElem])]
    simp [exampleElem, exampleSol, mporous.satState, Finset.sum_range_succ]
    norm_num

/-! ## `AddToRhs` -/

/-- The index `i + m·ndim` of a degree of freedom lies below `ndim·nverts`. -/
theorem dof_index_lt (d n i m : Nat) (hi : i < d) (hm : m < n) : i + m * d < d * n := by
  calc i + m * d < d + m * d := by omega
    _ = d * (m + 1) := by ring
    _ ≤ d * n := Nat.mul_le_mul_left _ hm

section
variable {K : Type} [LinearOrderedField K]

theorem getD_inj_of_nodup (l : List Nat) (h : l.Nodup) (i j : Nat) (hi : i < l.length)
    (hj : j < l.length) (e : l.getD i 0 = l.getD j 0) : i = j := by
  rw [List.getD_eq_getElem _ _ hi, List.getD_eq_getElem _ _ hj] at e
  exact (List.Nodup.getElem_inj_iff h).mp e

theorem getD_mem_of_lt (l : List Nat) (i : Nat) (hi : i < l.length) : l.getD i 0 ∈ l := by
  rw [List.getD_eq_getElem _ _ hi]
  exact List.getElem_mem _

theorem rhsPCmds_keys (o : ElemUP K) (e : IpLocals K) (hP : o.Pmap.length = o.p_nverts)
    (c : Nat × K) (hc : c ∈ rhsPCmds o e) : c.1 ∈ o.Pmap := by
  simp only [rhsPCmds, List.mem_flatMap, List.mem_range, List.mem_cons, List.mem_map] at hc
  obtain ⟨m, hm, hc | ⟨i, _, hc⟩⟩ := hc
  · rw [hc]; exact getD_mem_of_lt _ _ (by omega)
  · rw [← hc]; exact getD_mem_of_lt _ _ (by omega)

theorem rhsUCmds_keys (o : ElemUP K) (idx : Nat) (e : IpLocals K)
    (hU : o.Umap.length = o.Ndim * o.u_nverts)
    (c : Nat × K) (hc : c ∈ rhsUCmds o idx e) : c.1 ∈ o.Umap := by
  simp only [rhsUCmds, List.mem_flatMap, List.mem_range] at hc
  obtain ⟨m, hm, i, hi, hc⟩ := hc
  have hmem := getD_mem_of_lt _ _ (by rw [hU]; exact dof_index_lt _ _ i m hi hm)
  split at hc
  · simp only [List.mem_cons, List.mem_singleton, List.not_mem_nil, or_false] at hc
    rcases hc with hc | hc <;> rw [hc] <;> exact hmem
  · simp only [List.mem_cons, List.mem_append, List.mem_map, List.mem_range,
      List.mem_singleton, List.not_mem_nil, or_false] at hc
    rcases hc with hc | ⟨j, _, hc⟩ | hc
    · rw [hc]; exact hmem
    · rw [← hc]; exact hmem
    · rw [hc]; exact hmem

theorem keySum_rhsPCmds (o : ElemUP K) (e : IpLocals K) (r : Nat) :
    keySum (rhsPCmds o e) r = ∑ m in Finset.range o.p_nverts,
      if o.Pmap.getD m 0 = r then
        -(e.coef * e.p.S m * (e.res.Cpl * e.plt + e.res.Cvs * e.divvs))
          + ∑ i in Finset.range o.Ndim, e.coef * e.p.G m i * ρwl o e i
      else 0 := by
  unfold rhsPCmds
  rw [keySum_flatMap_range]
  refine Finset.sum_congr rfl (fun m _ => ?_)
  rw [keySum_cons, keySum_map_range]
  by_cases h : o.Pmap.getD m 0 = r
  · simp only [if_pos h]
  · simp only [if_neg h, Finset.sum_const_zero, add_zero]

theorem keySum_rhsPCmds_row (o : ElemUP K) (e : IpLocals K) (hP : o.Pmap.length = o.p_nverts)
    (hnd : o.Pmap.Nodup) (m : Nat) (hm : m < o.p_nverts) :
    keySum (rhsPCmds o e) (o.Pmap.getD m 0) =
      -(e.coef * e.p.S m * (e.res.Cpl * e.plt + e.res.Cvs * e.divvs))
        + e.coef * ∑ i in Finset.range o.Ndim,
            e.p.G m i * (e.klr * ∑ j in Finset.range o.Ndim, Klsat o i j * e.v.hl j) := by
  rw [keySum_rhsPCmds, Finset.sum_eq_single m]
  · rw [if_pos rfl, Finset.mul_sum]
    congr 1
    refine Finset.sum_congr rfl (fun i _ => ?_)
    have hρ : ρwl o e i = e.klr * ∑ j in Finset.range o.Ndim, Klsat o i j * e.v.hl j := by
      unfold ρwl
      rw [sumLoop_eq, Finset.mul_sum]
      exact Finset.sum_congr rfl (fun j _ => by ring)
    rw [hρ]
    ring
  · intro b hb hne
    rw [if_neg]
    intro h
    exact hne (getD_inj_of_nodup _ hnd _ _ (by rw [hP]; exact Finset.mem_range.mp hb)
      (by rw [hP]; exact hm) h)
  · intro h
    exact absurd (Finset.mem_range.mpr hm) h

end

section
variable {K : Type} [LinearOrderedField K]

/-- The values that `ipLocals` computes, written with sums. -/
theorem ipLocals_spec (o : ElemUP K) (sol : Solution K) (idx : Nat) (derivs : Bool)
    (e : IpLocals K) (h : ipLocals o sol idx derivs = some e) :
    o.PShp idx = some e.p ∧ o.UShp idx = some e.u ∧
    o.CalcLs (o.States idx) e.v.pl e.v.divus derivs = some e.res ∧
    e.coef = (if o.Axisym then e.u.J * o.W idx * o.Radius idx else e.u.J * o.W idx) ∧
    e.plt = o.β1 * e.v.pl - o.ψl idx ∧
    e.divvs = o.α4 * e.v.divus - o.divχs idx ∧
    e.klr = o.Mdl.Cnd.Klr (o.States idx).A_sl ∧
    e.ρL = (o.States idx).A_ρL ∧
    e.v.pl = ∑ m in Finset.range o.p_nverts, e.p.S m * sol.Y (o.Pmap.getD m 0) ∧
    e.v.divus = ∑ i in Finset.range o.Ndim, ∑ m in Finset.range o.u_nverts,
      e.u.G m i * sol.Y (o.Umap.getD (i + m * o.Ndim) 0) ∧
    (∀ i, e.v.bs i = o.α1 * (∑ m in Finset.range o.u_nverts,
      e.u.S m * sol.Y (o.Umap.getD (i + m * o.Ndim) 0)) - o.ζs idx i - o.g sol.T i) ∧
    (∀ i, e.v.hl i = -(o.States idx).A_ρL * e.v.bs i
      - ∑ m in Finset.range o.p_nverts, e.p.G m i * sol.Y (o.Pmap.getD m 0)) := by
  unfold ipLocals ipvars at h
  cases hp : o.PShp idx with
  | none => simp [hp] at h
  | some p =>
    cases hu : o.UShp idx with
    | none => simp [hp, hu] at h
    | some u =>
      simp only [hp, hu] at h
      split at h
      · cases h
      · rename_i res hres
        cases h
        refine ⟨rfl, rfl, hres, ?_, rfl, rfl, rfl, rfl, sumLoop_eq _ _, sumLoop2_eq _ _ _,
          fun i => ?_, fun i => ?_⟩
        · by_cases hax : o.Axisym = true <;> simp [hax]
        · simp only [sumLoop_eq]
        · simp only [sumLoop_eq]

theorem rhsLoop_frame (o : ElemUP K) (sol : Solution K)
    (hP : o.Pmap.length = o.p_nverts) (hU : o.Umap.length = o.Ndim * o.u_nverts)
    (r : Nat) (hrP : r ∉ o.Pmap) (hrU : r ∉ o.Umap) (l : List Nat)
    (st : (Nat → K) × (Nat → K)) : (rhsLoop o sol l st).1.1 r = st.1 r := by
  induction l generalizing st with
  | nil => rfl
  | cons idx l ih =>
    obtain ⟨fb, fi⟩ := st
    simp only [rhsLoop]
    cases he : ipLocals o sol idx false with
    | none => rfl
    | some e =>
      simp only []
      rw [ih]
      dsimp only
      rw [addAll_apply, addAll_apply,
        keySum_of_not_mem _ _ (fun c hc h => hrP (by rw [← h]; exact rhsPCmds_keys o e hP c hc)),
        keySum_of_not_mem _ _ (fun c hc h => hrU (by rw [← h]; exact rhsUCmds_keys o idx e hU c hc))]
      simp

theorem rhsLoop_rows (o : ElemUP K) (sol : Solution K)
    (hU : o.Umap.length = o.Ndim * o.u_nverts)
    (hdis : ∀ r ∈ o.Pmap, r ∉ o.Umap) (r : Nat) (hr : r ∈ o.Pmap) (ev : Nat → IpLocals K)
    (l : List Nat) (st : (Nat → K) × (Nat → K))
    (hev : ∀ idx ∈ l, ipLocals o sol idx false = some (ev idx)) :
    (rhsLoop o sol l st).2 = true ∧
    (rhsLoop o sol l st).1.1 r
      = st.1 r + (l.map (fun idx => keySum (rhsPCmds o (ev idx)) r)).sum := by
  induction l generalizing st with
  | nil => simp [rhsLoop]
  | cons idx l ih =>
    obtain ⟨fb, fi⟩ := st
    have he := hev idx (List.mem_cons_self _ _)
    simp only [rhsLoop, he]
    obtain ⟨ih1, ih2⟩ := ih (addAll (addAll fb (rhsPCmds o (ev idx))) (rhsUCmds o idx (ev idx)),
      if o.UseB = true then fun i => fi i + (ev idx).coef * o.Btσe idx i else fi)
      (fun i hi => hev i (List.mem_cons_of_mem _ hi))
    refine ⟨ih1, ?_⟩
    rw [ih2]
    dsimp only
    rw [addAll_apply, addAll_apply,
      keySum_of_not_mem (rhsUCmds o idx (ev idx)) r
        (fun c hc h => hdis r hr (by rw [← h]; exact rhsUCmds_keys o idx (ev idx) hU c hc)),
      List.map_cons, List.sum_cons]
    ring

theorem rhsLoop_ok (o : ElemUP K) (sol : Solution K) (l : List Nat)
    (st : (Nat → K) × (Nat → K)) (hev : ∀ idx ∈ l, ∃ e, ipLocals o sol idx false = some e) :
    (rhsLoop o sol l st).2 = true := by
  induction l generalizing st with
  | nil => rfl
  | cons idx l ih =>
    obtain ⟨fb, fi⟩ := st
    obtain ⟨e, he⟩ := hev idx (List.mem_cons_self _ _)
    simp only [rhsLoop, he]
    exact ih _ (fun i hi => hev i (List.mem_cons_of_mem _ hi))

theorem enum_keys (l : List Nat) (fi : Nat → K) (c : Nat × K)
    (hc : c ∈ l.enum.map (fun iI => (iI.2, -(fi iI.1)))) : c.1 ∈ l := by
  simp only [List.mem_map, Prod.exists] at hc
  obtain ⟨i, I, hmem, rfl⟩ := hc
  rw [(List.mem_enum hmem).2]
  exact List.getElem_mem _

/-- C18: `AddToRhs` without natural boundary conditions, for an element whose maps have the
lengths `len(Pmap) = p_nverts` and `len(Umap) = ndim·u_nverts`.  An entry of `fb` whose index
is in neither `Pmap` nor `Umap` is not changed.  When the equations of `Pmap` are distinct
and none of them is in `Umap`: one integration point adds to the row `Pmap[m]` of every
pressure vertex `m` the value `-coef·S[m]·(Cpl·plt + Cvs·divvs) + coef·Σᵢ G[m][i]·ρwl[i]`,
with `coef = J·w` (times the radius when axisymmetric), `plt = β1·pl - ψl[idx]`,
`divvs = α4·divus - divχs[idx]` and `ρwl[i] = klr·Σⱼ Klsat[i][j]·hl[j]`; and when every
integration point is computed without an error, `AddToRhs` returns true and has added to
the row the sum of these values over the integration points. -/
theorem AddToRhs_pressure_rows (o : ElemUP K)
    (add_surfloads_to_rhs add_natbcs_to_rhs : (Nat → K) → (Nat → K) × Bool)
    (fb : Nat → K) (sol : Solution K)
    (hP : o.Pmap.length = o.p_nverts) (hU : o.Umap.length = o.Ndim * o.u_nverts)
    (hnatU : o.U_NatBcs = 0) (hnatP : o.P_NatBcs = 0) :
    (∀ r, r ∉ o.Pmap → r ∉ o.Umap →
      (AddToRhs o add_surfloads_to_rhs add_natbcs_to_rhs fb sol).1 r = fb r) ∧
    (o.Pmap.Nodup → (∀ r ∈ o.Pmap, r ∉ o.Umap) →
      (∀ idx fi e, ipLocals o sol idx false = some e →
        (∃ u, o.UShp idx = some u ∧
          e.coef = if o.Axisym then u.J * o.W idx * o.Radius idx else u.J * o.W idx) ∧
        e.plt = o.β1 * e.v.pl - o.ψl idx ∧
        e.divvs = o.α4 * e.v.divus - o.divχs idx ∧
        ∀ m, m < o.p_nverts →
          (rhsLoop o sol [idx] (fb, fi)).1.1 (o.Pmap.getD m 0) = fb (o.Pmap.getD m 0) +
            (-(e.coef * e.p.S m * (e.res.Cpl * e.plt + e.res.Cvs * e.divvs))
              + e.coef * ∑ i in Finset.range o.Ndim,
                  e.p.G m i * (e.klr * ∑ j in Finset.range o.Ndim, Klsat o i j * e.v.hl j))) ∧
      (∀ ev : Nat → IpLocals K, (∀ idx, idx < o.Nip → ipLocals o sol idx false = some (ev idx)) →
        (AddToRhs o add_surfloads_to_rhs add_natbcs_to_rhs fb sol).2 = true ∧
        ∀ m, m < o.p_nverts →
          (AddToRhs o add_surfloads_to_rhs add_natbcs_to_rhs fb sol).1 (o.Pmap.getD m 0)
            = fb (o.Pmap.getD m 0) + ∑ idx in Finset.range o.Nip,
              (-((ev idx).coef * (ev idx).p.S m *
                  ((ev idx).res.Cpl * (ev idx).plt + (ev idx).res.Cvs * (ev idx).divvs))
                + (ev idx).coef * ∑ i in Finset.range o.Ndim, (ev idx).p.G m i *
                    ((ev idx).klr * ∑ j in Finset.range o.Ndim,
                      Klsat o i j * (ev idx).v.hl j)))) := by
  have hfinal : ∀ r : Nat, r ∉ o.Umap →
      (AddToRhs o add_surfloads_to_rhs add_natbcs_to_rhs fb sol).1 r
        = (rhsLoop o sol (List.range o.Nip) (fb, fun _ => 0)).1.1 r := by
    intro r hrU
    unfold AddToRhs
    rcases hloop : rhsLoop o sol (List.range o.Nip) (fb, fun _ => 0) with ⟨⟨fb1, fi⟩, b⟩
    cases b with
    | false => rfl
    | true =>
      simp only [hnatU, hnatP, lt_irrefl, if_false, Bool.not_true, Bool.false_eq_true]
      split
      · rw [addAll_apply, keySum_of_not_mem _ _
          (fun c hc h => hrU (by rw [← h]; exact enum_keys _ _ c hc)), add_zero]
      · rfl
  refine ⟨fun r hrP hrU => ?_, fun hnd hdis => ⟨fun idx fi e he => ?_, fun ev hev => ?_⟩⟩
  · rw [hfinal r hrU]
    exact rhsLoop_frame o sol hP hU r hrP hrU _ _
  · have hs := ipLocals_spec o sol idx false e he
    refine ⟨⟨e.u, hs.2.1, hs.2.2.2.1⟩, hs.2.2.2.2.1, hs.2.2.2.2.2.1, fun m hm => ?_⟩
    have hmem : o.Pmap.getD m 0 ∈ o.Pmap := getD_mem_of_lt _ _ (by omega)
    have h := (rhsLoop_rows o sol hU hdis _ hmem (fun _ => e) [idx] (fb, fi)
      (fun i hi => by rw [List.mem_singleton.mp hi]; exact he)).2
    rw [h, keySum_rhsPCmds_row o e hP hnd m hm]
    simp
  · have hl := fun r hr => rhsLoop_rows o sol hU hdis r hr ev (List.range o.Nip)
      (fb, fun _ => 0) (fun i hi => hev i (List.mem_range.mp hi))
    constructor
    · unfold AddToRhs
      rcases hloop : rhsLoop o sol (List.range o.Nip) (fb, fun _ => 0) with ⟨⟨fb1, fi⟩, b⟩
      have hb : b = true := by
        have h := rhsLoop_ok o sol (List.range o.Nip) (fb, fun _ => 0)
          (fun i hi => ⟨_, hev i (List.mem_range.mp hi)⟩)
        rw [hloop] at h
        exact h
      subst hb
      simp [hnatU, hnatP]
    · intro m hm
      have hmem : o.Pmap.getD m 0 ∈ o.Pmap := getD_mem_of_lt _ _ (by omega)
      rw [hfinal _ (hdis _ hmem), (hl _ hmem).2, sum_map_range]
      refine congrArg _ (Finset.sum_congr rfl (fun idx _ => ?_))
      exact keySum_rhsPCmds_row o (ev idx) hP hnd m hm

end

theorem exampleElem_ipLocals (idx : Nat) (derivs : Bool) :
    (ipLocals exampleElem exampleSol idx derivs).isSome = true := by
  simp [ipLocals, ipvars, exampleElem]

theorem AddToRhs_pressure_rows_witness :
    (AddToRhs exampleElem (fun f => (f, true)) (fun f => (f, true)) (fun _ => 0) exampleSol).2
      = true ∧
    (AddToRhs exampleElem (fun f => (f, true)) (fun f => (f, true)) (fun _ => 0) exampleSol).1 9
      = 0 ∧
    (AddToRhs exampleElem (fun f => (f, true)) (fun f => (f, true)) (fun _ => 0) exampleSol).1 2
      = -460297 / 300000 := by
  have h := AddToRhs_pressure_rows exampleElem (fun f => (f, true)) (fun f => (f, true))
    (fun _ => 0) exampleSol (by decide) (by decide) (by decide) (by decide)
  have h2 := (h.2 (by decide) (by decide)).2
    (fun idx => (ipLocals exampleElem exampleSol idx false).get (exampleElem_ipLocals idx false))
    (fun idx _ => (Option.some_get _).symm)
  refine ⟨h2.1, h.1 9 (by decide) (by decide), ?_⟩
  have h3 := h2.2 0 (by decide)
  have h4 : exampleElem.Pmap.getD 0 0 = 2 := by decide
  rw [h4] at h3
  rw [h3]
  simp [ipLocals, ipvars, exampleElem, exampleSol, exampleLs, Klsat, mporous.exampleModel,
    mporous.satState, sumLoop, sumLoop2, Finset.sum_range_succ, triG, List.range_succ]
  norm_num

/-! ## `AddToKb` -/

/-- The pair `(j, m)` is determined by the index `j + m·ndim` when `j < ndim`. -/
theorem dof_index_inj (d j m j0 m0 : Nat) (hj : j < d) (hj0 : j0 < d)
    (h : j + m * d = j0 + m0 * d) : j = j0 ∧ m = m0 := by
  have h1 : (j + m * d) % d = (j0 + m0 * d) % d := by rw [h]
  rw [Nat.add_mul_mod_self_right, Nat.add_mul_mod_self_right, Nat.mod_eq_of_lt hj,
    Nat.mod_eq_of_lt hj0] at h1
  subst h1
  have h2 : m * d = m0 * d := by omega
  exact ⟨rfl, Nat.eq_of_mul_eq_mul_right (by omega) h2⟩

section
variable {K : Type} [LinearOrderedField K]

theorem keySum_kpuCmds (o : ElemUP K) (e : IpLocals K) (n m j : Nat) (hn : n < o.p_nverts)
    (hm : m < o.u_nverts) (hj : j < o.Ndim) :
    keySum (kpuCmds o e) (n, j + m * o.Ndim) =
      e.coef * e.p.S n * (e.res.DCpldusM * e.plt + o.α4 * e.res.Cvs) * e.u.G m j
        + e.coef * ∑ i in Finset.range o.Ndim,
            e.p.G n i * e.u.S m * o.α1 * e.ρL * e.klr * Klsat o i j := by
  unfold kpuCmds
  rw [keySum_flatMap_range, Finset.sum_eq_single n]
  · rw [keySum_flatMap_range, Finset.sum_eq_single j]
    · rw [keySum_flatMap_range, Finset.sum_eq_single m]
      · rw [keySum_cons, keySum_map_range]
        simp only [if_true, Finset.mul_sum]
        congr 1
        exact Finset.sum_congr rfl (fun i _ => by ring)
      · intro m1 hm1 hne
        refine keySum_of_not_mem _ _ (fun c hc h => hne ?_)
        simp only [List.mem_cons, List.mem_map, List.mem_range] at hc
        rcases hc with hc | ⟨i, _, hc⟩
        · rw [hc] at h
          exact (dof_index_inj _ _ _ _ _ hj hj (Prod.mk.inj h).2).2
        · rw [← hc] at h
          exact (dof_index_inj _ _ _ _ _ hj hj (Prod.mk.inj h).2).2
      · intro h
        exact absurd (Finset.mem_range.mpr hm) h
    · intro j1 hj1 hne
      refine keySum_of_not_mem _ _ (fun c hc h => hne ?_)
      simp only [List.mem_flatMap, List.mem_cons, List.mem_map, List.mem_range] at hc
      obtain ⟨m1, _, hc | ⟨i, _, hc⟩⟩ := hc
      · rw [hc] at h
        exact (dof_index_inj _ _ _ _ _ (Finset.mem_range.mp hj1) hj (Prod.mk.inj h).2).1
      · rw [← hc] at h
        exact (dof_index_inj _ _ _ _ _ (Finset.mem_range.mp hj1) hj (Prod.mk.inj h).2).1
    · intro h
      exact absurd (Finset.mem_range.mpr hj) h
  · intro n1 _ hne
    refine keySum_of_not_mem _ _ (fun c hc h => hne ?_)
    simp only [List.mem_flatMap, List.mem_cons, List.mem_map, List.mem_range] at hc
    obtain ⟨j1, _, m1, _, hc | ⟨i, _, hc⟩⟩ := hc
    · rw [hc] at h
      exact (Prod.mk.inj h).1
    · rw [← hc] at h
      exact (Prod.mk.inj h).1
  · intro h
    exact absurd (Finset.mem_range.mpr hn) h

theorem keySum_kupCmds (o : ElemUP K) (e : IpLocals K) (n m j : Nat) (hn : n < o.p_nverts)
    (hm : m < o.u_nverts) (hj : j < o.Ndim) :
    keySum (kupCmds o e) (j + m * o.Ndim, n) =
      e.coef * (e.u.S m * e.p.S n * e.res.Dρdpl * e.v.bs j
        - e.u.G m j * e.p.S n * e.res.Dpdpl) := by
  unfold kupCmds
  rw [keySum_flatMap_range, Finset.sum_eq_single n]
  · rw [keySum_flatMap_range, Finset.sum_eq_single j]
    · rw [keySum_map_range, Finset.sum_eq_single m]
      · simp only [if_true]
      · intro m1 _ hne
        rw [if_neg]
        intro h
        exact hne (dof_index_inj _ _ _ _ _ hj hj (Prod.mk.inj h).1).2
      · intro h
        exact absurd (Finset.mem_range.mpr hm) h
    · intro j1 hj1 hne
      refine keySum_of_not_mem _ _ (fun c hc h => hne ?_)
      simp only [List.mem_map, List.mem_range] at hc
      obtain ⟨m1, _, hc⟩ := hc
      rw [← hc] at h
      exact (dof_index_inj _ _ _ _ _ (Finset.mem_range.mp hj1) hj (Prod.mk.inj h).1).1
    · intro h
      exact absurd (Finset.mem_range.mpr hj) h
  · intro n1 _ hne
    refine keySum_of_not_mem _ _ (fun c hc h => hne ?_)
    simp only [List.mem_flatMap, List.mem_map, List.mem_range] at hc
    obtain ⟨j1, _, m1, _, hc⟩ := hc
    rw [← hc] at h
    exact (Prod.mk.inj h).2
  · intro h
    exact absurd (Finset.mem_range.mpr hn) h

theorem kbLoop_single (o : ElemUP K) (sol : Solution K) (firstIt : Bool) (idx : Nat)
    (e : IpLocals K) (he : ipLocals o sol idx true = some e) (Kpu Kup : Nat × Nat → K) :
    (kbLoop o sol firstIt [idx] (Kpu, Kup)).1
      = (addAll Kpu (kpuCmds o e), addAll Kup (kupCmds o e)) := by
  simp only [kbLoop, he]
  split <;> rfl

theorem kbLoop_blocks (o : ElemUP K) (sol : Solution K) (firstIt : Bool)
    (ev : Nat → IpLocals K) (l : List Nat) (st : (Nat × Nat → K) × (Nat × Nat → K))
    (hev : ∀ idx ∈ l, ipLocals o sol idx true = some (ev idx) ∧ o.CalcD idx firstIt = true) :
    (kbLoop o sol firstIt l st).2 = true ∧
    ∀ k, (kbLoop o sol firstIt l st).1.1 k
        = st.1 k + (l.map (fun idx => keySum (kpuCmds o (ev idx)) k)).sum ∧
      (kbLoop o sol firstIt l st).1.2 k
        = st.2 k + (l.map (fun idx => keySum (kupCmds o (ev idx)) k)).sum := by
  induction l generalizing st with
  | nil => simp [kbLoop]
  | cons idx l ih =>
    obtain ⟨Kpu, Kup⟩ := st
    obtain ⟨he, hd⟩ := hev idx (List.mem_cons_self _ _)
    simp only [kbLoop, he, hd, if_true]
    obtain ⟨ih1, ih2⟩ := ih (addAll Kpu (kpuCmds o (ev idx)), addAll Kup (kupCmds o (ev idx)))
      (fun i hi => hev i (List.mem_cons_of_mem _ hi))
    refine ⟨ih1, fun k => ?_⟩
    rw [(ih2 k).1, (ih2 k).2]
    dsimp only
    rw [addAll_apply, addAll_apply, List.map_cons, List.sum_cons, List.map_cons, List.sum_cons]
    constructor <;> ring

end

section
variable {K : Type} [LinearOrderedField K]

/-- C19: the coupling blocks of `AddToKb`, for an element with `Nu = ndim·u_nverts` and
`Np = p_nverts`.  The blocks are cleared at entry.  At one integration point, for every
pressure vertex `n`, displacement vertex `m` and direction `j`, with `c = j + m·ndim`:
`Kpu[n][c]` receives `coef·S[n]·(DCpldusM·plt + α4·Cvs)·G[m][j]
+ coef·Σᵢ G[n][i]·S[m]·α1·ρL·klr·Klsat[i][j]` and `Kup[c][n]` receives
`coef·(S[m]·S[n]·Dρdpl·bs[j] - G[m][j]·S[n]·Dpdpl)`.  Without a seepage face, when every
integration point is computed without an error, `AddToKb` reaches the assembly with blocks
that are the sums of these values over the integration points, whatever the blocks held
before the call. -/
theorem AddToKb_coupling_blocks (o : ElemUP K)
    (natbcs_jac : (Nat × Nat → K) × (Nat × Nat → K) → ((Nat × Nat → K) × (Nat × Nat → K)) × Bool)
    (sol : Solution K) (firstIt : Bool) (Kpu Kup : Nat × Nat → K)
    (hNu : o.Nu = o.Ndim * o.u_nverts) (hNp : o.Np = o.p_nverts) :
    (∀ n c, n < o.Np → c < o.Nu → clearKpu o Kpu (n, c) = 0 ∧ clearKup o Kup (c, n) = 0) ∧
    (∀ idx e (A B : Nat × Nat → K), ipLocals o sol idx true = some e →
      ∀ n m j, n < o.p_nverts → m < o.u_nverts → j < o.Ndim →
        (kbLoop o sol firstIt [idx] (A, B)).1.1 (n, j + m * o.Ndim) = A (n, j + m * o.Ndim) +
          (e.coef * e.p.S n * (e.res.DCpldusM * e.plt + o.α4 * e.res.Cvs) * e.u.G m j
            + e.coef * ∑ i in Finset.range o.Ndim,
                e.p.G n i * e.u.S m * o.α1 * e.ρL * e.klr * Klsat o i j) ∧
        (kbLoop o sol firstIt [idx] (A, B)).1.2 (j + m * o.Ndim, n) = B (j + m * o.Ndim, n) +
          e.coef * (e.u.S m * e.p.S n * e.res.Dρdpl * e.v.bs j
            - e.u.G m j * e.p.S n * e.res.Dpdpl)) ∧
    (o.HasSeep = false → ∀ ev : Nat → IpLocals K,
      (∀ idx, idx < o.Nip →
        ipLocals o sol idx true = some (ev idx) ∧ o.CalcD idx firstIt = true) →
      (AddToKb o natbcs_jac sol firstIt Kpu Kup).2 = true ∧
      ∀ n m j, n < o.p_nverts → m < o.u_nverts → j < o.Ndim →
        (AddToKb o natbcs_jac sol firstIt Kpu Kup).1.1 (n, j + m * o.Ndim)
          = ∑ idx in Finset.range o.Nip,
            ((ev idx).coef * (ev idx).p.S n *
                ((ev idx).res.DCpldusM * (ev idx).plt + o.α4 * (ev idx).res.Cvs) * (ev idx).u.G m j
              + (ev idx).coef * ∑ i in Finset.range o.Ndim,
                  (ev idx).p.G n i * (ev idx).u.S m * o.α1 * (ev idx).ρL * (ev idx).klr
                    * Klsat o i j) ∧
        (AddToKb o natbcs_jac sol firstIt Kpu Kup).1.2 (j + m * o.Ndim, n)
          = ∑ idx in Finset.range o.Nip,
            (ev idx).coef * ((ev idx).u.S m * (ev idx).p.S n * (ev idx).res.Dρdpl * (ev idx).v.bs j
              - (ev idx).u.G m j * (ev idx).p.S n * (ev idx).res.Dpdpl)) := by
  have hclear : ∀ n c, n < o.Np → c < o.Nu →
      clearKpu o Kpu (n, c) = 0 ∧ clearKup o Kup (c, n) = 0 := by
    intro n c hn hc
    simp [clearKpu, clearKup, hn, hc]
  refine ⟨hclear, ?_, ?_⟩
  · intro idx e A B he n m j hn hm hj
    rw [kbLoop_single o sol firstIt idx e he]
    dsimp only
    rw [addAll_apply, addAll_apply, keySum_kpuCmds o e n m j hn hm hj,
      keySum_kupCmds o e n m j hn hm hj]
    exact ⟨rfl, rfl⟩
  · intro hseep ev hev
    obtain ⟨hb, hk⟩ := kbLoop_blocks o sol firstIt ev (List.range o.Nip)
      (clearKpu o Kpu, clearKup o Kup) (fun i hi => hev i (List.mem_range.mp hi))
    have hA : AddToKb o natbcs_jac sol firstIt Kpu Kup
        = kbLoop o sol firstIt (List.range o.Nip) (clearKpu o Kpu, clearKup o Kup) := by
      unfold AddToKb
      rcases hloop : kbLoop o sol firstIt (List.range o.Nip) (clearKpu o Kpu, clearKup o Kup)
        with ⟨st, b⟩
      rw [hloop] at hb
      cases hb
      simp [hseep]
    rw [hA]
    refine ⟨hb, fun n m j hn hm hj => ?_⟩
    have hc := hclear n (j + m * o.Ndim) (by omega)
      (by rw [hNu]; exact dof_index_lt _ _ j m hj hm)
    rw [(hk _).1, (hk _).2, sum_map_range, sum_map_range]
    dsimp only
    rw [hc.1, hc.2, zero_add, zero_add]
    exact ⟨Finset.sum_congr rfl (fun idx _ => keySum_kpuCmds o (ev idx) n m j hn hm hj),
      Finset.sum_congr rfl (fun idx _ => keySum_kupCmds o (ev idx) n m j hn hm hj)⟩

end

theorem AddToKb_coupling_blocks_witness :
    (AddToKb exampleElem (fun st => (st, true)) exampleSol true (fun _ => 7) (fun _ => 7)).2
      = true ∧
    (AddToKb exampleElem (fun st => (st, true)) exampleSol true (fun _ => 7) (fun _ => 7)).1.1
      (0, 0 + 1 * 2) = 55 / 3 - 1 / 30000 ∧
    (AddToKb exampleElem (fun st => (st, true)) exampleSol true (fun _ => 7) (fun _ => 7)).1.2
      (0 + 1 * 2, 0) = 1 / 720 - 1 / 3 := by
  have h := (AddToKb_coupling_blocks exampleElem (fun st => (st, true)) exampleSol true
    (fun _ => 7) (fun _ => 7) (by decide) (by decide)).2.2 (by decide)
    (fun idx => (ipLocals exampleElem exampleSol idx true).get (exampleElem_ipLocals idx true))
    (fun idx _ => ⟨(Option.some_get _).symm, rfl⟩)
  refine ⟨h.1, (h.2 0 1 0 (by decide) (by decide) (by decide)).1.trans ?_,
    (h.2 0 1 0 (by decide) (by decide) (by decide)).2.trans ?_⟩
  · simp [ipLocals, ipvars, exampleElem, exampleSol, exampleLs, Klsat, mporous.exampleModel,
      mporous.satState, sumLoop, sumLoop2, Finset.sum_range_succ, triG, List.range_succ]
    norm_num
  · simp [ipLocals, ipvars, exampleElem, exampleSol, exampleLs, Klsat, mporous.exampleModel,
      mporous.satState, sumLoop, sumLoop2, Finset.sum_range_succ, triG, List.range_succ]
    norm_num

/-! ## `ipvars` on the scratch values -/

theorem foldl_update_range {β : Type} (F : Nat → β → β) (d : Nat) (f0 : Nat → β) :
    (List.range d).foldl (fun f i => Function.update f i (F i (f i))) f0
      = fun i => if i < d then F i (f0 i) else f0 i := by
  induction d with
  | zero => simp
  | succ d ih =>
    rw [List.range_succ, List.foldl_append, ih]
    funext i
    simp only [List.foldl_cons, List.foldl_nil, lt_irrefl, if_false]
    by_cases hi : i = d
    · subst hi; simp
    · rw [Function.update_noteq hi]
      by_cases h1 : i < d
      · simp [h1, Nat.lt_succ_of_lt h1]
      · have h2 : ¬ i < d + 1 := by omega
        simp [h1, h2]

theorem foldl_pair_range {β : Type} (B : Nat → β) (H : Nat → β → β) (d : Nat)
    (t0 : (Nat → β) × (Nat → β)) :
    (List.range d).foldl (fun (t : (Nat → β) × (Nat → β)) i =>
        (Function.update t.1 i (B i),
          Function.update t.2 i (H i (Function.update t.1 i (B i) i)))) t0
      = (fun i => if i < d then B i else t0.1 i, fun i => if i < d then H i (B i) else t0.2 i) := by
  induction d with
  | zero => simp
  | succ d ih =>
    rw [List.range_succ, List.foldl_append, ih]
    simp only [List.foldl_cons, List.foldl_nil, Function.update_same]
    refine Prod.ext ?_ ?_ <;> funext i <;> by_cases hi : i = d
    · subst hi; simp
    · by_cases h1 : i < d
      · simp [Function.update_noteq hi, h1, Nat.lt_succ_of_lt h1]
      · have h2 : ¬ i < d + 1 := by omega
        simp [Function.update_noteq hi, h1, h2]
    · subst hi; simp
    · by_cases h1 : i < d
      · simp [Function.update_noteq hi, h1, Nat.lt_succ_of_lt h1]
      · have h2 : ¬ i < d + 1 := by omega
        simp [Function.update_noteq hi, h1, h2]

section
variable {K : Type} [LinearOrderedField K]

theorem foldl_add_at (b : Nat → K) (i n : Nat) (f0 : Nat → K) :
    (List.range n).foldl (fun f m => Function.update f i (f i + b m)) f0
      = Function.update f0 i (f0 i + ∑ m in Finset.range n, b m) := by
  induction n with
  | zero => simp
  | succ n ih =>
    rw [List.range_succ, List.foldl_append, ih]
    simp [Finset.sum_range_succ, add_assoc]

theorem foldl_add_rows (c : Nat → Nat → K) (d n : Nat) (g0 : Nat → K) :
    (List.range n).foldl (fun g m =>
        (List.range d).foldl (fun g i => Function.update g i (g i + c m i)) g) g0
      = fun i => if i < d then g0 i + ∑ m in Finset.range n, c m i else g0 i := by
  induction n with
  | zero => funext i; simp
  | succ n ih =>
    rw [List.range_succ, List.foldl_append, ih]
    simp only [List.foldl_cons, List.foldl_nil]
    rw [foldl_update_range (fun i x => x + c n i)]
    funext i
    by_cases h1 : i < d
    · simp [h1, Finset.sum_range_succ, add_assoc]
    · simp [h1]

theorem us_fold (b : Nat → Nat → K) (d n : Nat) (us0 : Nat → K) :
    (List.range d).foldl (fun us i =>
        (List.range n).foldl (fun us m => Function.update us i (us i + b i m))
          (Function.update us i 0)) us0
      = fun i => if i < d then ∑ m in Finset.range n, b i m else us0 i := by
  have hbody : (fun (us : Nat → K) i =>
        (List.range n).foldl (fun us m => Function.update us i (us i + b i m))
          (Function.update us i 0))
      = fun us i => Function.update us i ((fun i _ => ∑ m in Finset.range n, b i m) i (us i)) := by
    funext us i
    rw [foldl_add_at]
    simp
  rw [hbody]
  exact foldl_update_range (fun i _ => ∑ m in Finset.range n, b i m) d us0

theorem gpl_fold (c : Nat → Nat → K) (d n : Nat) (g0 : Nat → K) :
    (List.range n).foldl (fun g m =>
        (List.range d).foldl (fun g i => Function.update g i (g i + c m i)) g)
        ((List.range d).foldl (fun g i => Function.update g i 0) g0)
      = fun i => if i < d then ∑ m in Finset.range n, c m i else g0 i := by
  rw [foldl_add_rows, foldl_update_range (fun (_ : Nat) (_ : K) => (0 : K))]
  funext i
  by_cases h1 : i < d <;> simp [h1]

theorem bshl_fold (a ρL : K) (us gpl ζ g : Nat → K) (d : Nat) (t0 : (Nat → K) × (Nat → K)) :
    (List.range d).foldl (fun (t : (Nat → K) × (Nat → K)) i =>
        (Function.update t.1 i (a * us i - ζ i - g i),
          Function.update t.2 i (-ρL * Function.update t.1 i (a * us i - ζ i - g i) i - gpl i))) t0
      = (fun i => if i < d then a * us i - ζ i - g i else t0.1 i,
          fun i => if i < d then -ρL * (a * us i - ζ i - g i) - gpl i else t0.2 i) :=
  foldl_pair_range (fun i => a * us i - ζ i - g i) (fun i b => -ρL * b - gpl i) d t0

/-- With shape functions at the integration point, `ipvarsOn` succeeds and its scratch values
are sums over the solution vector and the shape functions. -/
theorem ipvarsOn_values (o : ElemUP K) (idx : Nat) (sol : Solution K) (prev1 : IpVars K)
    (p1 : PShape K) (u1 : UShape K) (hp : o.PShp idx = some p1) (hu : o.UShp idx = some u1) :
    ∃ v1, ipvarsOn o idx sol prev1 = some (p1, u1, v1) ∧
      v1.divus = ∑ m in Finset.range o.u_nverts, ∑ i in Finset.range o.Ndim,
        u1.G m i * sol.Y (o.Umap.getD (i + m * o.Ndim) 0) ∧
      v1.pl = ∑ m in Finset.range o.p_nverts, p1.S m * sol.Y (o.Pmap.getD m 0) ∧
      ∀ i, i < o.Ndim →
        v1.us i = ∑ m in Finset.range o.u_nverts,
          u1.S m * sol.Y (o.Umap.getD (i + m * o.Ndim) 0) ∧
        v1.gpl i = ∑ m in Finset.range o.p_nverts, p1.G m i * sol.Y (o.Pmap.getD m 0) ∧
        v1.bs i = o.α1 * v1.us i - o.ζs idx i - o.g sol.T i ∧
        v1.hl i = -(o.States idx).A_ρL * v1.bs i - v1.gpl i := by
  obtain ⟨v1, h1⟩ : ∃ v1, ipvarsOn o idx sol prev1 = some (p1, u1, v1) := by
    simp only [ipvarsOn, hp, hu]
    exact ⟨_, rfl⟩
  refine ⟨v1, h1, ?_⟩
  simp only [ipvarsOn, hp, hu, Option.some.injEq, Prod.mk.injEq, true_and] at h1
  subst h1
  refine ⟨?_, ?_, ?_⟩
  · show sumLoop2 o.Ndim o.u_nverts
      (fun i m => u1.G m i * sol.Y (o.Umap.getD (i + m * o.Ndim) 0)) = _
    rw [sumLoop2_eq, Finset.sum_comm]
  · exact sumLoop_eq _ _
  · intro i hi
    simp only [us_fold (fun i m => u1.S m * sol.Y (o.Umap.getD (i + m * o.Ndim) 0)),
      gpl_fold (fun m i => p1.G m i * sol.Y (o.Pmap.getD m 0)), bshl_fold, hi, if_true,
      and_self]

/-- A successful `ipvarsOn` returns the shape functions of the integration point. -/
theorem ipvarsOn_shapes (o : ElemUP K) (idx : Nat) (sol : Solution K) (prev : IpVars K)
    (p : PShape K) (u : UShape K) (v : IpVars K)
    (h : ipvarsOn o idx sol prev = some (p, u, v)) :
    o.PShp idx = some p ∧ o.UShp idx = some u := by
  unfold ipvarsOn at h
  cases hp : o.PShp idx with
  | none => simp [hp] at h
  | some p1 =>
    cases hu : o.UShp idx with
    | none => simp [hp, hu] at h
    | some u1 =>
      simp only [hp, hu, Option.some.injEq, Prod.mk.injEq] at h
      rw [h.1, h.2.1]
      exact ⟨rfl, rfl⟩

/-- C29: after a successful `ipvars` the scratch values are sums over the solution vector and
the shape functions, whatever they held before the call: `divus`, `pl`, and for every
direction `i < ndim` the entries `us[i]`, `gpl[i]`, `bs[i] = α1·us[i] - ζs[idx][i] - g[i]` and
`hl[i] = -ρL·bs[i] - gpl[i]`, with `ρL` the liquid density of the state at `idx`; and the call
succeeds on every other content of the scratch values, with the same result there. -/
theorem ipvarsOn_spec (o : ElemUP K) (idx : Nat) (sol : Solution K) (prev : IpVars K)
    (p : PShape K) (u : UShape K) (v : IpVars K)
    (h : ipvarsOn o idx sol prev = some (p, u, v)) :
    o.PShp idx = some p ∧ o.UShp idx = some u ∧
    v.divus = ∑ m in Finset.range o.u_nverts, ∑ i in Finset.range o.Ndim,
      u.G m i * sol.Y (o.Umap.getD (i + m * o.Ndim) 0) ∧
    v.pl = ∑ m in Finset.range o.p_nverts, p.S m * sol.Y (o.Pmap.getD m 0) ∧
    (∀ i, i < o.Ndim →
      v.us i = ∑ m in Finset.range o.u_nverts, u.S m * sol.Y (o.Umap.getD (i + m * o.Ndim) 0) ∧
      v.gpl i = ∑ m in Finset.range o.p_nverts, p.G m i * sol.Y (o.Pmap.getD m 0) ∧
      v.bs i = o.α1 * v.us i - o.ζs idx i - o.g sol.T i ∧
      v.hl i = -(o.States idx).A_ρL * v.bs i - v.gpl i) ∧
    (∀ prev1 : IpVars K, ∃ v1, ipvarsOn o idx sol prev1 = some (p, u, v1) ∧
      v1.divus = v.divus ∧ v1.pl = v.pl ∧
      ∀ i, i < o.Ndim →
        v1.us i = v.us i ∧ v1.gpl i = v.gpl i ∧ v1.bs i = v.bs i ∧ v1.hl i = v.hl i) := by
  obtain ⟨hp, hu⟩ := ipvarsOn_shapes o idx sol prev p u v h
  obtain ⟨v0, h0, hd, hpl, hrest⟩ := ipvarsOn_values o idx sol prev p u hp hu
  have hv : v0 = v := by
    have := h0.symm.trans h
    simp only [Option.some.injEq, Prod.mk.injEq, true_and] at this
    exact this
  subst hv
  refine ⟨hp, hu, hd, hpl, hrest, fun prev1 => ?_⟩
  obtain ⟨v1, h1, hd1, hpl1, hrest1⟩ := ipvarsOn_values o idx sol prev1 p u hp hu
  refine ⟨v1, h1, hd1.trans hd.symm, hpl1.trans hpl.symm, fun i hi => ?_⟩
  obtain ⟨a1, a2, a3, a4⟩ := hrest i hi
  obtain ⟨b1, b2, b3, b4⟩ := hrest1 i hi
  have e1 : v1.us i = v0.us i := b1.trans a1.symm
  have e2 : v1.gpl i = v0.gpl i := b2.trans a2.symm
  have e3 : v1.bs i = v0.bs i := by rw [b3, a3, e1]
  exact ⟨e1, e2, e3, by rw [b4, a4, e3, e2]⟩

end

/-- The scratch values of `ipvars` are those of `ipvarsOn`, in the directions `i < ndim`. -/
theorem ipvars_eq_ipvarsOn {K : Type} [LinearOrderedField K] (o : ElemUP K) (idx : Nat)
    (sol : Solution K) (prev : IpVars K) (p : PShape K) (u : UShape K) (v : IpVars K)
    (h : ipvarsOn o idx sol prev = some (p, u, v)) :
    ∃ w, ipvars o idx sol = some (p, u, w) ∧ w.divus = v.divus ∧ w.pl = v.pl ∧
      ∀ i, i < o.Ndim → w.us i = v.us i ∧ w.gpl i = v.gpl i ∧ w.bs i = v.bs i ∧ w.hl i = v.hl i := by
  obtain ⟨hp, hu⟩ := ipvarsOn_shapes o idx sol prev p u v h
  obtain ⟨v0, h0, hd, hpl, hrest⟩ := ipvarsOn_values o idx sol prev p u hp hu
  have hv : v0 = v := by
    have := h0.symm.trans h
    simp only [Option.some.injEq, Prod.mk.injEq, true_and] at this
    exact this
  subst hv
  obtain ⟨w, hw⟩ : ∃ w, ipvars o idx sol = some (p, u, w) := by
    simp only [ipvars, hp, hu]
    exact ⟨_, rfl⟩
  refine ⟨w, hw, ?_⟩
  simp only [ipvars, hp, hu, Option.some.injEq, Prod.mk.injEq, true_and] at hw
  subst hw
  refine ⟨?_, ?_, fun i hi => ?_⟩
  · rw [hd, Finset.sum_comm]; exact sumLoop2_eq _ _ _
  · rw [hpl]; exact sumLoop_eq _ _
  · obtain ⟨a1, a2, a3, a4⟩ := hrest i hi
    have e1 : sumLoop o.u_nverts (fun m => u.S m * sol.Y (o.Umap.getD (i + m * o.Ndim) 0))
        = v0.us i := by rw [a1]; exact sumLoop_eq _ _
    have e2 : sumLoop o.p_nverts (fun m => p.G m i * sol.Y (o.Pmap.getD m 0)) = v0.gpl i := by
      rw [a2]; exact sumLoop_eq _ _
    refine ⟨e1, e2, ?_, ?_⟩
    · show o.α1 * sumLoop _ _ - _ - _ = _
      rw [e1, a3]
    · show -_ * (o.α1 * sumLoop _ _ - _ - _) - sumLoop _ _ = _
      rw [e1, e2, a4, a3]

/-- C29, witness: the example element at its first integration point, with every scratch
value 7 before the call. -/
theorem ipvarsOn_spec_witness :
    ∃ p u v, ipvarsOn exampleElem 0 exampleSol ⟨7, 7, fun _ => 7, fun _ => 7, fun _ => 7,
        fun _ => 7⟩ = some (p, u, v) ∧
      v.divus = 1 / 10 ∧ v.pl = 6 ∧ v.us 0 = 1 / 10 ∧ v.gpl 1 = 0 ∧ v.bs 1 = -10 ∧
      v.hl 1 = 10 := by
  obtain ⟨p, u, v, h⟩ : ∃ p u v, ipvarsOn exampleElem 0 exampleSol
      ⟨7, 7, fun _ => 7, fun _ => 7, fun _ => 7, fun _ => 7⟩ = some (p, u, v) := by
    simp only [ipvarsOn, exampleElem]
    exact ⟨_, _, _, rfl⟩
  obtain ⟨hp, hu, hd, hpl, hrest, -⟩ := ipvarsOn_spec _ _ _ _ _ _ _ h
  simp only [exampleElem, Option.some.injEq] at hp hu
  subst hp hu
  obtain ⟨a1, -, -, -⟩ := hrest 0 (by decide)
  obtain ⟨b1, b2, b3, b4⟩ := hrest 1 (by decide)
  refine ⟨_, _, v, h, ?_, ?_, ?_, ?_, ?_, ?_⟩
  · rw [hd]
    simp [exampleElem, exampleSol, Finset.sum_range_succ, triG]
  · rw [hpl]
    simp [exampleElem, exampleSol, Finset.sum_range_succ]
    norm_num
  · rw [a1]
    simp [exampleElem, exampleSol, Finset.sum_range_succ]
    norm_num
  · rw [b2]
    simp [exampleElem, exampleSol, Finset.sum_range_succ, triG]
  · rw [b3, b1]
    simp [exampleElem, exampleSol, Finset.sum_range_succ]
  · rw [b4, b3, b2, b1]
    simp [exampleElem, exampleSol, Finset.sum_range_succ, triG, mporous.satState]

/-! ## The assembly of `AddToKb` -/

theorem enum_eq_map_range (l : List Nat) :
    l.enum = (List.range l.length).map (fun i => (i, l.getD i 0)) := by
  refine List.ext_getElem (by simp) (fun i h1 h2 => ?_)
  have hi : i < l.length := by simpa using h1
  simp [List.getElem?_eq_getElem hi]

theorem flatMap_pair_perm {α β : Type} (l : List α) (a b : α → β) :
    List.Perm (l.flatMap (fun y => [a y, b y])) (l.map a ++ l.map b) := by
  induction l with
  | nil => simp
  | cons y l ih =>
    simp only [List.flatMap_cons, List.map_cons, List.cons_append, List.nil_append]
    exact List.Perm.cons _ ((List.Perm.cons _ ih).trans List.perm_middle.symm)

theorem enum_block {K : Type} (rowMap colMap : List Nat)
    (put : Nat × Nat → Nat × Nat → Nat × Nat × K) :
    rowMap.enum.flatMap (fun iI => colMap.enum.map (fun jJ => put iI jJ))
      = blockPuts rowMap colMap (fun i j => put (i, rowMap.getD i 0) (j, colMap.getD j 0)) := by
  simp only [blockPuts, enum_eq_map_range, List.flatMap_map, List.map_map]
  rfl

theorem length_blockPuts {K : Type} (rowMap colMap : List Nat)
    (entry : Nat → Nat → Nat × Nat × K) :
    (blockPuts rowMap colMap entry).length = rowMap.length * colMap.length := by
  simp [blockPuts, List.length_flatMap, Function.comp_def]

/-- The triples of the assembly are the entries of the seven local matrices, each index pair
once. -/
theorem kbPuts_perm {K : Type} (o : ElemUP K) (Fmap : List Nat)
    (Kpp Kpf Kfp Kff Kuu Kpu Kup : Nat × Nat → K) :
    List.Perm (kbPuts o Fmap Kpp Kpf Kfp Kff Kuu Kpu Kup)
      (blockPuts o.Pmap o.Pmap (fun i j => (o.Pmap.getD i 0, o.Pmap.getD j 0, Kpp (i, j))) ++
        ((blockPuts o.Pmap Fmap (fun i j => (o.Pmap.getD i 0, Fmap.getD j 0, Kpf (i, j))) ++
          blockPuts o.Pmap Fmap (fun i j => (Fmap.getD j 0, o.Pmap.getD i 0, Kfp (j, i)))) ++
        (blockPuts o.Pmap o.Umap (fun i j => (o.Pmap.getD i 0, o.Umap.getD j 0, Kpu (i, j))) ++
          blockPuts o.Pmap o.Umap (fun i j => (o.Umap.getD j 0, o.Pmap.getD i 0, Kup (j, i))))) ++
        (blockPuts Fmap Fmap (fun i j => (Fmap.getD i 0, Fmap.getD j 0, Kff (i, j))) ++
          blockPuts o.Umap o.Umap (fun i j => (o.Umap.getD i 0, o.Umap.getD j 0, Kuu (i, j))))) := by
  unfold kbPuts
  refine List.Perm.append ?_ (by
    rw [enum_block Fmap Fmap (fun iI jJ => (iI.2, jJ.2, Kff (iI.1, jJ.1))),
      enum_block o.Umap o.Umap (fun iI jJ => (iI.2, jJ.2, Kuu (iI.1, jJ.1)))])
  have hPF : List.Perm (o.Pmap.enum.flatMap (fun iI => Fmap.enum.flatMap (fun jJ =>
        [(iI.2, jJ.2, Kpf (iI.1, jJ.1)), (jJ.2, iI.2, Kfp (jJ.1, iI.1))])))
      (blockPuts o.Pmap Fmap (fun i j => (o.Pmap.getD i 0, Fmap.getD j 0, Kpf (i, j))) ++
        blockPuts o.Pmap Fmap (fun i j => (Fmap.getD j 0, o.Pmap.getD i 0, Kfp (j, i)))) := by
    refine (List.Perm.flatMap_left _ (fun iI _ => flatMap_pair_perm Fmap.enum
      (fun jJ => (iI.2, jJ.2, Kpf (iI.1, jJ.1))) (fun jJ => (jJ.2, iI.2, Kfp (jJ.1, iI.1))))).trans ?_
    refine (List.flatMap_append_perm _ _ _).symm.trans ?_
    rw [enum_block o.Pmap Fmap (fun iI jJ => (iI.2, jJ.2, Kpf (iI.1, jJ.1))),
      enum_block o.Pmap Fmap (fun iI jJ => (jJ.2, iI.2, Kfp (jJ.1, iI.1)))]
  have hPU : List.Perm (o.Pmap.enum.flatMap (fun iI => o.Umap.enum.flatMap (fun jJ =>
        [(iI.2, jJ.2, Kpu (iI.1, jJ.1)), (jJ.2, iI.2, Kup (jJ.1, iI.1))])))
      (blockPuts o.Pmap o.Umap (fun i j => (o.Pmap.getD i 0, o.Umap.getD j 0, Kpu (i, j))) ++
        blockPuts o.Pmap o.Umap (fun i j => (o.Umap.getD j 0, o.Pmap.getD i 0, Kup (j, i)))) := by
    refine (List.Perm.flatMap_left _ (fun iI _ => flatMap_pair_perm o.Umap.enum
      (fun jJ => (iI.2, jJ.2, Kpu (iI.1, jJ.1))) (fun jJ => (jJ.2, iI.2, Kup (jJ.1, iI.1))))).trans ?_
    refine (List.flatMap_append_perm _ _ _).symm.trans ?_
    rw [enum_block o.Pmap o.Umap (fun iI jJ => (iI.2, jJ.2, Kpu (iI.1, jJ.1))),
      enum_block o.Pmap o.Umap (fun iI jJ => (jJ.2, iI.2, Kup (jJ.1, iI.1)))]
  refine (List.flatMap_append_perm _ _ _).symm.trans ?_
  rw [enum_block o.Pmap o.Pmap (fun iI jJ => (iI.2, jJ.2, Kpp (iI.1, jJ.1)))]
  refine List.Perm.append_left _ ?_
  exact (List.flatMap_append_perm _ _ _).symm.trans (List.Perm.append hPF hPU)

section
variable {K : Type} [LinearOrderedField K]

/-- The loop over the integration points of `AddToKb` ends with false when one of them
fails. -/
theorem kbLoop_fail (o : ElemUP K) (sol : Solution K) (firstIt : Bool) (l : List Nat)
    (st : (Nat × Nat → K) × (Nat × Nat → K))
    (h : ∃ idx ∈ l, ipLocals o sol idx true = none ∨ o.CalcD idx firstIt = false) :
    (kbLoop o sol firstIt l st).2 = false := by
  induction l generalizing st with
  | nil => obtain ⟨_, hm, _⟩ := h; cases hm
  | cons a l ih =>
    obtain ⟨Kpu, Kup⟩ := st
    simp only [kbLoop]
    cases he : ipLocals o sol a true with
    | none => rfl
    | some e =>
      simp only
      cases hd : o.CalcD a firstIt with
      | false => simp
      | true =>
        simp only [if_true]
        refine ih _ ?_
        obtain ⟨idx, hm, hf⟩ := h
        rcases List.mem_cons.mp hm with rfl | hm
        · rcases hf with hf | hf
          · rw [he] at hf; cases hf
          · rw [hd] at hf; cases hf
        · exact ⟨idx, hm, hf⟩

/-- C27: when `AddToKb` succeeds, the triples it puts into `Kb` are the entries of the local
matrices `Kpp`, `Kpf`, `Kfp`, `Kpu`, `Kup`, `Kff` and `Kuu`, each index pair of each
matrix once, at the positions given by `Pmap`, `Fmap` and `Umap`, and their number is
`Np² + 2·Np·Nf + 2·Np·Nu + Nf² + Nu²` for maps of the lengths `Np`, `Nf` and `Nu`; when it
returns false, and so when an integration point fails, no triple is put. -/
theorem AddToKbPuts_spec (o : ElemUP K)
    (natbcs_jac : (Nat × Nat → K) × (Nat × Nat → K) → ((Nat × Nat → K) × (Nat × Nat → K)) × Bool)
    (sol : Solution K) (firstIt : Bool) (Fmap : List Nat)
    (Kpp Kpf Kfp Kff Kuu Kpu Kup : Nat × Nat → K) :
    ((AddToKb o natbcs_jac sol firstIt Kpu Kup).2 = true →
      (AddToKbPuts o natbcs_jac sol firstIt Fmap Kpp Kpf Kfp Kff Kuu Kpu Kup).2 = true ∧
      List.Perm (AddToKbPuts o natbcs_jac sol firstIt Fmap Kpp Kpf Kfp Kff Kuu Kpu Kup).1
        (blockPuts o.Pmap o.Pmap (fun i j => (o.Pmap.getD i 0, o.Pmap.getD j 0, Kpp (i, j))) ++
          ((blockPuts o.Pmap Fmap (fun i j => (o.Pmap.getD i 0, Fmap.getD j 0, Kpf (i, j))) ++
            blockPuts o.Pmap Fmap (fun i j => (Fmap.getD j 0, o.Pmap.getD i 0, Kfp (j, i)))) ++
          (blockPuts o.Pmap o.Umap (fun i j => (o.Pmap.getD i 0, o.Umap.getD j 0,
              (AddToKb o natbcs_jac sol firstIt Kpu Kup).1.1 (i, j))) ++
            blockPuts o.Pmap o.Umap (fun i j => (o.Umap.getD j 0, o.Pmap.getD i 0,
              (AddToKb o natbcs_jac sol firstIt Kpu Kup).1.2 (j, i))))) ++
          (blockPuts Fmap Fmap (fun i j => (Fmap.getD i 0, Fmap.getD j 0, Kff (i, j))) ++
            blockPuts o.Umap o.Umap (fun i j =>
              (o.Umap.getD i 0, o.Umap.getD j 0, Kuu (i, j))))) ∧
      (AddToKbPuts o natbcs_jac sol firstIt Fmap Kpp Kpf Kfp Kff Kuu Kpu Kup).1.length
        = o.Pmap.length ^ 2 + 2 * o.Pmap.length * Fmap.length
          + 2 * o.Pmap.length * o.Umap.length + Fmap.length ^ 2 + o.Umap.length ^ 2) ∧
    ((AddToKb o natbcs_jac sol firstIt Kpu Kup).2 = false →
      AddToKbPuts o natbcs_jac sol firstIt Fmap Kpp Kpf Kfp Kff Kuu Kpu Kup = ([], false)) ∧
    ((∃ idx, idx < o.Nip ∧ (ipLocals o sol idx true = none ∨ o.CalcD idx firstIt = false)) →
      AddToKbPuts o natbcs_jac sol firstIt Fmap Kpp Kpf Kfp Kff Kuu Kpu Kup = ([], false)) := by
  have hfalse : (AddToKb o natbcs_jac sol firstIt Kpu Kup).2 = false →
      AddToKbPuts o natbcs_jac sol firstIt Fmap Kpp Kpf Kfp Kff Kuu Kpu Kup = ([], false) := by
    intro h
    unfold AddToKbPuts
    rcases hA : AddToKb o natbcs_jac sol firstIt Kpu Kup with ⟨⟨A, B⟩, b⟩
    rw [hA] at h
    cases h
    rfl
  refine ⟨fun h => ?_, hfalse, fun ⟨idx, hidx, hf⟩ => hfalse ?_⟩
  · have hval : AddToKbPuts o natbcs_jac sol firstIt Fmap Kpp Kpf Kfp Kff Kuu Kpu Kup
        = (kbPuts o Fmap Kpp Kpf Kfp Kff Kuu (AddToKb o natbcs_jac sol firstIt Kpu Kup).1.1
            (AddToKb o natbcs_jac sol firstIt Kpu Kup).1.2, true) := by
      unfold AddToKbPuts
      rcases hA : AddToKb o natbcs_jac sol firstIt Kpu Kup with ⟨⟨A, B⟩, b⟩
      rw [hA] at h
      cases h
      rfl
    rw [hval]
    refine ⟨rfl, kbPuts_perm _ _ _ _ _ _ _ _ _, ?_⟩
    rw [(kbPuts_perm _ _ _ _ _ _ _ _ _).length_eq]
    simp only [List.length_append, length_blockPuts]
    ring
  · unfold AddToKb
    have hl := kbLoop_fail o sol firstIt (List.range o.Nip) (clearKpu o Kpu, clearKup o Kup)
      ⟨idx, List.mem_range.mpr hidx, hf⟩
    rcases hloop : kbLoop o sol firstIt (List.range o.Nip) (clearKpu o Kpu, clearKup o Kup)
      with ⟨st, b⟩
    rw [hloop] at hl
    cases hl
    rfl

end

/-- C27, witness: the example element with one flux equation 9; 9 + 6 + 36 + 1 + 36 = 88
triples, and none when the tangent of the first integration point fails. -/
theorem AddToKbPuts_spec_witness :
    (AddToKbPuts exampleElem (fun st => (st, true)) exampleSol true [9] (fun _ => 1) (fun _ => 2)
      (fun _ => 3) (fun _ => 4) (fun _ => 5) (fun _ => 7) (fun _ => 7)).1.length = 88 ∧
    AddToKbPuts { exampleElem with CalcD := fun idx _ => decide (idx ≠ 0) } (fun st => (st, true))
      exampleSol true [9] (fun _ => 1) (fun _ => 2) (fun _ => 3) (fun _ => 4) (fun _ => 5)
      (fun _ => 7) (fun _ => 7) = ([], false) := by
  have hok : (AddToKb exampleElem (fun st => (st, true)) exampleSol true (fun _ => 7)
      (fun _ => 7)).2 = true := by
    simp [AddToKb, kbLoop, ipLocals, ipvars, exampleElem, List.range_succ]
  refine ⟨((AddToKbPuts_spec exampleElem (fun st => (st, true)) exampleSol true [9] (fun _ => 1)
    (fun _ => 2) (fun _ => 3) (fun _ => 4) (fun _ => 5) (fun _ => 7) (fun _ => 7)).1 hok).2.2.trans
      (by decide), ?_⟩
  exact (AddToKbPuts_spec { exampleElem with CalcD := fun idx _ => decide (idx ≠ 0) }
    (fun st => (st, true)) exampleSol true [9] (fun _ => 1) (fun _ => 2) (fun _ => 3)
    (fun _ => 4) (fun _ => 5) (fun _ => 7) (fun _ => 7)).2.2
    ⟨0, by decide, Or.inr (by decide)⟩

/-! ## The seepage face in the Jacobian -/

/-- A loop keeps what each run of its body keeps. -/
theorem forEach_invariant {α S : Type} (body : α → S → S × Bool) (I : S → Prop) :
    ∀ (l : List α), (∀ a ∈ l, ∀ s, I s → I (body a s).1) → ∀ s : S, I s → I (forEach body l s).1 := by
  intro l
  induction l with
  | nil => exact fun _ s hs => hs
  | cons a l ih =>
    intro hbody s hs
    simp only [forEach]
    have h1 := hbody a (List.mem_cons_self _ _) s hs
    rcases hb : body a s with ⟨s1, b⟩
    rw [hb] at h1
    cases b with
    | false => exact h1
    | true => exact ih (fun a1 ha1 => hbody a1 (List.mem_cons_of_mem _ ha1)) s1 h1

section
variable {K : Type} [LinearOrderedField K]

theorem seepCmds_eq (o : ElemUP K) (f : SeepFaces K) (iface : Nat) (coef : K) (Sf : Nat → K)
    (rmp : K) :
    seepCmds o f iface coef Sf rmp
      = (List.range (f.FaceLocalV iface).length).flatMap (fun i =>
          (List.range o.u_nverts).flatMap (fun n =>
            (List.range o.Ndim).flatMap (fun j =>
              (List.range (f.FaceLocalV iface).length).map (fun l =>
                (((f.FaceLocalV iface).getD i 0, j + n * o.Ndim),
                  coef * Sf i * Sf l
                    * f.dρldus_ex ((f.FaceLocalV iface).getD l 0, j + n * o.Ndim) * rmp))))) := by
  simp only [seepCmds, enum_eq_map_range, List.flatMap_map, List.map_map]
  rfl

theorem seepCmds_keys (o : ElemUP K) (f : SeepFaces K) (iface : Nat) (coef : K) (Sf : Nat → K)
    (rmp : K) (c : (Nat × Nat) × K) (hc : c ∈ seepCmds o f iface coef Sf rmp) :
    c.1.1 ∈ f.FaceLocalV iface ∧ c.1.2 < o.Ndim * o.u_nverts := by
  rw [seepCmds_eq] at hc
  simp only [List.mem_flatMap, List.mem_map, List.mem_range] at hc
  obtain ⟨i, hi, n, hn, j, hj, l, _, rfl⟩ := hc
  exact ⟨getD_mem_of_lt _ _ hi, dof_index_lt _ _ j n hj hn⟩

theorem keySum_seepCmds (o : ElemUP K) (f : SeepFaces K) (iface : Nat) (coef : K)
    (Sf : Nat → K) (rmp : K) (hnd : (f.FaceLocalV iface).Nodup) (i n j : Nat)
    (hi : i < (f.FaceLocalV iface).length) (hn : n < o.u_nverts) (hj : j < o.Ndim) :
    keySum (seepCmds o f iface coef Sf rmp) ((f.FaceLocalV iface).getD i 0, j + n * o.Ndim)
      = ∑ l in Finset.range (f.FaceLocalV iface).length,
          coef * Sf i * Sf l * f.dρldus_ex ((f.FaceLocalV iface).getD l 0, j + n * o.Ndim) * rmp := by
  rw [seepCmds_eq, keySum_flatMap_range, Finset.sum_eq_single i]
  · rw [keySum_flatMap_range, Finset.sum_eq_single n]
    · rw [keySum_flatMap_range, Finset.sum_eq_single j]
      · rw [keySum_map_range]
        simp only [if_true]
      · intro j1 hj1 hne
        refine keySum_of_not_mem _ _ (fun c hc h => hne ?_)
        simp only [List.mem_map, List.mem_range] at hc
        obtain ⟨l, _, rfl⟩ := hc
        exact (dof_index_inj _ _ _ _ _ (Finset.mem_range.mp hj1) hj (Prod.mk.inj h).2).1
      · intro h
        exact absurd (Finset.mem_range.mpr hj) h
    · intro n1 _ hne
      refine keySum_of_not_mem _ _ (fun c hc h => hne ?_)
      simp only [List.mem_flatMap, List.mem_map, List.mem_range] at hc
      obtain ⟨j1, hj1, l, _, rfl⟩ := hc
      exact (dof_index_inj _ _ _ _ _ hj1 hj (Prod.mk.inj h).2).2
    · intro h
      exact absurd (Finset.mem_range.mpr hn) h
  · intro i1 hi1 hne
    refine keySum_of_not_mem _ _ (fun c hc h => hne ?_)
    simp only [List.mem_flatMap, List.mem_map, List.mem_range] at hc
    obtain ⟨n1, _, j1, _, l, _, rfl⟩ := hc
    exact getD_inj_of_nodup _ hnd _ _ (Finset.mem_range.mp hi1) hi (Prod.mk.inj h).1
  · intro h
    exact absurd (Finset.mem_range.mpr hi) h

/-- One face integration point leaves the entries outside the rows of the face and outside
the displacement columns, and every entry when the key is not "seep". -/
theorem natbcsFaceIp_frame (o : ElemUP K) (f : SeepFaces K) (sol : Solution K) (idx : Nat)
    (nbc : NaturalBc K) (jdx : Nat) (Kpu : Nat × Nat → K) (m c : Nat)
    (h : nbc.Key ≠ "seep" ∨ m ∉ f.FaceLocalV nbc.IdxFace ∨ o.Ndim * o.u_nverts ≤ c) :
    (natbcsFaceIp o f sol idx nbc jdx Kpu).1 (m, c) = Kpu (m, c) := by
  unfold natbcsFaceIp
  cases hc : f.CalcAtFaceIp jdx nbc.IdxFace with
  | none => rfl
  | some sj =>
    obtain ⟨Sf, Jf⟩ := sj
    simp only
    by_cases hk : nbc.Key = "seep"
    · simp only [if_pos hk]
      rw [addAll_apply, keySum_of_not_mem, add_zero]
      intro cmd hcmd hkey
      have hkeys := seepCmds_keys o f _ _ _ _ cmd hcmd
      rw [hkey] at hkeys
      rcases h with h | h | h
      · exact h hk
      · exact h hkeys.1
      · exact absurd hkeys.2 (not_lt.mpr h)
    · simp only [if_neg hk]

theorem add_natbcs_to_jac_frame (o : ElemUP K) (f : SeepFaces K) (sol : Solution K)
    (Kpu : Nat × Nat → K) (m c : Nat)
    (h : ∀ nbc ∈ f.NatBcs,
      nbc.Key ≠ "seep" ∨ m ∉ f.FaceLocalV nbc.IdxFace ∨ o.Ndim * o.u_nverts ≤ c) :
    (add_natbcs_to_jac o f sol Kpu).1 (m, c) = Kpu (m, c) := by
  unfold add_natbcs_to_jac
  refine forEach_invariant _ (fun s => s (m, c) = Kpu (m, c)) _ (fun inb hinb s hs => ?_) Kpu rfl
  have hmem : inb.2 ∈ f.NatBcs := by
    obtain ⟨i, nbc⟩ := inb
    rw [(List.mem_enum hinb).2]
    exact List.getElem_mem _
  refine forEach_invariant _ (fun s => s (m, c) = Kpu (m, c)) _ (fun jdx _ s1 hs1 => ?_) s hs
  show (natbcsFaceIp o f sol inb.1 inb.2 jdx s1).1 (m, c) = Kpu (m, c)
  rw [natbcsFaceIp_frame o f sol inb.1 inb.2 jdx s1 m c (h _ hmem)]
  exact hs1

/-- Two lists of statements run one after the other are the appended list. -/
theorem addAll_append {ι : Type} [DecidableEq ι] (s : ι → K) (l1 l2 : List (ι × K)) :
    addAll (addAll s l1) l2 = addAll s (l1 ++ l2) := by
  simp [addAll, List.foldl_append]

/-- A loop whose body runs, for every element, a list of statements `f[k] += v` and goes on,
runs all these lists in their order and is left at its end. -/
theorem forEach_addAll {α ι : Type} [DecidableEq ι] (body : α → (ι → K) → (ι → K) × Bool)
    (cmds : α → List (ι × K)) :
    ∀ (l : List α), (∀ a ∈ l, ∀ s, body a s = (addAll s (cmds a), true)) →
      ∀ s, forEach body l s = (addAll s (l.flatMap cmds), true) := by
  intro l
  induction l with
  | nil => exact fun _ s => rfl
  | cons a l ih =>
    intro h s
    simp only [forEach]
    rw [h a (List.mem_cons_self _ _) s]
    simp only
    rw [ih (fun a1 ha1 => h a1 (List.mem_cons_of_mem _ ha1)), addAll_append, List.flatMap_cons]

/-- What the statements of one face integration point add to an entry of a displacement
column: the terms of the face-local vertex pairs `(i, l)` whose first vertex is the row. -/
theorem keySum_seepCmds_row (o : ElemUP K) (f : SeepFaces K) (iface : Nat) (coef : K)
    (Sf : Nat → K) (rmp : K) (m n j : Nat) (hn : n < o.u_nverts) (hj : j < o.Ndim) :
    keySum (seepCmds o f iface coef Sf rmp) (m, j + n * o.Ndim)
      = ∑ i in Finset.range (f.FaceLocalV iface).length,
          if (f.FaceLocalV iface).getD i 0 = m then
            ∑ l in Finset.range (f.FaceLocalV iface).length,
              coef * Sf i * Sf l
                * f.dρldus_ex ((f.FaceLocalV iface).getD l 0, j + n * o.Ndim) * rmp
          else 0 := by
  rw [seepCmds_eq, keySum_flatMap_range]
  refine Finset.sum_congr rfl (fun i _ => ?_)
  by_cases hm : (f.FaceLocalV iface).getD i 0 = m
  · rw [if_pos hm, keySum_flatMap_range, Finset.sum_eq_single n]
    · rw [keySum_flatMap_range, Finset.sum_eq_single j]
      · rw [keySum_map_range]
        simp only [hm, if_true]
      · intro j1 hj1 hne
        refine keySum_of_not_mem _ _ (fun c hc h => hne ?_)
        simp only [List.mem_map, List.mem_range] at hc
        obtain ⟨l, _, rfl⟩ := hc
        exact (dof_index_inj _ _ _ _ _ (Finset.mem_range.mp hj1) hj (Prod.mk.inj h).2).1
      · intro h
        exact absurd (Finset.mem_range.mpr hj) h
    · intro n1 _ hne
      refine keySum_of_not_mem _ _ (fun c hc h => hne ?_)
      simp only [List.mem_flatMap, List.mem_map, List.mem_range] at hc
      obtain ⟨j1, hj1, l, _, rfl⟩ := hc
      exact (dof_index_inj _ _ _ _ _ hj1 hj (Prod.mk.inj h).2).2
    · intro h
      exact absurd (Finset.mem_range.mpr hn) h
  · rw [if_neg hm]
    refine keySum_of_not_mem _ _ (fun c hc h => hm ?_)
    simp only [List.mem_flatMap, List.mem_map, List.mem_range] at hc
    obtain ⟨n1, _, j1, _, l, _, rfl⟩ := hc
    exact (Prod.mk.inj h).1

/-- One face integration point whose shape functions are computed runs the statements of the
case "seep", or none for another key, and goes on. -/
theorem natbcsFaceIp_eq (o : ElemUP K) (f : SeepFaces K) (sol : Solution K) (idx : Nat)
    (nbc : NaturalBc K) (jdx : Nat) (A : Nat × Nat → K) (Sf : Nat → K) (Jf : K)
    (hc : f.CalcAtFaceIp jdx nbc.IdxFace = some (Sf, Jf)) :
    natbcsFaceIp o f sol idx nbc jdx A =
      (addAll A (if nbc.Key = "seep" then
        seepCmds o f nbc.IdxFace (f.Wf jdx * Jf) Sf (seepRamp f sol idx nbc jdx) else []),
        true) := by
  unfold natbcsFaceIp
  rw [hc]
  by_cases hk : nbc.Key = "seep"
  · simp only [if_pos hk]
  · simp only [if_neg hk]
    rfl

/-- When the shape functions are computed at every face integration point of every
condition, `add_natbcs_to_jac` runs the statements of all the points of all the conditions,
in the order of the two loops, and returns true. -/
theorem add_natbcs_to_jac_eq (o : ElemUP K) (f : SeepFaces K) (sol : Solution K)
    (Kpu : Nat × Nat → K) (Sf : Nat → Nat → Nat → K) (Jf : Nat → Nat → K)
    (hcalc : ∀ nbc ∈ f.NatBcs, ∀ jdx, jdx < f.NipFace →
      f.CalcAtFaceIp jdx nbc.IdxFace = some (Sf jdx nbc.IdxFace, Jf jdx nbc.IdxFace)) :
    add_natbcs_to_jac o f sol Kpu =
      (addAll Kpu (f.NatBcs.enum.flatMap (fun inb =>
        (List.range f.NipFace).flatMap (fun jdx =>
          if inb.2.Key = "seep" then
            seepCmds o f inb.2.IdxFace (f.Wf jdx * Jf jdx inb.2.IdxFace) (Sf jdx inb.2.IdxFace)
              (seepRamp f sol inb.1 inb.2 jdx)
          else []))), true) := by
  unfold add_natbcs_to_jac
  refine forEach_addAll _ _ _ (fun inb hinb s => ?_) Kpu
  have hmem : inb.2 ∈ f.NatBcs := by
    obtain ⟨i, nbc⟩ := inb
    rw [(List.mem_enum hinb).2]
    exact List.getElem_mem _
  refine forEach_addAll _ _ _ (fun jdx hjdx s1 => ?_) s
  exact natbcsFaceIp_eq o f sol inb.1 inb.2 jdx s1 _ _
    (hcalc inb.2 hmem jdx (List.mem_range.mp hjdx))

/-- C28: `add_natbcs_to_jac` on `Kpu`.  (1) When the shape functions `Sf` and the norm `Jf`
are computed at every face integration point of every condition, the call returns true and
the entry `Kpu[m][c]` of every row `m` and displacement column `c = j + n·ndim` has received,
for each condition with the key "seep" (index `idx`, face `iface`), each face integration
point `jdx` and each pair `(i, l)` of face-local vertex numbers with `FaceLocalV[iface][i] = m`
and `r = FaceLocalV[iface][l]`, the term `coef·Sf[i]·Sf[l]·dρldus_ex[r][c]·rmp`, with
`coef = w·Jf` and `rmp` the ramp function at `fl + κ·(pl - plmax)`, where
`plmax = max(0, Plmax[idx][jdx] - shift(t))`, and nothing else.  (2) Whether the call returns
true or false, an entry in the row of a vertex that is on no face with the key "seep", and
(3) an entry outside the displacement columns, keeps its value, and (4) without a condition
with the key "seep" nothing is changed.  (`Kpu` is the only matrix to which the function
assigns.) -/
theorem add_natbcs_to_jac_spec (o : ElemUP K) (f : SeepFaces K) (sol : Solution K)
    (Kpu : Nat × Nat → K) :
    (∀ (Sf : Nat → Nat → Nat → K) (Jf : Nat → Nat → K),
      (∀ nbc ∈ f.NatBcs, ∀ jdx, jdx < f.NipFace →
        f.CalcAtFaceIp jdx nbc.IdxFace = some (Sf jdx nbc.IdxFace, Jf jdx nbc.IdxFace)) →
      (add_natbcs_to_jac o f sol Kpu).2 = true ∧
      ∀ m n j, n < o.u_nverts → j < o.Ndim →
        (add_natbcs_to_jac o f sol Kpu).1 (m, j + n * o.Ndim)
          = Kpu (m, j + n * o.Ndim)
            + (f.NatBcs.enum.map (fun inb =>
                if inb.2.Key = "seep" then
                  ∑ jdx in Finset.range f.NipFace,
                    ∑ i in Finset.range (f.FaceLocalV inb.2.IdxFace).length,
                      if (f.FaceLocalV inb.2.IdxFace).getD i 0 = m then
                        ∑ l in Finset.range (f.FaceLocalV inb.2.IdxFace).length,
                          f.Wf jdx * Jf jdx inb.2.IdxFace * Sf jdx inb.2.IdxFace i
                            * Sf jdx inb.2.IdxFace l
                            * f.dρldus_ex ((f.FaceLocalV inb.2.IdxFace).getD l 0, j + n * o.Ndim)
                            * f.ramp ((f.fipvars jdx inb.2.IdxFace sol).2
                                + f.κ * ((f.fipvars jdx inb.2.IdxFace sol).1
                                  - max 0 (f.Plmax inb.1 jdx - inb.2.Fcn sol.T)))
                      else 0
                else 0)).sum) ∧
    (∀ m c, (∀ nbc ∈ f.NatBcs, nbc.Key = "seep" → m ∉ f.FaceLocalV nbc.IdxFace) →
      (add_natbcs_to_jac o f sol Kpu).1 (m, c) = Kpu (m, c)) ∧
    (∀ m c, o.Ndim * o.u_nverts ≤ c → (add_natbcs_to_jac o f sol Kpu).1 (m, c) = Kpu (m, c)) ∧
    ((∀ nbc ∈ f.NatBcs, nbc.Key ≠ "seep") → (add_natbcs_to_jac o f sol Kpu).1 = Kpu) := by
  refine ⟨?_, fun m c h => ?_, fun m c h => ?_, fun h => ?_⟩
  · intro Sf Jf hcalc
    have hmax : ∀ x : K, (if x < 0 then 0 else x) = max 0 x := by
      intro x
      by_cases hx : x < 0
      · rw [if_pos hx, max_eq_left (le_of_lt hx)]
      · rw [if_neg hx, max_eq_right (not_lt.mp hx)]
    rw [add_natbcs_to_jac_eq o f sol Kpu Sf Jf hcalc]
    refine ⟨rfl, fun m n j hn hj => ?_⟩
    dsimp only
    rw [addAll_apply, keySum_flatMap]
    refine congrArg _ (congrArg List.sum (List.map_congr_left (fun inb _ => ?_)))
    rw [keySum_flatMap_range]
    by_cases hk : inb.2.Key = "seep"
    · simp only [if_pos hk]
      refine Finset.sum_congr rfl (fun jdx _ => ?_)
      rw [keySum_seepCmds_row o f _ _ _ _ m n j hn hj]
      simp only [seepRamp, hmax]
    · simp only [if_neg hk, keySum_nil, Finset.sum_const_zero]
  · refine add_natbcs_to_jac_frame o f sol Kpu m c (fun nbc hnbc => ?_)
    by_cases hk : nbc.Key = "seep"
    · exact Or.inr (Or.inl (h nbc hnbc hk))
    · exact Or.inl hk
  · exact add_natbcs_to_jac_frame o f sol Kpu m c (fun _ _ => Or.inr (Or.inr h))
  · funext mc
    obtain ⟨m, c⟩ := mc
    exact add_natbcs_to_jac_frame o f sol Kpu m c (fun nbc hnbc => Or.inl (h nbc hnbc))

end

/-- C28, witness: the example faces on the example element, every entry of `Kpu` being 7
before the call.  The seepage face has the vertices 0 and 1 and two face integration points,
each of which adds `3·(1/2)·(1/2)·(1 + 2)·5 = 45/4` to the entry of the vertex 0 in the
column 0: the call returns true and leaves `7 + 45/2 = 59/2` there; the row of the
vertex 2 is unchanged. -/
theorem add_natbcs_to_jac_spec_witness :
    (add_natbcs_to_jac exampleElem exampleFaces exampleSol (fun _ => 7)).2 = true ∧
    (add_natbcs_to_jac exampleElem exampleFaces exampleSol (fun _ => 7)).1 (0, 0 + 0 * 2)
      = 59 / 2 ∧
    (add_natbcs_to_jac exampleElem exampleFaces exampleSol (fun _ => 7)).1 (2, 0) = 7 := by
  have h := add_natbcs_to_jac_spec exampleElem exampleFaces exampleSol (fun _ => 7)
  obtain ⟨h1, h2⟩ := h.1 (fun _ _ _ => 1 / 2) (fun _ _ => 3) (fun _ _ _ _ => rfl)
  refine ⟨h1, ?_, h.2.1 2 0 (by simp [exampleFaces])⟩
  refine (h2 0 0 0 (by decide) (by decide)).trans ?_
  simp [exampleFaces, exampleSol, Finset.sum_range_succ, List.enum, List.enumFrom]
  norm_num

end fem

namespace msolid

section
variable {K : Type} [LinearOrderedField K]

/-- Orthonormal columns of a 3×3 matrix give orthonormal rows. -/
theorem rows_orthonormal (n : Nat → Nat → K)
    (hO : ∀ k l : Fin 3, ∑ i : Fin 3, n i k * n i l = if k = l then 1 else 0) (i j : Fin 3) :
    ∑ k : Fin 3, n i k * n j k = if i = j then 1 else 0 := by
  have h1 : (Matrix.of (fun i k : Fin 3 => n i k)).transpose * Matrix.of (fun i k : Fin 3 => n i k)
      = 1 := by
    ext k l
    rw [Matrix.mul_apply, Matrix.one_apply]
    simpa using hO k l
  have h2 := Matrix.mul_eq_one_comm.mp h1
  have h3 := congrFun (congrFun h2 i) j
  rw [Matrix.mul_apply, Matrix.one_apply] at h3
  simpa using h3

/-- The matrix that `SpectralCompose` leaves in `tmp` and hands to `tsr.Ten2Man` together
with `m`: `tmp[i][j] = Σₖ λ[k]·n[i][k]·n[j][k]`.  Its entries `00`, `11`, `22` and `01`, `12`,
`20` times `SQ2` are `Σₖ λ[k]·P[k][c]` for `c = 0, …, 5` and the rows `P[k]` that
`Eigenprojectors` computes (`c < 4` for four components); and when the columns of `n` are
orthonormal and `A·nₖ = λ[k]·nₖ` for each of them, `tmp` is `A`. -/
theorem SpectralCompose_tmp (Ten2Man : (Nat → K) → (Nat → Nat → K) → Option (Nat → K))
    (SQ2 : K) (ncp : Nat) (m lam : Nat → K) (n tmp P : Nat → Nat → K) :
    (∀ i j, i < 3 → j < 3 → (SpectralCompose Ten2Man m lam n tmp).2 i j
      = ∑ k in Finset.range 3, lam k * (n i k * n j k)) ∧
    (SpectralCompose Ten2Man m lam n tmp).1
      = Ten2Man m (SpectralCompose Ten2Man m lam n tmp).2 ∧
    ((SpectralCompose Ten2Man m lam n tmp).2 0 0
        = ∑ k in Finset.range 3, lam k * Eigenprojectors SQ2 ncp P n k 0 ∧
      (SpectralCompose Ten2Man m lam n tmp).2 1 1
        = ∑ k in Finset.range 3, lam k * Eigenprojectors SQ2 ncp P n k 1 ∧
      (SpectralCompose Ten2Man m lam n tmp).2 2 2
        = ∑ k in Finset.range 3, lam k * Eigenprojectors SQ2 ncp P n k 2 ∧
      (SpectralCompose Ten2Man m lam n tmp).2 0 1 * SQ2
        = ∑ k in Finset.range 3, lam k * Eigenprojectors SQ2 ncp P n k 3 ∧
      (ncp = 6 →
        (SpectralCompose Ten2Man m lam n tmp).2 1 2 * SQ2
          = ∑ k in Finset.range 3, lam k * Eigenprojectors SQ2 ncp P n k 4 ∧
        (SpectralCompose Ten2Man m lam n tmp).2 2 0 * SQ2
          = ∑ k in Finset.range 3, lam k * Eigenprojectors SQ2 ncp P n k 5)) ∧
    (∀ A : Nat → Nat → K,
      (∀ k l : Fin 3, ∑ i : Fin 3, n i k * n i l = if k = l then 1 else 0) →
      (∀ i k : Fin 3, ∑ l : Fin 3, A i l * n l k = lam k * n i k) →
      ∀ i j, i < 3 → j < 3 → (SpectralCompose Ten2Man m lam n tmp).2 i j = A i j) := by
  have htmp : ∀ i j, i < 3 → j < 3 → (SpectralCompose Ten2Man m lam n tmp).2 i j
      = ∑ k in Finset.range 3, lam k * (n i k * n j k) := by
    intro i j hi hj
    simp only [SpectralCompose, hi, hj, and_self, if_true, Finset.sum_range_succ,
      Finset.sum_range_zero]
    ring
  refine ⟨htmp, rfl, ⟨?_, ?_, ?_, ?_, fun h6 => ⟨?_, ?_⟩⟩, ?_⟩
  · simp [SpectralCompose, Eigenprojectors, Finset.sum_range_succ]; ring
  · simp [SpectralCompose, Eigenprojectors, Finset.sum_range_succ]; ring
  · simp [SpectralCompose, Eigenprojectors, Finset.sum_range_succ]; ring
  · simp [SpectralCompose, Eigenprojectors, Finset.sum_range_succ]; ring
  · simp [SpectralCompose, Eigenprojectors, Finset.sum_range_succ, h6]; ring
  · simp [SpectralCompose, Eigenprojectors, Finset.sum_range_succ, h6]; ring
  · intro A hO hE i j hi hj
    rw [htmp i j hi hj, Finset.sum_range]
    have hR := rows_orthonormal n hO
    obtain ⟨i, rfl⟩ : ∃ a : Fin 3, i = a := ⟨⟨i, hi⟩, rfl⟩
    obtain ⟨j, rfl⟩ : ∃ a : Fin 3, j = a := ⟨⟨j, hj⟩, rfl⟩
    calc ∑ k : Fin 3, lam k * (n i k * n j k)
        = ∑ k : Fin 3, ∑ l : Fin 3, A i l * (n l k * n j k) := by
          refine Finset.sum_congr rfl (fun k _ => ?_)
          rw [← mul_assoc, ← hE i k, Finset.sum_mul]
          exact Finset.sum_congr rfl (fun l _ => by ring)
      _ = ∑ l : Fin 3, A i l * ∑ k : Fin 3, n l k * n j k := by
          rw [Finset.sum_comm]
          exact Finset.sum_congr rfl (fun l _ => by rw [Finset.mul_sum])
      _ = A i j := by
          simp only [hR, mul_ite, mul_one, mul_zero, Finset.sum_ite_eq', Finset.mem_univ,
            if_true]

end

end msolid
